import Mathlib

/-!
# minotar: streaming tar extraction

A shallow embedding of `src/minotar_extract.c` (with `minotar_internal.h`,
`minotar_tarball_data.h` and `minotar.h`).

* Bytes are natural numbers below 256; a `char` buffer is a `List Nat`.
* `size_t`, `uint64_t` and `unsigned long` are 64-bit: arithmetic on them is taken
  modulo `2^64`; `uint32_t`, `mode_t` modulo `2^32`.
* Calls into the C library that touch the filesystem are recorded, in order, as a
  list of `FsCall`; what they return is read from an `Env`.
* A store outside a buffer is undefined in C; `store` drops the bytes that fall
  outside.  A string read runs to the first NUL or to the end of the buffer.
* The width of the enum member `typeflag` is chosen by the compiler; the offsets
  of the members after it are functions of that width, `Env.sizeof_typeflag`.
* The loop of `minotar_decode` can run forever; it is modelled with a bound on
  the number of iterations and `none` for a run that exceeds it.
-/

namespace Minotar

/-! ## Data model -/

/-- The error codes of `minotar.h`, in declaration order. -/
inductive minotar_error_t where
  | MINOTAR_noerror
  | MINOTAR_invalid_parameter
  | MINOTAR_set_path_before_decode
  | MINOTAR_invalid_checksum
  | MINOTAR_invalid_path
  | MINOTAR_failed_to_create_file
  | MINOTAR_header_invalid
  | MINOTAR_out_of_memory
  | MINOTAR_unknown_error
  deriving DecidableEq, Repr

open minotar_error_t

/-- One call into the C library with an effect on the filesystem.  Paths and
link targets are the bytes of the C string passed; an open `FILE*` is named by
the path it was opened on. -/
inductive FsCall where
  | link (oldpath newpath : List Nat)
  | symlink (target linkpath : List Nat)
  | mknod (path : List Nat) (mode dev : Nat)
  | mkdir (path : List Nat) (mode : Nat)
  | mkfifo (path : List Nat) (mode : Nat)
  | fopen (path : List Nat)
  | fwrite (file : List Nat) (data : List Nat)
  | fclose (file : List Nat)
  | chmod (path : List Nat) (mode : Nat)
  deriving DecidableEq, Repr

/-- What the build and the operating system decide: the width of the enum
`tar_file_type_t`, whether `symlink` and `mknod` are preprocessor macros (the
`#if defined` tests of `minotar_create_file`), and the results of the library
calls. -/
structure Env where
  /-- The value of `sizeof(tar_file_type_t)`, the width of the `typeflag` member. -/
  sizeof_typeflag : Nat
  /-- Whether `#if defined (symlink)` holds. -/
  defined_symlink : Bool
  /-- Whether `#if defined (mknod)` holds. -/
  defined_mknod : Bool
  /-- Whether `malloc` of that many bytes returns a non-null pointer. -/
  malloc : Nat → Bool
  link : List Nat → List Nat → Int
  symlink : List Nat → List Nat → Int
  mknod : List Nat → Nat → Nat → Int
  mkdir : List Nat → Nat → Int
  mkfifo : List Nat → Nat → Int
  /-- Whether `fopen(path, "wb")` returns a non-null stream. -/
  fopen : List Nat → Bool
  stat : List Nat → Int

/-- The context `struct minotar_`.  The member `tarball_record_block` always
points at `record_header_buf` (set once by `minotar_init`), so the typed view is
read from the buffer.  `extract_path` and `file` are `none` for `NULL`. -/
structure minotar_ where
  extract_path : Option (List Nat)
  file : Option (List Nat)
  bytes_remaining : Nat
  rx_byte_offset : Nat
  error : minotar_error_t
  record_header_complete : Bool
  record_header_buf : List Nat
  deriving DecidableEq, Repr

/-! ## Machine arithmetic and C library helpers -/

/-- Number of values of a 64-bit word (`size_t`, `uint64_t`, `unsigned long`). -/
def WORD : Nat := 2 ^ 64

/-- Number of values of a 32-bit word (`uint32_t`, `mode_t`). -/
def WORD32 : Nat := 2 ^ 32

/-- Unsigned 64-bit subtraction with wrap-around. -/
def usub (a b : Nat) : Nat := (a % WORD + (WORD - b % WORD)) % WORD

/-- Unsigned 64-bit addition with wrap-around. -/
def uadd (a b : Nat) : Nat := (a + b) % WORD

/-- The value of a 64-bit pattern read as `ssize_t`. -/
def to_ssize (a : Nat) : Int := if a % WORD < 2 ^ 63 then (a % WORD : Nat) else (a % WORD : Nat) - (WORD : Int)

/-- The value of a 32-bit pattern read as `int32_t`. -/
def to_int32 (a : Nat) : Int := if a % WORD32 < 2 ^ 31 then (a % WORD32 : Nat) else (a % WORD32 : Nat) - (WORD32 : Int)

/-- The 32-bit pattern of an integer (conversion to `uint32_t`). -/
def of_int32 (a : Int) : Nat := (a % (WORD32 : Int)).toNat

/-- The value of a byte read as a signed `char`. -/
def schar (b : Nat) : Int := if b < 128 then (b : Int) else (b : Int) - 256

/-- `#define RECORD_BLOCK_ROUNDOFF (512)`. -/
def RECORD_BLOCK_ROUNDOFF : Nat := 512

/-- `#define MINOTAR_MIN(X, Y) (((X) < (Y)) ? (X) : (Y))`, on unsigned operands. -/
def MINOTAR_MIN (x y : Nat) : Nat := if x < y then x else y

/-- `#define MINOTAR_CALC_PADDING(idx, block_size)
  ((block_size - (offset ^ block_size)) & (block_size - 1))`.
The body does not use the parameter `idx`: it names `offset`, which at the one
place of use is the local variable `offset` of `minotar_parse`; it is the first
argument here.  `^` is exclusive or and the subtraction is on `size_t`. -/
def MINOTAR_CALC_PADDING (offset : Nat) (_idx : Nat) (block_size : Nat) : Nat :=
  Nat.land (usub block_size (Nat.xor offset block_size)) (block_size - 1)

/-- Store the bytes `src` into `dst` from index `off` on (`memcpy`, `memset`,
and the stores of `snprintf`); bytes that would fall outside `dst` are dropped. -/
def store (dst : List Nat) (off : Nat) (src : List Nat) : List Nat :=
  dst.take off ++ src.take (dst.length - off) ++ dst.drop (off + src.length)

/-- The C string that starts at index `off` of `buf`: the bytes before the first
NUL. -/
def cstr (buf : List Nat) (off : Nat) : List Nat :=
  (buf.drop off).takeWhile (fun b => b != 0)

/-- The macro `isspace` in the C locale. -/
def isspace (c : Nat) : Bool := c == 32 || (9 ≤ c && c ≤ 13)

/-- Octal digit characters. -/
def isodigit (c : Nat) : Bool := 48 ≤ c && c ≤ 55

/-- The value of a run of octal digit characters. -/
def octal_value (digits : List Nat) : Nat :=
  digits.foldl (fun acc c => acc * 8 + (c - 48)) 0

/-- The call `strtoul(s, NULL, 8)` on the bytes `s` that follow the pointer:
white space is skipped, one sign is accepted, the longest run of octal digits
is converted; a magnitude that does not fit gives `ULONG_MAX`, a minus sign
negates modulo `2^64`. -/
def strtoul8 (s : List Nat) : Nat :=
  let s1 := s.dropWhile isspace
  let neg := s1.head? == some 45
  let s2 := if s1.head? == some 45 || s1.head? == some 43 then s1.drop 1 else s1
  let v := octal_value (s2.takeWhile isodigit)
  if WORD ≤ v then WORD - 1 else if neg then usub 0 v else v

/-- The call `snprintf(dst + off, size, ...)` whose formatted output is `s`: when
`size` is positive the first `size - 1` bytes of `s` and a NUL are stored; the
value returned is the length of `s`. -/
def snprintf (dst : List Nat) (off size : Nat) (s : List Nat) : List Nat × Nat :=
  if size = 0 then (dst, s.length) else (store dst off (s.take (size - 1) ++ [0]), s.length)

/-! ## The typed header view `struct header_posix_ustar` -/

/-- Offset of `name` (100 bytes). -/
def OFF_name : Nat := 0
/-- Offset of `mode` (8 bytes). -/
def OFF_mode : Nat := 100
/-- Offset of `uid` (8 bytes). -/
def OFF_uid : Nat := 108
/-- Offset of `gid` (8 bytes). -/
def OFF_gid : Nat := 116
/-- Offset of `size` (12 bytes). -/
def OFF_size : Nat := 124
/-- Offset of `mtime` (12 bytes). -/
def OFF_mtime : Nat := 136
/-- Offset of `checksum` (8 bytes). -/
def OFF_checksum : Nat := 148
/-- Offset of `typeflag`. -/
def OFF_typeflag : Nat := 156
/-- Offset of `linkname` (100 bytes), right after the enum `typeflag`, which
takes `tw` bytes. -/
def OFF_linkname (tw : Nat) : Nat := OFF_typeflag + tw
/-- Offset of `magic` (6 bytes). -/
def OFF_magic (tw : Nat) : Nat := OFF_linkname tw + 100
/-- Offset of `version` (2 bytes). -/
def OFF_version (tw : Nat) : Nat := OFF_magic tw + 6
/-- Offset of `uname` (32 bytes). -/
def OFF_uname (tw : Nat) : Nat := OFF_version tw + 2
/-- Offset of `gname` (32 bytes). -/
def OFF_gname (tw : Nat) : Nat := OFF_uname tw + 32
/-- Offset of `devmajor` (8 bytes). -/
def OFF_devmajor (tw : Nat) : Nat := OFF_gname tw + 32
/-- Offset of `devminor` (8 bytes). -/
def OFF_devminor (tw : Nat) : Nat := OFF_devmajor tw + 8
/-- Offset of `prefix` (155 bytes). -/
def OFF_prefix_field (tw : Nat) : Nat := OFF_devminor tw + 8

/-- The enumerators of `tar_file_type_t`. -/
def FILE_TYPE_normal_file_alt : Nat := 0
def FILE_TYPE_normal_file : Nat := 48
def FILE_TYPE_hard_link : Nat := 49
def FILE_TYPE_symlink : Nat := 50
def FILE_TYPE_char_special : Nat := 51
def FILE_TYPE_block_special : Nat := 52
def FILE_TYPE_directory : Nat := 53
def FILE_TYPE_fifo : Nat := 54
def FILE_TYPE_continuous_file : Nat := 55

/-- File type bits of `<sys/stat.h>` (Linux values). -/
def S_IFLNK : Nat := 0o120000
def S_IFCHR : Nat := 0o020000
def S_IFBLK : Nat := 0o060000
def S_IFREG : Nat := 0o100000

/-- The value of a little-endian unsigned integer. -/
def le_value : List Nat → Nat
  | [] => 0
  | b :: bs => b + 256 * le_value bs

/-- The member `typeflag`: an enum object of `tw` bytes at offset 156
(little-endian). -/
def typeflag (tw : Nat) (ctx : minotar_) : Nat :=
  le_value ((ctx.record_header_buf.drop OFF_typeflag).take tw)

/-! ## Inline functions -/

/-- `minotar_get_file_size`: `strtoul(size, NULL, 8)`. -/
def minotar_get_file_size (ctx : minotar_) : Nat :=
  strtoul8 (ctx.record_header_buf.drop OFF_size)

/-- `minotar_get_file_mode`: `(mode_t) strtoul(mode, NULL, 8)`. -/
def minotar_get_file_mode (ctx : minotar_) : Nat :=
  strtoul8 (ctx.record_header_buf.drop OFF_mode) % WORD32

/-- `minotar_header_has_extended_path`: `!memcmp(magic, "ustar\0", 6)`. -/
def minotar_header_has_extended_path (tw : Nat) (ctx : minotar_) : Bool :=
  (ctx.record_header_buf.drop (OFF_magic tw)).take 6 == [117, 115, 116, 97, 114, 0]

/-- `minotar_header_get_device_version`: `(dev_t) major << 32 & minor` with
`major`, `minor` of type `uint32_t` and a 64-bit `dev_t`; the shift binds
tighter than `&`. -/
def minotar_header_get_device_version (tw : Nat) (ctx : minotar_) : Nat :=
  let major := strtoul8 (ctx.record_header_buf.drop (OFF_devmajor tw)) % WORD32
  let minor := strtoul8 (ctx.record_header_buf.drop (OFF_devminor tw)) % WORD32
  Nat.land ((major * 2 ^ 32) % WORD) minor

/-! ## Public and private functions -/

/-- `minotar_set_extract_directory` (both pointer arguments may be `NULL`). -/
def minotar_set_extract_directory (env : Env) (ctx : Option minotar_) (path : Option (List Nat)) :
    minotar_error_t × Option minotar_ :=
  match ctx, path with
  | some c, some p =>
    if c.rx_byte_offset ≠ 0 then (MINOTAR_set_path_before_decode, some c)
    else if env.stat p = -1 then (MINOTAR_invalid_path, some c)
    else (MINOTAR_noerror, some { c with extract_path := some p })
  | c, _ => (MINOTAR_invalid_parameter, c)

/-- The body of `minotar_reset` on a non-null context, with the `fclose` it
makes. -/
def reset_body (ctx : minotar_) : minotar_ × List FsCall :=
  ({ ctx with
      bytes_remaining := 0
      rx_byte_offset := 0
      error := MINOTAR_noerror
      record_header_complete := false
      file := none
      record_header_buf := store ctx.record_header_buf 0 (List.replicate 512 0) },
   match ctx.file with
   | some f => [FsCall.fclose f]
   | none => [])

/-- `minotar_reset`. -/
def minotar_reset (ctx : Option minotar_) : minotar_error_t × Option minotar_ × List FsCall :=
  match ctx with
  | none => (MINOTAR_invalid_parameter, none, [])
  | some c => (MINOTAR_noerror, some (reset_body c).1, (reset_body c).2)

/-- `minotar_header_get_path_length`. -/
def minotar_header_get_path_length (tw : Nat) (ctx : minotar_) : Nat :=
  let max_prefix_length := 155
  let max_name_length := 100
  let l1 := match ctx.extract_path with
    | some r => uadd (uadd 0 r.length) 1
    | none => 0
  let l2 := if minotar_header_has_extended_path tw ctx then
      uadd (uadd l1 (MINOTAR_MIN (cstr ctx.record_header_buf (OFF_prefix_field tw)).length max_prefix_length)) 1
    else l1
  uadd l2 (MINOTAR_MIN (cstr ctx.record_header_buf OFF_name).length max_name_length)

/-- The unsigned byte sum of `minotar_header_verify_checksum` (`uint32_t`). -/
def calc_checksum (buf : List Nat) : Nat :=
  buf.foldl (fun acc b => (acc + b) % WORD32) 0

/-- The signed byte sum of `minotar_header_verify_checksum` (`int32_t`, `char`
signed), as its 32-bit pattern. -/
def calc_schecksum (buf : List Nat) : Nat :=
  buf.foldl (fun acc b => of_int32 (to_int32 acc + schar b)) 0

/-- `minotar_header_verify_checksum`: the result and the context, whose
checksum field the function overwrites with spaces. -/
def minotar_header_verify_checksum (ctx : minotar_) : Bool × minotar_ :=
  let rx_checksum := strtoul8 (ctx.record_header_buf.drop OFF_checksum) % WORD32
  let rx_schecksum := to_int32 rx_checksum
  let ctx1 := { ctx with record_header_buf := store ctx.record_header_buf OFF_checksum (List.replicate 8 32) }
  let cc := calc_checksum ctx1.record_header_buf
  let cs := to_int32 (calc_schecksum ctx1.record_header_buf)
  (rx_checksum == cc || rx_schecksum == cs, ctx1)

/-- `minotar_header_parse_path`: the contents of the buffer `filename` of
`fnamelen` bytes after the three `snprintf` calls. -/
def minotar_header_parse_path (tw : Nat) (ctx : minotar_) (filename : List Nat) (fnamelen : Nat) :
    List Nat :=
  let s1 : List Nat × Nat × Nat := match ctx.extract_path with
    | some r =>
      let w := snprintf filename 0 fnamelen (r ++ [47])
      (w.1, w.2 - 1, usub fnamelen (w.2 - 1))
    | none => (filename, 0, fnamelen)
  let s2 : List Nat × Nat × Nat :=
    if minotar_header_has_extended_path tw ctx then
      let w := snprintf s1.1 s1.2.1 s1.2.2 (cstr ctx.record_header_buf (OFF_prefix_field tw) ++ [47])
      (w.1, s1.2.1 + (w.2 - 1), usub s1.2.2 (w.2 - 1))
    else s1
  (snprintf s2.1 s2.2.1 s2.2.2 (cstr ctx.record_header_buf OFF_name)).1

/-- `minotar_create_file` on a non-null context: result, context and the
library calls made.  The buffer returned by `malloc` is modelled zero-filled
(`snprintf` ends the string inside it whenever it has a byte).  The typed view
is laid out for `tw = sizeof(tar_file_type_t)`. -/
def minotar_create_file (env : Env) (ctx : minotar_) : Bool × minotar_ × List FsCall :=
  let tw := env.sizeof_typeflag
  let path_length := minotar_header_get_path_length tw ctx
  if !env.malloc path_length then
    (false, { ctx with error := MINOTAR_out_of_memory }, [])
  else
    let path := cstr (minotar_header_parse_path tw ctx (List.replicate path_length 0) path_length) 0
    let ver := minotar_header_get_device_version tw ctx
    let mode := minotar_get_file_mode ctx
    let linkname := cstr ctx.record_header_buf (OFF_linkname tw)
    let tf := typeflag tw ctx
    if tf = FILE_TYPE_hard_link then
      (env.link linkname path == 0, ctx, [FsCall.link linkname path, FsCall.chmod path mode])
    else if tf = FILE_TYPE_symlink then
      if env.defined_symlink then
        (env.symlink linkname path == 0, ctx, [FsCall.symlink linkname path, FsCall.chmod path mode])
      else if env.defined_mknod then
        (env.link linkname path == 0, ctx,
          [FsCall.mknod path (Nat.lor mode S_IFLNK) 0, FsCall.link linkname path,
           FsCall.chmod path (Nat.lor mode S_IFLNK)])
      else (true, ctx, [FsCall.chmod path mode])
    else if tf = FILE_TYPE_char_special then
      if env.defined_mknod then
        (env.mknod path (Nat.lor mode S_IFCHR) ver == 0, ctx,
          [FsCall.mknod path (Nat.lor mode S_IFCHR) ver, FsCall.chmod path (Nat.lor mode S_IFCHR)])
      else (true, ctx, [FsCall.chmod path mode])
    else if tf = FILE_TYPE_block_special then
      if env.defined_mknod then
        (env.mknod path (Nat.lor mode S_IFBLK) ver == 0, ctx,
          [FsCall.mknod path (Nat.lor mode S_IFBLK) ver, FsCall.chmod path (Nat.lor mode S_IFBLK)])
      else (true, ctx, [FsCall.chmod path mode])
    else if tf = FILE_TYPE_directory then
      (env.mkdir path mode == 0, ctx, [FsCall.mkdir path mode, FsCall.chmod path mode])
    else if tf = FILE_TYPE_fifo then
      (env.mkfifo path mode == 0, ctx, [FsCall.mkfifo path mode, FsCall.chmod path mode])
    else
      let file := if env.fopen path then some path else none
      if env.defined_mknod then
        (env.mknod path (Nat.lor mode S_IFREG) 0 == 0, { ctx with file := file },
          [FsCall.mknod path (Nat.lor mode S_IFREG) 0, FsCall.fopen path,
           FsCall.chmod path (Nat.lor mode S_IFREG)])
      else (true, { ctx with file := file }, [FsCall.fopen path, FsCall.chmod path mode])

/-- `minotar_parse_record_block`. -/
def minotar_parse_record_block (env : Env) (ctx : minotar_) : Bool × minotar_ × List FsCall :=
  let v := minotar_header_verify_checksum ctx
  if !v.1 then
    (false, { v.2 with error := MINOTAR_invalid_checksum }, [])
  else
    let ctx1 := { v.2 with record_header_complete := true, rx_byte_offset := 0 }
    let c := minotar_create_file env ctx1
    if !c.1 then
      (false, { c.2.1 with error := MINOTAR_failed_to_create_file }, c.2.2)
    else
      (true, { c.2.1 with bytes_remaining := minotar_get_file_size c.2.1 }, c.2.2)

/-- The state of one run of `minotar_parse`: the context, the local variable
`offset` and the library calls made so far. -/
structure ParseState where
  ctx : minotar_
  offset : Nat
  calls : List FsCall

/-- First block of `minotar_parse`: fill the header buffer and, when it is
full, parse the record block. -/
def parse_header (env : Env) (bytes : List Nat) (p : ParseState) : ParseState :=
  if !p.ctx.record_header_complete then
    let header_write_size := MINOTAR_MIN (usub RECORD_BLOCK_ROUNDOFF p.ctx.rx_byte_offset) bytes.length
    if header_write_size ≠ 0 then
      let ctx1 := { p.ctx with
        record_header_buf := store p.ctx.record_header_buf p.ctx.rx_byte_offset
          ((bytes.drop p.offset).take header_write_size)
        rx_byte_offset := uadd p.ctx.rx_byte_offset header_write_size }
      let offset1 := uadd p.offset header_write_size
      if ctx1.rx_byte_offset = RECORD_BLOCK_ROUNDOFF then
        let r := minotar_parse_record_block env ctx1
        { ctx := r.2.1, offset := offset1, calls := p.calls ++ r.2.2 }
      else { ctx := ctx1, offset := offset1, calls := p.calls }
    else p
  else p

/-- Second block of `minotar_parse`: write payload bytes to the current file.
`write_size` is an `ssize_t` and is tested for being positive. -/
def parse_payload (bytes : List Nat) (p : ParseState) : ParseState :=
  let write_size := MINOTAR_MIN (usub bytes.length p.offset) p.ctx.bytes_remaining
  if 0 < to_ssize write_size then
    { ctx := { p.ctx with
        rx_byte_offset := uadd p.ctx.rx_byte_offset write_size
        bytes_remaining := usub p.ctx.bytes_remaining write_size }
      offset := uadd p.offset write_size
      calls := p.calls ++ (match p.ctx.file with
        | some f => [FsCall.fwrite f ((bytes.drop p.offset).take write_size)]
        | none => []) }
  else p

/-- Third block of `minotar_parse`: skip padding and reset. -/
def parse_padding (bytes : List Nat) (p : ParseState) : ParseState :=
  if p.ctx.record_header_complete && p.ctx.bytes_remaining == 0 then
    let padding_remaining := MINOTAR_CALC_PADDING p.offset p.ctx.rx_byte_offset RECORD_BLOCK_ROUNDOFF
    let padding_size := MINOTAR_MIN padding_remaining (usub bytes.length p.offset)
    let ctx1 := { p.ctx with rx_byte_offset := uadd p.ctx.rx_byte_offset padding_size }
    let offset1 := uadd p.offset padding_size
    if Nat.land ctx1.rx_byte_offset 512 = 0 then
      { ctx := (reset_body ctx1).1, offset := offset1, calls := p.calls ++ (reset_body ctx1).2 }
    else { ctx := ctx1, offset := offset1, calls := p.calls }
  else p

/-- `minotar_parse` on the bytes `bytes` (`length` is their number): the number
of bytes parsed, the context and the library calls made. -/
def minotar_parse (env : Env) (ctx : minotar_) (bytes : List Nat) : ParseState :=
  parse_padding bytes (parse_payload bytes (parse_header env bytes
    { ctx := ctx, offset := 0, calls := [] }))

/-- The `while` loop of `minotar_decode`, run for at most `fuel` iterations;
`none` when the loop has not ended by then. -/
def decode_loop (env : Env) (bytes : List Nat) : Nat → minotar_ → Nat → Option (minotar_ × List FsCall)
  | 0, ctx, parsed =>
    if ctx.error = MINOTAR_noerror ∧ parsed < bytes.length then none else some (ctx, [])
  | fuel + 1, ctx, parsed =>
    if ctx.error = MINOTAR_noerror ∧ parsed < bytes.length then
      let r := minotar_parse env ctx (bytes.drop parsed)
      let parsed1 := uadd parsed r.offset
      let ctx1 := if parsed1 > bytes.length then { r.ctx with error := MINOTAR_unknown_error } else r.ctx
      match decode_loop env bytes fuel ctx1 parsed1 with
      | none => none
      | some (c, t) => some (c, r.calls ++ t)
    else some (ctx, [])

/-- `minotar_decode` on a non-null context and buffer: the error returned, the
context and the library calls made, or `none` when the loop takes more than
`fuel` iterations. -/
def minotar_decode (env : Env) (fuel : Nat) (ctx : minotar_) (bytes : List Nat) :
    Option (minotar_error_t × minotar_ × List FsCall) :=
  match decode_loop env bytes fuel ctx 0 with
  | none => none
  | some (c, t) => some (c.error, c, t)

/-- Feed the chunks to `minotar_decode` in order: the errors returned call by
call, the final context and all library calls made. -/
def decode_chunks (env : Env) (fuel : Nat) : minotar_ → List (List Nat) →
    Option (List minotar_error_t × minotar_ × List FsCall)
  | ctx, [] => some ([], ctx, [])
  | ctx, c :: cs =>
    match minotar_decode env fuel ctx c with
    | none => none
    | some (e, ctx1, t) =>
      match decode_chunks env fuel ctx1 cs with
      | none => none
      | some (es, ctx2, t2) => some (e :: es, ctx2, t ++ t2)

/-! ## Contexts, environments and archives used in the statements -/

/-- The context after `minotar_init` and `minotar_reset`, with the extract
path `root`. -/
def fresh_ctx (root : Option (List Nat)) : minotar_ :=
  { extract_path := root, file := none, bytes_remaining := 0, rx_byte_offset := 0,
    error := MINOTAR_noerror, record_header_complete := false,
    record_header_buf := List.replicate 512 0 }

/-- A hosted build with a one-byte `typeflag`, `symlink` and `mknod` being
functions and not macros, and every library call succeeding. -/
def posix_env : Env :=
  { sizeof_typeflag := 1, defined_symlink := false, defined_mknod := false,
    malloc := fun _ => true, link := fun _ _ => 0, symlink := fun _ _ => 0,
    mknod := fun _ _ _ => 0, mkdir := fun _ _ => 0, mkfifo := fun _ _ => 0,
    fopen := fun _ => true, stat := fun _ => 0 }

/-- The bytes of an ASCII string. -/
def ascii (s : String) : List Nat := s.toList.map Char.toNat

/-- A header field of `n` bytes holding `s`, NUL-filled. -/
def field (n : Nat) (s : List Nat) : List Nat := s ++ List.replicate (n - s.length) 0

/-- A 512-byte header block for a regular file (typeflag `'0'`, mode 0644) in the
layout with a one-byte `typeflag`: `name`, `size`, `checksum`, `magic`,
`version` and the ustar path field are given, all other fields are NUL or zero
digits. -/
def header_block (name size checksum magic version pfx : List Nat) : List Nat :=
  field 100 name ++ field 8 (ascii "0000644") ++ field 8 (ascii "0000000") ++
  field 8 (ascii "0000000") ++ field 12 size ++ field 12 (ascii "00000000000") ++
  field 8 checksum ++ ascii "0" ++ field 100 [] ++ field 6 magic ++ field 2 version ++
  field 32 [] ++ field 32 [] ++ field 8 [] ++ field 8 [] ++ field 155 pfx ++ field 12 []

/-- The ustar header of the regular file `hello.txt` of 3 bytes; the byte sum
of the block with a blank checksum field is 3970, octal 7602. -/
def hello_header : List Nat :=
  header_block (ascii "hello.txt") (ascii "00000000003") (ascii "007602") (ascii "ustar") (ascii "00") []

/-- The 1024-byte archive of `hello.txt` with content `hi` and a line feed. -/
def hello_archive : List Nat := hello_header ++ field 512 (ascii "hi" ++ [10])

/-- The ustar header of the regular file `ten.bin` of 10 bytes (octal 12); the
byte sum of the block with a blank checksum field is 3726, octal 7216. -/
def ten_header : List Nat :=
  header_block (ascii "ten.bin") (ascii "00000000012") (ascii "007216") (ascii "ustar") (ascii "00") []

/-- The 1024-byte archive of `ten.bin`: header, 10 payload bytes, 502 padding
bytes. -/
def ten_archive : List Nat := ten_header ++ field 512 (ascii "0123456789")

/-- A context whose header buffer holds a checked header without the ustar
magic, with name `a.txt`. -/
def plain_a_txt (root : Option (List Nat)) : minotar_ :=
  { fresh_ctx root with
    record_header_complete := true
    record_header_buf := header_block (ascii "a.txt") (ascii "00000000000") (List.replicate 8 32) [] [] [] }

/-- A context whose header buffer holds a checked ustar header with name `a.txt`
and path field `dir`. -/
def ustar_dir_a_txt (root : Option (List Nat)) : minotar_ :=
  { fresh_ctx root with
    record_header_complete := true
    record_header_buf := header_block (ascii "a.txt") (ascii "00000000000") (List.replicate 8 32)
      (ascii "ustar") (ascii "00") (ascii "dir") }

/-- A context in the middle of the payload of `hello.txt`, with extract path
`/out`, the file open and an error stored. -/
def mid_record_ctx : minotar_ :=
  { extract_path := some (ascii "/out")
    file := some (ascii "hello.txt")
    bytes_remaining := 2
    rx_byte_offset := 1
    error := MINOTAR_unknown_error
    record_header_complete := true
    record_header_buf := hello_header }

/-! ## The checksum rule as the specification words it -/

/-- The header with its checksum field, bytes [148,156), replaced by ASCII
spaces. -/
def blank_checksum (h : List Nat) : List Nat :=
  h.take 148 ++ List.replicate 8 32 ++ h.drop 156

/-- The sum of the header bytes taken as unsigned bytes, checksum field
blanked. -/
def unsigned_sum (h : List Nat) : Nat := (blank_checksum h).sum

/-- The sum of the header bytes taken as signed bytes, checksum field blanked. -/
def signed_sum (h : List Nat) : Int := ((blank_checksum h).map schar).sum

/-- The 8-byte checksum field of a header. -/
def checksum_field (h : List Nat) : List Nat := (h.drop 148).take 8

/-- A numeric field read as an octal number: leading spaces are skipped and the
octal digits up to the first other byte, or the end of the field, are
converted. -/
def field_octal (f : List Nat) : Nat :=
  octal_value ((f.dropWhile (fun c => c == 32)).takeWhile isodigit)

/-- A numeric field is terminated by a NUL or a space within its bytes: after
the leading spaces and the octal digits comes a NUL or a space. -/
def field_terminated (f : List Nat) : Bool :=
  match (f.dropWhile (fun c => c == 32)).dropWhile isodigit with
  | c :: _ => c == 0 || c == 32
  | [] => false

/-- Checksum acceptance as specified: the checksum field read as octal equals,
as an unsigned 32-bit value, the unsigned sum, or, as a signed 32-bit value, the
signed sum. -/
def checksum_accepts (h : List Nat) : Bool :=
  field_octal (checksum_field h) % WORD32 == unsigned_sum h ||
    to_int32 (field_octal (checksum_field h)) == signed_sum h

/-- The header of `hello.txt` with its checksum written as 8 octal digits,
`00007602`, and no terminator. -/
def hello_header_unterminated : List Nat :=
  header_block (ascii "hello.txt") (ascii "00000000003") (ascii "00007602") (ascii "ustar")
    (ascii "00") []

/-- The header of `hello.txt` with the checksum digits `007603` in place of
`007602`. -/
def hello_header_wrong_sum : List Nat :=
  header_block (ascii "hello.txt") (ascii "00000000003") (ascii "007603") (ascii "ustar")
    (ascii "00") []

/-- A context with a complete header, no payload byte left, bit 9 of the cursor
set and no error: the state in which
`minotar_parse` consumes nothing. -/
def stuck (ctx : minotar_) : Bool :=
  ctx.record_header_complete && ctx.bytes_remaining == 0 &&
    (Nat.land ctx.rx_byte_offset 512 != 0) && decide (ctx.rx_byte_offset < WORD) &&
    (ctx.error == MINOTAR_noerror)

/-! ## States of the decoder on the archive of `hello.txt` -/

/-- The library calls by which `minotar_create_file` creates the regular file
`hello.txt` with the decoded mode 0644: `mknod` where it is a macro, `fopen`,
`chmod`. -/
def hello_create_calls (env : Env) : List FsCall :=
  if env.defined_mknod then
    [FsCall.mknod (ascii "hello.txt") (Nat.lor 0o644 S_IFREG) 0, FsCall.fopen (ascii "hello.txt"),
     FsCall.chmod (ascii "hello.txt") (Nat.lor 0o644 S_IFREG)]
  else [FsCall.fopen (ascii "hello.txt"), FsCall.chmod (ascii "hello.txt") 0o644]

/-- The context awaiting the header after the first `k` bytes of the archive of
`hello.txt`. -/
def hello_awaiting (k : Nat) : minotar_ :=
  { extract_path := none, file := none, bytes_remaining := 0, rx_byte_offset := k,
    error := MINOTAR_noerror, record_header_complete := false,
    record_header_buf := hello_archive.take k ++ List.replicate (512 - k) 0 }

/-- The context in the payload of `hello.txt` after the first `k` bytes of the
archive, `512 ≤ k ≤ 515`. -/
def hello_payload (k : Nat) : minotar_ :=
  { extract_path := none, file := some (ascii "hello.txt"), bytes_remaining := 515 - k,
    rx_byte_offset := k - 512, error := MINOTAR_noerror, record_header_complete := true,
    record_header_buf := blank_checksum hello_header }

/-- The context right after the header of `hello.txt` passed the checksum
test. -/
def hello_checked : minotar_ :=
  { extract_path := none, file := none, bytes_remaining := 0, rx_byte_offset := 0,
    error := MINOTAR_noerror, record_header_complete := true,
    record_header_buf := blank_checksum hello_header }

/-- A context awaiting a header after a reset with `j` zero bytes stored. -/
def hello_after (j : Nat) : minotar_ := { fresh_ctx none with rx_byte_offset := j }

/-- The context once the record of `hello.txt` is consumed without a reset. -/
def hello_stuck : minotar_ :=
  { extract_path := none, file := some (ascii "hello.txt"), bytes_remaining := 0,
    rx_byte_offset := 512, error := MINOTAR_noerror, record_header_complete := true,
    record_header_buf := blank_checksum hello_header }

/-- The outcome of one call of `minotar_decode` on a chunk of the archive of
`hello.txt` that starts at position `kc` and reaches position 512 or more. -/
def HelloRecordPost (kc k2 n : Nat) (cl : List FsCall) (ctx : minotar_) (t : List FsCall) : Prop :=
  (kc + n < 515 ∧ ctx = hello_payload (kc + n) ∧
    ((kc + n = k2 ∧ t = cl) ∨
     (k2 < kc + n ∧ t = cl ++ [FsCall.fwrite (ascii "hello.txt")
        ((hello_archive.drop k2).take (kc + n - k2))]))) ∨
  (kc + n = 1024 ∧ ctx = hello_stuck ∧
    t = cl ++ [FsCall.fwrite (ascii "hello.txt") ((hello_archive.drop k2).take (515 - k2))]) ∨
  (515 ≤ kc + n ∧ ∃ j, j + 515 ≤ kc + n ∧ ctx = hello_after j ∧
    t = cl ++ [FsCall.fwrite (ascii "hello.txt") ((hello_archive.drop k2).take (515 - k2)),
      FsCall.fclose (ascii "hello.txt")])

/-- What holds after `k` bytes of the archive of `hello.txt` have been decoded,
in whatever chunks, for the context and the library calls made so far. -/
def HelloInv (env : Env) (k : Nat) (ctx : minotar_) (t : List FsCall) : Prop :=
  (k < 512 ∧ ctx = hello_awaiting k ∧ t = []) ∨
  (512 ≤ k ∧ k < 515 ∧ ctx = hello_payload k ∧
    ∃ ws : List (List Nat), ws.flatten = (hello_archive.drop 512).take (k - 512) ∧
      t = hello_create_calls env ++ ws.map (FsCall.fwrite (ascii "hello.txt"))) ∨
  (k = 1024 ∧ ctx = hello_stuck ∧
    ∃ ws : List (List Nat), ws.flatten = (hello_archive.drop 512).take 3 ∧
      t = hello_create_calls env ++ ws.map (FsCall.fwrite (ascii "hello.txt"))) ∨
  (515 ≤ k ∧ k ≤ 1024 ∧ ∃ j, j + 515 ≤ k ∧ ctx = hello_after j ∧
    ∃ ws : List (List Nat), ws.flatten = (hello_archive.drop 512).take 3 ∧
      t = hello_create_calls env ++ ws.map (FsCall.fwrite (ascii "hello.txt")) ++
        [FsCall.fclose (ascii "hello.txt")])

/-! ## Inputs for the later statements -/

/-- The archive of `ten.bin` followed by the first 100 bytes of the header of
`hello.txt`: 1124 bytes of a two-record archive. -/
def two_records : List Nat := ten_archive ++ hello_header.take 100

/-- The header of the directory `newdir` (typeflag `'5'`, size 0); the byte sum
of the block with a blank checksum field is 3691, octal 7153. -/
def dir_header : List Nat :=
  (header_block (ascii "newdir") (ascii "00000000000") (ascii "007153") (ascii "ustar")
    (ascii "00") []).set 156 53

/-- The build of `posix_env` on a system where `mkdir` fails. -/
def mkdir_fails_env : Env := { posix_env with mkdir := fun _ _ => -1 }

/-- The build of `posix_env` on a system where `fopen` fails. -/
def fopen_fails_env : Env := { posix_env with fopen := fun _ => false }

/-- A checked header whose device fields hold the octal numbers 1 and 2. -/
def device_ctx : minotar_ :=
  { hello_checked with
    record_header_buf := store (store (blank_checksum hello_header) 329 (ascii "0000001"))
      337 (ascii "0000002") }

/-- The context awaiting a header, with extract path `root`, after the bytes
`P` (fewer than 512) have been stored. -/
def awaiting_ctx (root : Option (List Nat)) (P : List Nat) : minotar_ :=
  { extract_path := root, file := none, bytes_remaining := 0, rx_byte_offset := P.length,
    error := MINOTAR_noerror, record_header_complete := false,
    record_header_buf := P ++ List.replicate (512 - P.length) 0 }

/-! ## The invariant of the decoder -/

/-- The invariant of the decoder: the header buffer has 512 bytes, and while
the header is incomplete no payload byte is awaited, no file is open and,
unless an error is set, the cursor is below 512. -/
def ctx_inv (c : minotar_) : Prop :=
  c.record_header_buf.length = 512 ∧
  (c.record_header_complete = false →
    c.bytes_remaining = 0 ∧ c.file = none ∧
    (c.error = MINOTAR_noerror → c.rx_byte_offset < 512))

/-- The contexts that calls of `minotar_decode`, `minotar_reset` and
`minotar_set_extract_directory` produce from a freshly reset context, and the
contexts between two iterations of the loop of `minotar_decode` (one run of
`minotar_parse` from a context with no error). -/
inductive Reachable (env : Env) : minotar_ → Prop where
  | fresh (root : Option (List Nat)) : Reachable env (fresh_ctx root)
  | parse (c : minotar_) (bytes : List Nat) (h : Reachable env c)
      (he : c.error = MINOTAR_noerror) : Reachable env (minotar_parse env c bytes).ctx
  | decode (c c2 : minotar_) (fuel : Nat) (bytes : List Nat) (e : minotar_error_t)
      (t : List FsCall) (h : Reachable env c)
      (hd : minotar_decode env fuel c bytes = some (e, c2, t)) : Reachable env c2
  | reset (c c2 : minotar_) (e : minotar_error_t) (t : List FsCall) (h : Reachable env c)
      (hd : minotar_reset (some c) = (e, some c2, t)) : Reachable env c2
  | set_extract_directory (c c2 : minotar_) (path : Option (List Nat)) (e : minotar_error_t)
      (h : Reachable env c)
      (hd : minotar_set_extract_directory env (some c) path = (e, some c2)) : Reachable env c2

/-- The bytes that the calls `calls` write to the file `f`, in order. -/
def written (f : List Nat) : List FsCall → List Nat
  | [] => []
  | FsCall.fwrite g d :: t => if g = f then d ++ written f t else written f t
  | _ :: t => written f t

/-- The path that `minotar_create_file` passes to the library calls: the C
string in the allocated buffer after `minotar_header_parse_path`. -/
def created_path (env : Env) (ctx : minotar_) : List Nat :=
  cstr (minotar_header_parse_path env.sizeof_typeflag ctx
    (List.replicate (minotar_header_get_path_length env.sizeof_typeflag ctx) 0)
    (minotar_header_get_path_length env.sizeof_typeflag ctx)) 0

/-- The C string in the member `linkname`. -/
def header_linkname (env : Env) (ctx : minotar_) : List Nat :=
  cstr ctx.record_header_buf (OFF_linkname env.sizeof_typeflag)

/-- The header of `hello.txt` with the checksum field blank and the typeflag
byte `t`. -/
def typed_ctx (t : Nat) : minotar_ :=
  { hello_checked with record_header_buf := (blank_checksum hello_header).set 156 t }

/-- The build of `posix_env` where `malloc` fails. -/
def malloc_fails_env : Env := { posix_env with malloc := fun _ => false }

/-- A build in which the enum `tar_file_type_t` has the size of an `int`. -/
def wide_enum_env : Env := { posix_env with sizeof_typeflag := 4 }

/-- The checked header of `hello.txt` turned into a hard link to `a.txt`:
typeflag byte `'1'` and the link name at byte 157. -/
def link_ctx : minotar_ :=
  { hello_checked with
    record_header_buf := store ((blank_checksum hello_header).set 156 49) 157 (ascii "a.txt") }

/-- The 12-byte size field of a header. -/
def size_field (h : List Nat) : List Nat := (h.drop 124).take 12

/-- The header of `hello.txt` with its size written as 12 octal digits,
`000000000003`, and no terminator; the byte sum of the block with a blank
checksum field is 4018, octal 7662. -/
def hello_header_long_size : List Nat :=
  header_block (ascii "hello.txt") (ascii "000000000003") (ascii "007662") (ascii "ustar")
    (ascii "00") []

/-- The context with the 512 bytes of the header of `hello.txt` stored, as
`minotar_parse_record_block` finds it. -/
def hello_unchecked : minotar_ :=
  { fresh_ctx none with record_header_buf := hello_header, rx_byte_offset := 512 }

/-- The header of the directory `newdir` with the size field `00000002000`
(1024, a limit on what the directory may hold; no data follows a directory);
the byte sum of the block with a blank checksum field is 3693, octal 7155. -/
def sized_dir_header : List Nat :=
  (header_block (ascii "newdir") (ascii "00000002000") (ascii "007155") (ascii "ustar")
    (ascii "00") []).set 156 53

/-- The context in which the all-zero block has been rejected. -/
def zero_block_rejected_ctx (root : Option (List Nat)) : minotar_ :=
  { extract_path := root, file := none, bytes_remaining := 0, rx_byte_offset := 512,
    error := MINOTAR_invalid_checksum, record_header_complete := false,
    record_header_buf := blank_checksum (List.replicate 512 0) }

/-- The context as `minotar_parse` hands it to `minotar_parse_record_block`:
the bytes of the chunk that complete the header are stored and the cursor is
512. -/
def completed_header (ctx : minotar_) (bytes : List Nat) : minotar_ :=
  { ctx with
    record_header_buf := store ctx.record_header_buf ctx.rx_byte_offset
      (bytes.take (512 - ctx.rx_byte_offset))
    rx_byte_offset := 512 }

/-- The size a header declares: its 12-byte size field read as octal. -/
def declared_size (h : List Nat) : Nat := field_octal (size_field h)

/-! ## Theorems -/

set_option maxRecDepth 1000000

/-! ### Sticky error, reset, extract directory -/

theorem decode_loop_error (env : Env) (bytes : List Nat) (fuel : Nat) (ctx : minotar_) (parsed : Nat)
    (h : ctx.error ≠ MINOTAR_noerror) : decode_loop env bytes fuel ctx parsed = some (ctx, []) := by
  cases fuel <;> simp [decode_loop, h]

theorem minotar_decode_error (env : Env) (fuel : Nat) (ctx : minotar_) (bytes : List Nat)
    (h : ctx.error ≠ MINOTAR_noerror) : minotar_decode env fuel ctx bytes = some (ctx.error, ctx, []) := by
  simp [minotar_decode, decode_loop_error env bytes fuel ctx 0 h]

/-- C3 (sticky error): on a context whose error field is set, `minotar_decode`
returns at once, for every chunk and every bound on the loop, with the stored
error, the context unchanged in every field and no library call; the same holds
for any sequence of further calls. -/
theorem sticky_error (env : Env) (fuel : Nat) (ctx : minotar_) (bytes : List Nat)
    (chunks : List (List Nat)) (h : ctx.error ≠ MINOTAR_noerror) :
    decode_loop env bytes fuel ctx 0 = some (ctx, []) ∧
    minotar_decode env fuel ctx bytes = some (ctx.error, ctx, []) ∧
    decode_chunks env fuel ctx chunks = some (List.replicate chunks.length ctx.error, ctx, []) := by
  refine ⟨decode_loop_error env bytes fuel ctx 0 h, minotar_decode_error env fuel ctx bytes h, ?_⟩
  induction chunks with
  | nil => rfl
  | cons c cs ih => simp [decode_chunks, minotar_decode_error env fuel ctx c h, ih, List.replicate_succ]

/-- Witness of `sticky_error`: a context with `MINOTAR_invalid_checksum` stored,
fed the archive of `hello.txt` twice. -/
theorem sticky_error_witness :
    decode_loop posix_env hello_archive 0
        { fresh_ctx none with error := MINOTAR_invalid_checksum } 0
      = some ({ fresh_ctx none with error := MINOTAR_invalid_checksum }, []) ∧
    minotar_decode posix_env 0 { fresh_ctx none with error := MINOTAR_invalid_checksum } hello_archive
      = some (MINOTAR_invalid_checksum, { fresh_ctx none with error := MINOTAR_invalid_checksum }, []) ∧
    decode_chunks posix_env 0 { fresh_ctx none with error := MINOTAR_invalid_checksum }
        [hello_archive, hello_archive]
      = some ([MINOTAR_invalid_checksum, MINOTAR_invalid_checksum],
          { fresh_ctx none with error := MINOTAR_invalid_checksum }, []) :=
  sticky_error posix_env 0 { fresh_ctx none with error := MINOTAR_invalid_checksum } hello_archive
    [hello_archive, hello_archive] (by decide)

theorem store_zero_full (buf : List Nat) (h : buf.length = 512) :
    store buf 0 (List.replicate 512 0) = List.replicate 512 0 := by
  rw [store, h, List.take_zero, List.nil_append, Nat.sub_zero, List.length_replicate,
    Nat.zero_add, List.take_of_length_le (by simp), List.drop_of_length_le (by omega),
    List.append_nil]

/-- C10 (reset): on every non-null context `minotar_reset` returns
`MINOTAR_noerror` and leaves `bytes_remaining = 0`, `rx_byte_offset = 0`, no
error, `record_header_complete = false`, no file, a header buffer of 512 zero
bytes and the extract path it had; an open file is closed by exactly one
`fclose`; a second reset makes no library call and gives the same context. -/
theorem reset_postcondition (ctx : minotar_) (h : ctx.record_header_buf.length = 512) :
    minotar_reset (some ctx) =
      (MINOTAR_noerror,
       some { extract_path := ctx.extract_path, file := none, bytes_remaining := 0,
              rx_byte_offset := 0, error := MINOTAR_noerror, record_header_complete := false,
              record_header_buf := List.replicate 512 0 },
       match ctx.file with
       | some f => [FsCall.fclose f]
       | none => []) ∧
    minotar_reset (minotar_reset (some ctx)).2.1 =
      (MINOTAR_noerror, (minotar_reset (some ctx)).2.1, []) := by
  have h2 : store (List.replicate 512 0) 0 (List.replicate 512 0) = List.replicate 512 0 :=
    store_zero_full _ (List.length_replicate 512 0)
  refine ⟨?_, ?_⟩
  · simp only [minotar_reset, reset_body, store_zero_full _ h]
  · simp only [minotar_reset, reset_body, store_zero_full _ h, h2]

/-- Witness of `reset_postcondition`: a context in the middle of a record, with
an error stored and a file open. -/
theorem reset_postcondition_witness :
    minotar_reset (some mid_record_ctx) =
      (MINOTAR_noerror,
       some { extract_path := mid_record_ctx.extract_path, file := none, bytes_remaining := 0,
              rx_byte_offset := 0, error := MINOTAR_noerror, record_header_complete := false,
              record_header_buf := List.replicate 512 0 },
       match mid_record_ctx.file with
       | some f => [FsCall.fclose f]
       | none => []) ∧
    minotar_reset (minotar_reset (some mid_record_ctx)).2.1 =
      (MINOTAR_noerror, (minotar_reset (some mid_record_ctx)).2.1, []) :=
  reset_postcondition mid_record_ctx (by decide)

/-- C9 at a failing input: after `minotar_decode` has consumed the 512 bytes of
the header of `hello.txt` (it returns `MINOTAR_noerror`, the record has begun
and 3 payload bytes are awaited), the cursor is 0 again, so the guard of
`minotar_set_extract_directory` does not fire: the call returns
`MINOTAR_noerror` and stores the path in the middle of the record. -/
theorem set_extract_directory_after_header :
    (minotar_decode posix_env 1 (fresh_ctx none) hello_header).map
      (fun r => (r.1, r.2.1.rx_byte_offset, r.2.1.bytes_remaining, r.2.1.extract_path))
      = some (MINOTAR_noerror, 0, 3, none) ∧
    (minotar_decode posix_env 1 (fresh_ctx none) hello_header).map
      (fun r => (minotar_set_extract_directory posix_env (some r.2.1) (some (ascii "/out"))).1)
      = some MINOTAR_noerror ∧
    (minotar_decode posix_env 1 (fresh_ctx none) hello_header).map
      (fun r => (minotar_set_extract_directory posix_env (some r.2.1) (some (ascii "/out"))).2.map
          (fun c => c.extract_path))
      = some (some (some (ascii "/out"))) := by
  decide

/-- The guard as the code has it: `minotar_set_extract_directory` with non-null
arguments returns
`MINOTAR_set_path_before_decode`, leaving the context unchanged, exactly when
the cursor `rx_byte_offset` is not 0; when the cursor is 0 and `stat` does not
fail on the path, it returns `MINOTAR_noerror` and stores the path, changing no
other field. -/
theorem set_extract_directory_guard (env : Env) (ctx : minotar_) (path : List Nat) :
    ((minotar_set_extract_directory env (some ctx) (some path)).1 = MINOTAR_set_path_before_decode
      ↔ ctx.rx_byte_offset ≠ 0) ∧
    (ctx.rx_byte_offset ≠ 0 →
      minotar_set_extract_directory env (some ctx) (some path)
        = (MINOTAR_set_path_before_decode, some ctx)) ∧
    (ctx.rx_byte_offset = 0 → env.stat path ≠ -1 →
      minotar_set_extract_directory env (some ctx) (some path)
        = (MINOTAR_noerror, some { ctx with extract_path := some path })) := by
  refine ⟨?_, ?_, ?_⟩
  · by_cases h : ctx.rx_byte_offset = 0
    · by_cases hs : env.stat path = -1 <;> simp [minotar_set_extract_directory, h, hs]
    · simp [minotar_set_extract_directory, h]
  · intro h
    simp [minotar_set_extract_directory, h]
  · intro h hs
    simp [minotar_set_extract_directory, h, hs]

/-- Witness of `set_extract_directory_guard`: the context in the middle of a
record (cursor 1) and the fresh context (cursor 0). -/
theorem set_extract_directory_guard_witness :
    minotar_set_extract_directory posix_env (some mid_record_ctx) (some (ascii "/tmp"))
      = (MINOTAR_set_path_before_decode, some mid_record_ctx) ∧
    minotar_set_extract_directory posix_env (some (fresh_ctx none)) (some (ascii "/tmp"))
      = (MINOTAR_noerror, some { fresh_ctx none with extract_path := some (ascii "/tmp") }) :=
  ⟨(set_extract_directory_guard posix_env mid_record_ctx (ascii "/tmp")).2.1 (by decide),
   (set_extract_directory_guard posix_env (fresh_ctx none) (ascii "/tmp")).2.2 (by decide)
     (by decide)⟩

/-! ### Path composition -/

/-- C7 at its two witnesses: with extract root `/out`, the header named `a.txt`
without the ustar magic is created at `/outa.txt`, and the ustar header with
path field `dir` and name `a.txt` at `/outdira.txt`: the separators are
overwritten by what follows them. -/
theorem path_with_root_loses_separator :
    (minotar_create_file posix_env (plain_a_txt (some (ascii "/out")))).2.2
      = [FsCall.fopen (ascii "/outa.txt"), FsCall.chmod (ascii "/outa.txt") 0o644] ∧
    (minotar_create_file posix_env (ustar_dir_a_txt (some (ascii "/out")))).2.2
      = [FsCall.fopen (ascii "/outdira.txt"), FsCall.chmod (ascii "/outdira.txt") 0o644] ∧
    minotar_header_get_path_length 1 (plain_a_txt (some (ascii "/out"))) = 10 ∧
    minotar_header_get_path_length 1 (ustar_dir_a_txt (some (ascii "/out"))) = 14 := by
  decide

/-- C8 at its witness: without extract root and without the ustar magic, the
header named `a.txt` gets a buffer of 5 bytes, in which `snprintf` keeps 4 bytes
and the NUL: the file is created at `a.tx`. -/
theorem path_without_root_drops_last_byte :
    minotar_header_get_path_length 1 (plain_a_txt none) = 5 ∧
    minotar_header_parse_path 1 (plain_a_txt none) (List.replicate 5 0) 5 = ascii "a.tx" ++ [0] ∧
    (minotar_create_file posix_env (plain_a_txt none)).2.2
      = [FsCall.fopen (ascii "a.tx"), FsCall.chmod (ascii "a.tx") 0o644] := by
  decide

/-! ### The decode loop -/

theorem decode_loop_done (env : Env) (bytes : List Nat) (fuel : Nat) (ctx : minotar_) (parsed : Nat)
    (h : ¬ (ctx.error = MINOTAR_noerror ∧ parsed < bytes.length)) :
    decode_loop env bytes fuel ctx parsed = some (ctx, []) := by
  cases fuel <;> simp only [decode_loop, if_neg h]

theorem decode_loop_step (env : Env) (bytes : List Nat) (fuel : Nat) (ctx : minotar_) (parsed : Nat)
    (h : ctx.error = MINOTAR_noerror ∧ parsed < bytes.length) :
    decode_loop env bytes (fuel + 1) ctx parsed =
      match decode_loop env bytes fuel
        (if uadd parsed (minotar_parse env ctx (bytes.drop parsed)).offset > bytes.length then
          { (minotar_parse env ctx (bytes.drop parsed)).ctx with error := MINOTAR_unknown_error }
         else (minotar_parse env ctx (bytes.drop parsed)).ctx)
        (uadd parsed (minotar_parse env ctx (bytes.drop parsed)).offset) with
      | none => none
      | some (c, t) => some (c, (minotar_parse env ctx (bytes.drop parsed)).calls ++ t) := by
  simp only [decode_loop, if_pos h]

/-- More iterations allowed do not change a result. -/
theorem decode_loop_mono (env : Env) (bytes : List Nat) (fuel : Nat) :
    ∀ (ctx : minotar_) (parsed : Nat) (r : minotar_ × List FsCall),
      decode_loop env bytes fuel ctx parsed = some r →
      decode_loop env bytes (fuel + 1) ctx parsed = some r := by
  induction fuel with
  | zero =>
    intro ctx parsed r h
    by_cases hc : ctx.error = MINOTAR_noerror ∧ parsed < bytes.length
    · simp [decode_loop, hc] at h
    · rw [decode_loop_done env bytes _ ctx parsed hc] at h ⊢
      exact h
  | succ n ih =>
    intro ctx parsed r h
    by_cases hc : ctx.error = MINOTAR_noerror ∧ parsed < bytes.length
    · rw [decode_loop_step env bytes _ ctx parsed hc] at h ⊢
      generalize hq : decode_loop env bytes n _ _ = q at h
      cases q with
      | none => simp at h
      | some v => rw [ih _ _ v hq]; exact h
    · rw [decode_loop_done env bytes _ ctx parsed hc] at h ⊢
      exact h

theorem decode_loop_mono_add (env : Env) (bytes : List Nat) (fuel k : Nat) (ctx : minotar_)
    (parsed : Nat) (r : minotar_ × List FsCall)
    (h : decode_loop env bytes fuel ctx parsed = some r) :
    decode_loop env bytes (fuel + k) ctx parsed = some r := by
  induction k with
  | zero => exact h
  | succ k ih => exact decode_loop_mono env bytes (fuel + k) ctx parsed r ih

theorem minotar_decode_mono (env : Env) (fuel fuel2 : Nat) (ctx : minotar_) (bytes : List Nat)
    (r : minotar_error_t × minotar_ × List FsCall) (hle : fuel ≤ fuel2)
    (h : minotar_decode env fuel ctx bytes = some r) :
    minotar_decode env fuel2 ctx bytes = some r := by
  obtain ⟨k, rfl⟩ := Nat.exists_eq_add_of_le hle
  unfold minotar_decode at h ⊢
  generalize hq : decode_loop env bytes fuel ctx 0 = q at h
  cases q with
  | none => simp at h
  | some v => rw [decode_loop_mono_add env bytes fuel k ctx 0 v hq]; exact h

theorem stuck_iff (ctx : minotar_) :
    stuck ctx = true ↔ ctx.record_header_complete = true ∧ ctx.bytes_remaining = 0 ∧
      Nat.land ctx.rx_byte_offset 512 ≠ 0 ∧ ctx.rx_byte_offset < WORD ∧
      ctx.error = MINOTAR_noerror := by
  simp [stuck, and_assoc]

/-- In a stuck context `minotar_parse` returns 0 and leaves the context as it
is, whatever the bytes. -/
theorem minotar_parse_stuck (env : Env) (ctx : minotar_) (bytes : List Nat)
    (h : stuck ctx = true) :
    minotar_parse env ctx bytes = { ctx := ctx, offset := 0, calls := [] } := by
  obtain ⟨hc, hr, hx, hw, -⟩ := (stuck_iff ctx).1 h
  obtain ⟨ep, f, br, rx, er, hcomp, buf⟩ := ctx
  simp only at hc hr hx hw
  subst hc hr
  have hpad : MINOTAR_CALC_PADDING 0 rx RECORD_BLOCK_ROUNDOFF = 0 := by
    unfold MINOTAR_CALC_PADDING; decide
  have hmin : ∀ x, MINOTAR_MIN 0 x = 0 := by
    intro x; unfold MINOTAR_MIN; split <;> omega
  have hmin2 : ∀ x, MINOTAR_MIN x 0 = 0 := by
    intro x; unfold MINOTAR_MIN; split <;> omega
  have hu : uadd rx 0 = rx := by
    unfold uadd; rw [Nat.add_zero]; exact Nat.mod_eq_of_lt hw
  have hu0 : uadd 0 0 = 0 := by decide
  have hs0 : to_ssize 0 = 0 := by decide
  simp [minotar_parse, parse_header, parse_payload, parse_padding, hpad, hmin, hmin2, hu, hu0,
    hs0, hx]

/-- In a stuck context the loop of `minotar_decode` never ends on a non-empty
chunk. -/
theorem decode_loop_stuck (env : Env) (bytes : List Nat) (ctx : minotar_)
    (h : stuck ctx = true) (hb : 0 < bytes.length) (fuel : Nat) :
    decode_loop env bytes fuel ctx 0 = none := by
  have he := ((stuck_iff ctx).1 h).2.2.2.2
  induction fuel with
  | zero => simp [decode_loop, he, hb]
  | succ n ih =>
    rw [decode_loop_step env bytes n ctx 0 ⟨he, hb⟩, List.drop_zero, minotar_parse_stuck env ctx bytes h]
    have : uadd 0 0 = 0 := by decide
    simp only [this, if_neg (Nat.not_lt_zero _), ih]

theorem minotar_decode_stuck (env : Env) (bytes : List Nat) (ctx : minotar_)
    (h : stuck ctx = true) (hb : 0 < bytes.length) (fuel : Nat) :
    minotar_decode env fuel ctx bytes = none := by
  simp only [minotar_decode, decode_loop_stuck env bytes ctx h hb fuel]

/-! ### Chunk boundaries and padding -/

/-- C1 at a failing input: the archive of `hello.txt` decoded as one chunk ends
with the header complete, cursor 512 and the file open after three library
calls; split after byte 515 (header and payload) it ends after a reset, with
the file closed, the 509 padding bytes stored as a partial header and cursor
509. -/
theorem chunk_split_changes_outcome :
    (minotar_decode posix_env 1 (fresh_ctx none) hello_archive).map
      (fun r => (r.1, r.2.1.rx_byte_offset, r.2.1.record_header_complete, r.2.1.file))
      = some (MINOTAR_noerror, 512, true, some (ascii "hello.txt")) ∧
    (minotar_decode posix_env 1 (fresh_ctx none) hello_archive).map (fun r => r.2.2)
      = some [FsCall.fopen (ascii "hello.txt"), FsCall.chmod (ascii "hello.txt") 0o644,
          FsCall.fwrite (ascii "hello.txt") (ascii "hi" ++ [10])] ∧
    (decode_chunks posix_env 1 (fresh_ctx none) [hello_archive.take 515, hello_archive.drop 515]).map
      (fun r => (r.1, r.2.1.rx_byte_offset, r.2.1.record_header_complete, r.2.1.file))
      = some ([MINOTAR_noerror, MINOTAR_noerror], 509, false, none) ∧
    (decode_chunks posix_env 1 (fresh_ctx none) [hello_archive.take 515, hello_archive.drop 515]).map
      (fun r => r.2.2)
      = some [FsCall.fopen (ascii "hello.txt"), FsCall.chmod (ascii "hello.txt") 0o644,
          FsCall.fwrite (ascii "hello.txt") (ascii "hi" ++ [10]),
          FsCall.fclose (ascii "hello.txt")] := by
  decide

/-- C4 at its witness: the archive of `ten.bin` (header, 10 payload bytes, 502
padding bytes) decoded as one chunk leaves the header complete, cursor 512 and
the file open: no reset is made; any further non-empty chunk is then never
consumed, whatever the bound on the loop.  Split after the payload (byte 522)
the reset comes before the padding, whose 502 bytes are stored as header bytes. -/
theorem padding_leaves_decoder_off_boundary :
    (minotar_decode posix_env 1 (fresh_ctx none) ten_archive).map
      (fun r => (r.1, r.2.1.rx_byte_offset, r.2.1.bytes_remaining, r.2.1.record_header_complete,
        r.2.1.file))
      = some (MINOTAR_noerror, 512, 0, true, some (ascii "ten.bin")) ∧
    (∀ (fuel b : Nat) (bs : List Nat),
      decode_chunks posix_env fuel (fresh_ctx none) [ten_archive, b :: bs] = none) ∧
    (decode_chunks posix_env 1 (fresh_ctx none) [ten_archive.take 522, ten_archive.drop 522]).map
      (fun r => (r.1, r.2.1.rx_byte_offset, r.2.1.record_header_complete, r.2.1.file))
      = some ([MINOTAR_noerror, MINOTAR_noerror], 502, false, none) := by
  refine ⟨by decide, ?_, by decide⟩
  intro fuel b bs
  cases fuel with
  | zero =>
    have h0 : minotar_decode posix_env 0 (fresh_ctx none) ten_archive = none := by decide
    simp only [decode_chunks, h0]
  | succ n =>
    have h1 : (minotar_decode posix_env 1 (fresh_ctx none) ten_archive).isSome = true := by decide
    obtain ⟨r, hr⟩ := Option.isSome_iff_exists.1 h1
    have h2 : (minotar_decode posix_env 1 (fresh_ctx none) ten_archive).all
        (fun r => stuck r.2.1) = true := by decide
    rw [hr] at h2
    have hs : stuck r.2.1 = true := by simpa using h2
    have hr2 := minotar_decode_mono posix_env 1 (n + 1) (fresh_ctx none) ten_archive r (by omega) hr
    obtain ⟨e, c, t⟩ := r
    simp only [decode_chunks, hr2, minotar_decode_stuck posix_env (b :: bs) c hs (by simp) (n + 1)]

/-! ### The checksum test -/

theorem foldl_usum (l : List Nat) : ∀ acc, (∀ b ∈ l, b < 256) → acc + 256 * l.length ≤ WORD32 →
    l.foldl (fun a b => (a + b) % WORD32) acc = acc + l.sum := by
  induction l with
  | nil => intro acc _ _; simp
  | cons b l ih =>
    intro acc hb hacc
    have hb0 : b < 256 := hb b (List.mem_cons_self _ _)
    simp only [List.length_cons] at hacc
    have h1 : (acc + b) % WORD32 = acc + b := Nat.mod_eq_of_lt (by omega)
    rw [List.foldl_cons, h1, ih (acc + b) (fun x hx => hb x (List.mem_cons_of_mem _ hx)) (by omega)]
    simp [Nat.add_assoc]

theorem to_int32_of_int32 (z : Int) (h1 : -2147483648 ≤ z) (h2 : z < 2147483648) :
    to_int32 (of_int32 z) = z := by
  unfold to_int32 of_int32 WORD32
  norm_num
  split <;> omega

theorem schar_bounds (b : Nat) (h : b < 256) : -128 ≤ schar b ∧ schar b ≤ 127 := by
  unfold schar; split <;> omega

theorem foldl_ssum (l : List Nat) : ∀ acc : Nat, (∀ b ∈ l, b < 256) →
    -2147483648 + 128 * (l.length : Int) ≤ to_int32 acc →
    to_int32 acc + 128 * (l.length : Int) < 2147483648 →
    to_int32 (l.foldl (fun a b => of_int32 (to_int32 a + schar b)) acc)
      = to_int32 acc + (l.map schar).sum := by
  induction l with
  | nil => intro acc _ _ _; simp
  | cons b l ih =>
    intro acc hb h1 h2
    have hb0 := schar_bounds b (hb b (List.mem_cons_self _ _))
    simp only [List.length_cons, Nat.cast_add, Nat.cast_one] at h1 h2
    have h3 : to_int32 (of_int32 (to_int32 acc + schar b)) = to_int32 acc + schar b :=
      to_int32_of_int32 _ (by omega) (by omega)
    rw [List.foldl_cons, ih _ (fun x hx => hb x (List.mem_cons_of_mem _ hx)) (by rw [h3]; omega)
      (by rw [h3]; omega), h3]
    simp [Int.add_assoc]
theorem octal_value_foldl_lt (l : List Nat) : ∀ acc n, acc < 8 ^ n → (∀ c ∈ l, isodigit c = true) →
    l.foldl (fun a c => a * 8 + (c - 48)) acc < 8 ^ (n + l.length) := by
  induction l with
  | nil => intro acc n h _; simpa using h
  | cons c l ih =>
    intro acc n h hd
    have hc : isodigit c = true := hd c (List.mem_cons_self _ _)
    simp only [isodigit, Bool.and_eq_true, decide_eq_true_eq] at hc
    have h1 : acc * 8 + (c - 48) < 8 ^ (n + 1) := by
      rw [Nat.pow_succ]; omega
    have := ih (acc * 8 + (c - 48)) (n + 1) h1 (fun x hx => hd x (List.mem_cons_of_mem _ hx))
    simpa [List.length_cons, Nat.add_assoc, Nat.add_comm 1] using this

theorem octal_value_lt (l : List Nat) (hd : ∀ c ∈ l, isodigit c = true) :
    octal_value l < 8 ^ l.length := by
  have := octal_value_foldl_lt l 0 0 (by norm_num) hd
  simpa [octal_value] using this

/-- What follows a terminated field does not reach the digits read. -/
theorem takeWhile_append_of_dropWhile_cons (p : Nat → Bool) (g rest : List Nat) (c : Nat)
    (tl : List Nat) (h : g.dropWhile p = c :: tl) :
    (g ++ rest).takeWhile p = g.takeWhile p := by
  induction g with
  | nil => simp at h
  | cons a g ih =>
    by_cases ha : p a = true
    · rw [List.dropWhile_cons_of_pos ha] at h
      simp [List.takeWhile_cons, ha, ih h]
    · simp [List.takeWhile_cons, ha]

theorem dropWhile_space_append (rest : List Nat) (f : List Nat) :
    ∀ (a : Nat) (g2 : List Nat), f.dropWhile (fun c => c == 32) = a :: g2 → isspace a = false →
    (f ++ rest).dropWhile isspace = a :: g2 ++ rest ∧ (a :: g2).length ≤ f.length := by
  induction f with
  | nil => intro a g2 h; simp at h
  | cons b f ih =>
    intro a g2 h ha
    by_cases hb : b = 32
    · subst hb
      have h32 : isspace 32 = true := by decide
      rw [List.dropWhile_cons_of_pos (by simp)] at h
      obtain ⟨h1, h2⟩ := ih a g2 h ha
      refine ⟨?_, ?_⟩
      · rw [List.cons_append, List.dropWhile_cons_of_pos h32]; exact h1
      · simp only [List.length_cons] at h2 ⊢; omega
    · rw [List.dropWhile_cons_of_neg (by simpa using hb)] at h
      obtain ⟨rfl, rfl⟩ := List.cons.inj h
      refine ⟨?_, Nat.le_refl _⟩
      rw [List.cons_append, List.dropWhile_cons_of_neg (by simp [ha])]

theorem dropWhile_space_head (f : List Nat) :
    ∀ (a : Nat) (g2 : List Nat), f.dropWhile (fun c => c == 32) = a :: g2 → a ≠ 32 := by
  induction f with
  | nil => intro a g2 h; simp at h
  | cons b f ih =>
    intro a g2 h
    by_cases hb : b = 32
    · subst hb
      rw [List.dropWhile_cons_of_pos (by simp)] at h
      exact ih a g2 h
    · rw [List.dropWhile_cons_of_neg (by simpa using hb)] at h
      obtain ⟨rfl, rfl⟩ := List.cons.inj h
      exact hb

theorem strtoul8_terminated (f rest : List Nat) (hlen : f.length ≤ 8)
    (ht : field_terminated f = true) : strtoul8 (f ++ rest) = field_octal f := by
  unfold field_terminated at ht
  generalize hg : f.dropWhile (fun c => c == 32) = g at ht
  split at ht
  · rename_i c tl hdw
    simp only [Bool.or_eq_true, beq_iff_eq] at ht
    -- the first byte after the leading spaces is a digit or the NUL
    obtain ⟨a, g2, hga⟩ : ∃ a g2, g = a :: g2 := by
      cases g with
      | nil => simp at hdw
      | cons a g2 => exact ⟨a, g2, rfl⟩
    have ha32 : a ≠ 32 := dropWhile_space_head f a g2 (hg.trans hga)
    have hna : isspace a = false ∧ a ≠ 45 ∧ a ≠ 43 := by
      by_cases hd : isodigit a = true
      · simp only [isodigit, Bool.and_eq_true, decide_eq_true_eq] at hd
        refine ⟨?_, by omega, by omega⟩
        simp only [isspace, Bool.or_eq_false_iff, Bool.and_eq_false_iff, beq_eq_false_iff_ne,
          decide_eq_false_iff_not]
        omega
      · rw [hga, List.dropWhile_cons_of_neg hd] at hdw
        obtain ⟨rfl, -⟩ := List.cons.inj hdw
        have h0 : a = 0 := by omega
        subst h0
        exact ⟨by decide, by decide, by decide⟩
    obtain ⟨h1, h2⟩ := dropWhile_space_append rest f a g2 (hg.trans hga) hna.1
    rw [← hga] at h1 h2
    have hhead : (g ++ rest).head? = some a := by rw [hga]; rfl
    have htw := takeWhile_append_of_dropWhile_cons isodigit g rest c tl hdw
    have hdig : ∀ x ∈ g.takeWhile isodigit, isodigit x = true := by
      intro x hx; exact (List.mem_takeWhile_imp hx)
    have hlt := octal_value_lt (g.takeWhile isodigit) hdig
    have hl1 : (g.takeWhile isodigit).length + (c :: tl).length = g.length := by
      rw [← hdw, ← List.length_append, List.takeWhile_append_dropWhile]
    simp only [List.length_cons] at hl1
    have hl2 : (g.takeWhile isodigit).length ≤ 7 := by omega
    have hlt2 : octal_value (g.takeWhile isodigit) < WORD := by
      calc octal_value (g.takeWhile isodigit) < 8 ^ (g.takeWhile isodigit).length := hlt
        _ ≤ 8 ^ 7 := Nat.pow_le_pow_right (by norm_num) hl2
        _ < WORD := by decide
    unfold strtoul8 field_octal
    simp only [h1, hhead, hg]
    have e1 : (some a == some 45) = false := by simpa using hna.2.1
    have e2 : (some a == some 43) = false := by simpa using hna.2.2
    simp only [e1, e2, Bool.or_self, Bool.false_eq_true, if_false, htw, if_neg (Nat.not_le.2 hlt2)]
  · simp at ht

theorem field_octal_lt (f : List Nat) (hlen : f.length ≤ 8) : field_octal f < 8 ^ 8 := by
  unfold field_octal
  have hdig : ∀ x ∈ (f.dropWhile (fun c => c == 32)).takeWhile isodigit, isodigit x = true := by
    intro x hx; exact (List.mem_takeWhile_imp hx)
  have h1 := octal_value_lt _ hdig
  have h2 : ((f.dropWhile (fun c => c == 32)).takeWhile isodigit).length ≤ 8 := by
    have a1 := (List.takeWhile_sublist (l := f.dropWhile (fun c => c == 32)) isodigit).length_le
    have a2 := (List.dropWhile_sublist (l := f) (fun c => c == 32)).length_le
    omega
  exact lt_of_lt_of_le h1 (Nat.pow_le_pow_right (by norm_num) h2)


theorem store_checksum_blank (buf : List Nat) (h : buf.length = 512) :
    store buf OFF_checksum (List.replicate 8 32) = blank_checksum buf := by
  unfold store blank_checksum OFF_checksum
  have e : (List.replicate 8 32).take (512 - 148) = List.replicate 8 32 := by decide
  rw [h, List.length_replicate, e]

theorem blank_checksum_length (buf : List Nat) (h : buf.length = 512) :
    (blank_checksum buf).length = 512 := by
  unfold blank_checksum
  simp only [List.length_append, List.length_take, List.length_replicate, List.length_drop, h]
  omega

theorem blank_checksum_bytes (buf : List Nat) (hb : ∀ b ∈ buf, b < 256) :
    ∀ b ∈ blank_checksum buf, b < 256 := by
  intro b hm
  unfold blank_checksum at hm
  rcases List.mem_append.1 hm with h1 | h1
  · rcases List.mem_append.1 h1 with h2 | h2
    · exact hb b (List.mem_of_mem_take h2)
    · rw [List.eq_of_mem_replicate h2]; omega
  · exact hb b (List.mem_of_mem_drop h1)

theorem calc_checksum_eq (buf : List Nat) (h : buf.length = 512) (hb : ∀ b ∈ buf, b < 256) :
    calc_checksum (blank_checksum buf) = unsigned_sum buf := by
  unfold calc_checksum unsigned_sum
  rw [foldl_usum _ 0 (blank_checksum_bytes buf hb)
    (by rw [blank_checksum_length buf h]; decide), Nat.zero_add]

theorem calc_schecksum_eq (buf : List Nat) (h : buf.length = 512) (hb : ∀ b ∈ buf, b < 256) :
    to_int32 (calc_schecksum (blank_checksum buf)) = signed_sum buf := by
  unfold calc_schecksum signed_sum
  have h0 : to_int32 0 = 0 := by decide
  rw [foldl_ssum _ 0 (blank_checksum_bytes buf hb)
    (by rw [blank_checksum_length buf h, h0]; norm_num)
    (by rw [blank_checksum_length buf h, h0]; norm_num), h0, Int.zero_add]

theorem to_int32_mod (a : Nat) : to_int32 (a % WORD32) = to_int32 a := by
  unfold to_int32; rw [Nat.mod_mod]

/-- The result of `minotar_header_verify_checksum` on a buffer of 512 bytes, in
terms of the sums without wrap-around; the buffer is left with the field
blanked. -/
theorem verify_checksum_eval (ctx : minotar_) (h : ctx.record_header_buf.length = 512)
    (hb : ∀ b ∈ ctx.record_header_buf, b < 256) :
    minotar_header_verify_checksum ctx =
      (strtoul8 (ctx.record_header_buf.drop OFF_checksum) % WORD32
          == unsigned_sum ctx.record_header_buf ||
        to_int32 (strtoul8 (ctx.record_header_buf.drop OFF_checksum))
          == signed_sum ctx.record_header_buf,
       { ctx with record_header_buf := blank_checksum ctx.record_header_buf }) := by
  unfold minotar_header_verify_checksum
  simp only [store_checksum_blank _ h, calc_checksum_eq _ h hb, calc_schecksum_eq _ h hb,
    to_int32_mod]

/-- On a header whose checksum field is terminated, the result of
`minotar_header_verify_checksum` is the acceptance rule of the specification. -/
theorem verify_checksum_terminated (ctx : minotar_) (h : ctx.record_header_buf.length = 512)
    (hb : ∀ b ∈ ctx.record_header_buf, b < 256)
    (ht : field_terminated (checksum_field ctx.record_header_buf) = true) :
    minotar_header_verify_checksum ctx =
      (checksum_accepts ctx.record_header_buf,
       { ctx with record_header_buf := blank_checksum ctx.record_header_buf }) := by
  have hs : strtoul8 (ctx.record_header_buf.drop OFF_checksum)
      = field_octal (checksum_field ctx.record_header_buf) := by
    have := strtoul8_terminated (checksum_field ctx.record_header_buf)
      ((ctx.record_header_buf.drop 148).drop 8) (by simp [checksum_field]) ht
    rw [← this, checksum_field, List.take_append_drop]; rfl
  rw [verify_checksum_eval ctx h hb, hs]
  rfl

theorem store_length (dst : List Nat) (off : Nat) (src : List Nat) (h : off ≤ dst.length) :
    (store dst off src).length = dst.length := by
  unfold store
  simp only [List.length_append, List.length_take, List.length_drop]
  omega

theorem sum_set_nat (l : List Nat) : ∀ (i x : Nat), i < l.length →
    (l.set i x).sum + l.getD i 0 = l.sum + x := by
  induction l with
  | nil => intro i x h; simp at h
  | cons a l ih =>
    intro i x h
    cases i with
    | zero => simp; omega
    | succ i =>
      have := ih i x (by simpa using h)
      simp only [List.set_cons_succ, List.sum_cons, List.getD_cons_succ]
      omega

theorem sum_set_schar (l : List Nat) : ∀ (i x : Nat), i < l.length →
    ((l.set i x).map schar).sum + schar (l.getD i 0) = (l.map schar).sum + schar x := by
  induction l with
  | nil => intro i x h; simp at h
  | cons a l ih =>
    intro i x h
    cases i with
    | zero => simp; omega
    | succ i =>
      have := ih i x (by simpa using h)
      simp only [List.set_cons_succ, List.map_cons, List.sum_cons, List.getD_cons_succ]
      omega

/-- The unsigned sum exceeds the signed sum by a multiple of 256. -/
theorem sum_unsigned_signed (l : List Nat) (hb : ∀ b ∈ l, b < 256) :
    ∃ m : Nat, (l.sum : Int) = (l.map schar).sum + 256 * (m : Int) := by
  induction l with
  | nil => exact ⟨0, by simp⟩
  | cons a l ih =>
    obtain ⟨m, hm⟩ := ih (fun x hx => hb x (List.mem_cons_of_mem _ hx))
    by_cases ha : a < 128
    · refine ⟨m, ?_⟩
      simp only [List.sum_cons, List.map_cons, Nat.cast_add, schar, if_pos ha]
      omega
    · refine ⟨m + 1, ?_⟩
      simp only [List.sum_cons, List.map_cons, Nat.cast_add, schar, if_neg ha]
      omega

theorem blank_checksum_set (h : List Nat) (i x : Nat) (hlen : h.length = 512)
    (hi : i < 148 ∨ 156 ≤ i) : blank_checksum (h.set i x) = (blank_checksum h).set i x := by
  unfold blank_checksum
  rw [List.set_take, List.drop_set]
  rcases hi with hi | hi
  · rw [if_pos (by omega), List.append_assoc, List.append_assoc,
      List.set_append_left _ _ (by simp [hlen]; omega)]
  · rw [if_neg (by omega), List.set_eq_of_length_le (by simp [hlen]; omega),
      List.set_append_right _ _ (by simp [hlen]; omega)]
    simp [hlen]

theorem checksum_field_set (h : List Nat) (i x : Nat) (hlen : h.length = 512)
    (hi : i < 148 ∨ 156 ≤ i) : checksum_field (h.set i x) = checksum_field h := by
  unfold checksum_field
  rw [List.drop_set]
  rcases hi with hi | hi
  · rw [if_pos hi]
  · rw [if_neg (by omega), List.set_take, List.set_eq_of_length_le (by simp [hlen]; omega)]

theorem blank_checksum_getD (h : List Nat) (i : Nat) (hlen : h.length = 512)
    (hi : i < 148 ∨ 156 ≤ i) : (blank_checksum h).getD i 0 = h.getD i 0 := by
  unfold blank_checksum
  simp only [List.getD_eq_getElem?_getD]
  rcases hi with hi | hi
  · rw [List.append_assoc, List.getElem?_append_left (by simp [hlen]; omega),
      List.getElem?_take_of_lt hi]
  · rw [List.getElem?_append_right (by simp [hlen]; omega)]
    simp only [List.length_append, List.length_take, List.length_replicate, hlen,
      List.getElem?_drop]
    congr 2
    omega

theorem schar_inj (a b : Nat) (ha : a < 256) (hb : b < 256) (h : schar a = schar b) : a = b := by
  unfold schar at h
  split at h <;> split at h <;> omega

/-- Changing one byte outside the checksum field of an accepted header gives a
header that is not accepted. -/
theorem checksum_accepts_set (h : List Nat) (i x : Nat) (hlen : h.length = 512)
    (hb : ∀ b ∈ h, b < 256) (hi : i < 148 ∨ 156 ≤ i) (hi2 : i < 512) (hx : x < 256)
    (hne : h.getD i 0 ≠ x) (ha : checksum_accepts h = true) :
    checksum_accepts (h.set i x) = false := by
  have hV : field_octal (checksum_field h) < 8 ^ 8 := field_octal_lt _ (by simp [checksum_field])
  have hV2 : field_octal (checksum_field h) < 16777216 := by simpa using hV
  have hbl := blank_checksum_bytes h hb
  have hlb := blank_checksum_length h hlen
  obtain ⟨m, hm⟩ := sum_unsigned_signed (blank_checksum h) hbl
  have hbi : h.getD i 0 < 256 := by
    rw [List.getD_eq_getElem _ _ (by omega)]
    exact hb _ (List.getElem_mem _)
  have h1 := sum_set_nat (blank_checksum h) i x (by omega)
  have h2 := sum_set_schar (blank_checksum h) i x (by omega)
  rw [blank_checksum_getD h i hlen hi] at h1 h2
  have hbl2 : ∀ b ∈ (blank_checksum h).set i x, b < 256 := by
    intro b hmem
    rcases List.mem_or_eq_of_mem_set hmem with h3 | h3
    · exact hbl b h3
    · omega
  obtain ⟨m2, hm2⟩ := sum_unsigned_signed ((blank_checksum h).set i x) hbl2
  have hs1 := schar_bounds x hx
  have hs2 := schar_bounds _ hbi
  have hinj : schar (h.getD i 0) ≠ schar x := fun e => hne (schar_inj _ _ hbi hx e)
  have hmod : field_octal (checksum_field h) % WORD32 = field_octal (checksum_field h) :=
    Nat.mod_eq_of_lt (by unfold WORD32; omega)
  have hti : to_int32 (field_octal (checksum_field h)) = (field_octal (checksum_field h) : Int) := by
    unfold to_int32; rw [hmod, if_pos (by omega)]
  unfold checksum_accepts at ha ⊢
  rw [checksum_field_set h i x hlen hi]
  unfold unsigned_sum signed_sum at ha ⊢
  rw [blank_checksum_set h i x hlen hi]
  rw [hmod, hti] at ha ⊢
  simp only [Bool.or_eq_true, beq_iff_eq] at ha
  simp only [Bool.or_eq_false_iff, beq_eq_false_iff_ne, ne_eq]
  generalize field_octal (checksum_field h) = V at *
  generalize (blank_checksum h).sum = U at *
  generalize ((blank_checksum h).set i x).sum = U2 at *
  generalize ((blank_checksum h).map schar).sum = S at *
  generalize (((blank_checksum h).set i x).map schar).sum = S2 at *
  generalize schar (h.getD i 0) = sb at *
  generalize schar x = sx at *
  generalize h.getD i 0 = b at *
  omega

/-! ### The header block of `minotar_parse` -/

theorem MINOTAR_MIN_eq (x y : Nat) : MINOTAR_MIN x y = min x y := by
  unfold MINOTAR_MIN; split <;> omega

theorem usub_eq (a b : Nat) (h1 : b ≤ a) (h2 : a < WORD) : usub a b = a - b := by
  unfold usub
  have hb : b < WORD := by omega
  rw [Nat.mod_eq_of_lt h2, Nat.mod_eq_of_lt hb]
  have : a + (WORD - b) = (a - b) + WORD := by omega
  rw [this, Nat.add_mod_right, Nat.mod_eq_of_lt (by omega)]

theorem uadd_eq (a b : Nat) (h : a + b < WORD) : uadd a b = a + b := by
  unfold uadd; exact Nat.mod_eq_of_lt h

theorem WORD_val : WORD = 18446744073709551616 := by decide

/-- First block of `minotar_parse` while the header stays incomplete: the bytes
are stored at the cursor. -/
theorem parse_header_incomplete (env : Env) (ctx : minotar_) (bytes : List Nat)
    (hc : ctx.record_header_complete = false) (hn : 0 < bytes.length)
    (hk : ctx.rx_byte_offset + bytes.length < 512) :
    parse_header env bytes { ctx := ctx, offset := 0, calls := [] } =
      { ctx := { ctx with
          record_header_buf := store ctx.record_header_buf ctx.rx_byte_offset bytes
          rx_byte_offset := ctx.rx_byte_offset + bytes.length },
        offset := bytes.length, calls := [] } := by
  obtain ⟨ep, f, br, rx, er, hcomp, buf⟩ := ctx
  simp only at hc hk
  subst hc
  have h1 : usub RECORD_BLOCK_ROUNDOFF rx = 512 - rx :=
    usub_eq 512 rx (by omega) (by rw [WORD_val]; omega)
  have h2 : MINOTAR_MIN (512 - rx) bytes.length = bytes.length := by
    rw [MINOTAR_MIN_eq]; omega
  have h3 : uadd rx bytes.length = rx + bytes.length := uadd_eq _ _ (by rw [WORD_val]; omega)
  have h4 : uadd 0 bytes.length = bytes.length := by
    rw [uadd_eq _ _ (by rw [WORD_val]; omega)]; omega
  have h5 : ¬ (rx + bytes.length = RECORD_BLOCK_ROUNDOFF) := by
    unfold RECORD_BLOCK_ROUNDOFF; omega
  have h6 : bytes.length ≠ 0 := by omega
  simp only [parse_header, h1, h2, h3, h4, Bool.not_false, if_true, ne_eq, h6, not_false_eq_true,
    List.drop_zero, List.take_length, h5, if_false]

/-- First block of `minotar_parse` when the bytes complete the header: the
first `512 - cursor` bytes are stored and the record block is parsed. -/
theorem parse_header_complete (env : Env) (ctx : minotar_) (bytes : List Nat)
    (hc : ctx.record_header_complete = false) (hk : ctx.rx_byte_offset < 512)
    (hn : 512 ≤ ctx.rx_byte_offset + bytes.length) :
    parse_header env bytes { ctx := ctx, offset := 0, calls := [] } =
      { ctx := (minotar_parse_record_block env { ctx with
            record_header_buf := store ctx.record_header_buf ctx.rx_byte_offset
              (bytes.take (512 - ctx.rx_byte_offset))
            rx_byte_offset := 512 }).2.1,
        offset := 512 - ctx.rx_byte_offset,
        calls := (minotar_parse_record_block env { ctx with
            record_header_buf := store ctx.record_header_buf ctx.rx_byte_offset
              (bytes.take (512 - ctx.rx_byte_offset))
            rx_byte_offset := 512 }).2.2 } := by
  obtain ⟨ep, f, br, rx, er, hcomp, buf⟩ := ctx
  simp only at hc hk hn
  subst hc
  have h1 : usub 512 rx = 512 - rx :=
    usub_eq 512 rx (by omega) (by rw [WORD_val]; omega)
  have h2 : MINOTAR_MIN (512 - rx) bytes.length = 512 - rx := by
    rw [MINOTAR_MIN_eq]; omega
  have h3 : uadd rx (512 - rx) = 512 := by
    rw [uadd_eq _ _ (by rw [WORD_val]; omega)]; omega
  have h4 : uadd 0 (512 - rx) = 512 - rx := by
    rw [uadd_eq _ _ (by rw [WORD_val]; omega)]; omega
  have h6 : 512 - rx ≠ 0 := by omega
  simp only [parse_header, RECORD_BLOCK_ROUNDOFF, h1, h2, h3, h4, Bool.not_false, if_true, ne_eq,
    h6, not_false_eq_true, List.drop_zero, List.nil_append]

/-- Second block of `minotar_parse` when no payload byte is awaited. -/
theorem parse_payload_none (bytes : List Nat) (p : ParseState) (h : p.ctx.bytes_remaining = 0) :
    parse_payload bytes p = p := by
  have h0 : to_ssize 0 = 0 := by decide
  simp [parse_payload, h, MINOTAR_MIN_eq, h0]

/-- Third block of `minotar_parse` while the header is incomplete. -/
theorem parse_padding_none (bytes : List Nat) (p : ParseState)
    (h : p.ctx.record_header_complete = false) : parse_padding bytes p = p := by
  simp [parse_padding, h]

/-- A header that fails the checksum test: the error is stored in the context,
whose checksum field is left blanked; nothing is created. -/
theorem parse_record_block_invalid (env : Env) (ctx : minotar_)
    (h : (minotar_header_verify_checksum ctx).1 = false) :
    minotar_parse_record_block env ctx =
      (false, { (minotar_header_verify_checksum ctx).2 with error := MINOTAR_invalid_checksum }, []) := by
  simp [minotar_parse_record_block, h]

theorem verify_checksum_ctx (ctx : minotar_) :
    (minotar_header_verify_checksum ctx).2 =
      { ctx with record_header_buf := store ctx.record_header_buf OFF_checksum (List.replicate 8 32) } := by
  rfl

/-- The call of `minotar_decode` that supplies the last byte of a header failing
the checksum test returns `MINOTAR_invalid_checksum` with no library call. -/
theorem decode_header_invalid (env : Env) (fuel : Nat) (ctx : minotar_) (bytes : List Nat)
    (he : ctx.error = MINOTAR_noerror) (hc : ctx.record_header_complete = false)
    (hr : ctx.bytes_remaining = 0) (hk : ctx.rx_byte_offset < 512)
    (hn : 512 ≤ ctx.rx_byte_offset + bytes.length)
    (hv : (minotar_header_verify_checksum { ctx with
            record_header_buf := store ctx.record_header_buf ctx.rx_byte_offset
              (bytes.take (512 - ctx.rx_byte_offset))
            rx_byte_offset := 512 }).1 = false) :
    minotar_decode env (fuel + 1) ctx bytes =
      some (MINOTAR_invalid_checksum,
        { ctx with
            record_header_buf := store (store ctx.record_header_buf ctx.rx_byte_offset
              (bytes.take (512 - ctx.rx_byte_offset))) OFF_checksum (List.replicate 8 32)
            rx_byte_offset := 512
            error := MINOTAR_invalid_checksum }, []) := by
  have hlen : 0 < bytes.length := by omega
  have hp : minotar_parse env ctx bytes =
      { ctx := { ctx with
            record_header_buf := store (store ctx.record_header_buf ctx.rx_byte_offset
              (bytes.take (512 - ctx.rx_byte_offset))) OFF_checksum (List.replicate 8 32)
            rx_byte_offset := 512
            error := MINOTAR_invalid_checksum },
        offset := 512 - ctx.rx_byte_offset, calls := [] } := by
    rw [minotar_parse, parse_header_complete env ctx bytes hc hk hn,
      parse_record_block_invalid env _ hv, verify_checksum_ctx,
      parse_payload_none _ _ (by simpa using hr), parse_padding_none _ _ (by simpa using hc)]
  have hu : uadd 0 (512 - ctx.rx_byte_offset) = 512 - ctx.rx_byte_offset := by
    rw [uadd_eq _ _ (by rw [WORD_val]; omega)]; omega
  unfold minotar_decode
  rw [decode_loop_step env bytes fuel ctx 0 ⟨he, hlen⟩, List.drop_zero, hp]
  simp only [hu]
  rw [if_neg (by omega), decode_loop_done _ _ _ _ _ (by simp)]
  rfl

theorem store_at_zero (buf src : List Nat) (h : src.length = buf.length) :
    store buf 0 src = src := by
  unfold store
  rw [List.take_zero, List.nil_append, Nat.sub_zero, h, Nat.zero_add,
    List.drop_of_length_le (Nat.le_refl _), List.append_nil, ← h, List.take_length]

/-- C2, as stated, fails: the header of `hello.txt` with its checksum written
as the 8 octal digits `00007602` has a checksum field that reads as 3970, the
unsigned byte sum, yet `minotar_header_verify_checksum` returns false and
`minotar_decode` returns `MINOTAR_invalid_checksum`: `strtoul` reads on into
the type flag `'0'`. -/
theorem checksum_unterminated_field_rejected :
    field_octal (checksum_field hello_header_unterminated) = 3970 ∧
    unsigned_sum hello_header_unterminated = 3970 ∧
    checksum_accepts hello_header_unterminated = true ∧
    (minotar_header_verify_checksum
      { fresh_ctx none with record_header_buf := hello_header_unterminated }).1 = false ∧
    (minotar_decode posix_env 1 (fresh_ctx none) hello_header_unterminated).map (fun r => (r.1, r.2.2))
      = some (MINOTAR_invalid_checksum, []) := by
  have hv : ∀ c : minotar_, c.record_header_buf = hello_header_unterminated →
      (minotar_header_verify_checksum c).1 = false := by
    intro c hc
    have e : (strtoul8 (hello_header_unterminated.drop OFF_checksum) % WORD32
          == unsigned_sum hello_header_unterminated ||
        to_int32 (strtoul8 (hello_header_unterminated.drop OFF_checksum))
          == signed_sum hello_header_unterminated) = false := by decide
    rw [verify_checksum_eval c (by rw [hc]; decide) (by rw [hc]; decide), hc]
    exact e
  have hst : store (fresh_ctx none).record_header_buf (fresh_ctx none).rx_byte_offset
      (hello_header_unterminated.take (512 - (fresh_ctx none).rx_byte_offset))
      = hello_header_unterminated := by decide
  refine ⟨by decide, by decide, by decide, hv _ rfl, ?_⟩
  rw [decode_header_invalid posix_env 0 (fresh_ctx none) hello_header_unterminated rfl rfl rfl
    (by decide) (by decide) (hv _ (by rw [hst]))]
  rfl

/-- C2, amended: for a completed 512-byte header whose checksum field is
terminated by a NUL or a space after its digits, `minotar_header_verify_checksum`
returns true exactly when the field read as octal equals the unsigned byte sum
(as `uint32_t`) or the signed byte sum (as `int32_t`) of the header with the
field blanked; and when it does not, the call of `minotar_decode` that supplies
the last header byte stores and returns `MINOTAR_invalid_checksum` and makes no
library call: no entry is created and no byte written. -/
theorem checksum_acceptance (env : Env) (fuel : Nat) (ctx : minotar_) (bytes : List Nat)
    (he : ctx.error = MINOTAR_noerror) (hc : ctx.record_header_complete = false)
    (hr : ctx.bytes_remaining = 0) (hk : ctx.rx_byte_offset < 512)
    (hlen : ctx.record_header_buf.length = 512)
    (hn : 512 ≤ ctx.rx_byte_offset + bytes.length)
    (hb : ∀ b ∈ store ctx.record_header_buf ctx.rx_byte_offset
      (bytes.take (512 - ctx.rx_byte_offset)), b < 256)
    (ht : field_terminated (checksum_field (store ctx.record_header_buf ctx.rx_byte_offset
      (bytes.take (512 - ctx.rx_byte_offset)))) = true) :
    ((minotar_header_verify_checksum { ctx with
        record_header_buf := store ctx.record_header_buf ctx.rx_byte_offset
          (bytes.take (512 - ctx.rx_byte_offset))
        rx_byte_offset := 512 }).1 = true ↔
      checksum_accepts (store ctx.record_header_buf ctx.rx_byte_offset
        (bytes.take (512 - ctx.rx_byte_offset))) = true) ∧
    (checksum_accepts (store ctx.record_header_buf ctx.rx_byte_offset
        (bytes.take (512 - ctx.rx_byte_offset))) = false →
      minotar_decode env (fuel + 1) ctx bytes =
        some (MINOTAR_invalid_checksum,
          { ctx with
              record_header_buf := blank_checksum (store ctx.record_header_buf ctx.rx_byte_offset
                (bytes.take (512 - ctx.rx_byte_offset)))
              rx_byte_offset := 512
              error := MINOTAR_invalid_checksum }, [])) := by
  have hl : (store ctx.record_header_buf ctx.rx_byte_offset
      (bytes.take (512 - ctx.rx_byte_offset))).length = 512 := by
    rw [store_length _ _ _ (by omega), hlen]
  have hv := verify_checksum_terminated { ctx with
        record_header_buf := store ctx.record_header_buf ctx.rx_byte_offset
          (bytes.take (512 - ctx.rx_byte_offset))
        rx_byte_offset := 512 } hl hb ht
  refine ⟨by rw [hv], ?_⟩
  intro hrej
  rw [decode_header_invalid env fuel ctx bytes he hc hr hk hn (by rw [hv]; exact hrej),
    store_checksum_blank _ hl]

/-- Witness of `checksum_acceptance`: the fresh context fed the header of
`hello.txt` with wrong checksum digits, followed by the payload block. -/
theorem checksum_acceptance_witness :
    minotar_decode posix_env 1 (fresh_ctx none) (hello_header_wrong_sum ++ field 512 (ascii "hi" ++ [10])) =
      some (MINOTAR_invalid_checksum,
        { fresh_ctx none with
            record_header_buf := blank_checksum (store (fresh_ctx none).record_header_buf 0
              ((hello_header_wrong_sum ++ field 512 (ascii "hi" ++ [10])).take (512 - 0)))
            rx_byte_offset := 512
            error := MINOTAR_invalid_checksum }, []) :=
  (checksum_acceptance posix_env 0 (fresh_ctx none)
    (hello_header_wrong_sum ++ field 512 (ascii "hi" ++ [10]))
    (by decide) (by decide) (by decide) (by decide) (by decide) (by decide) (by decide)
    (by decide)).2 (by decide)

/-- C6 (reject scenario): if a 512-byte header passes
`minotar_header_verify_checksum` and its checksum field is terminated by a NUL
or a space after its digits, then replacing one byte outside the checksum field
by a different byte gives a header that fails it, and decoding the altered
header (followed by any bytes) on a fresh context returns
`MINOTAR_invalid_checksum` with no library call. -/
theorem header_byte_flip_rejected (env : Env) (fuel : Nat) (root : Option (List Nat))
    (h rest : List Nat) (i x : Nat) (hlen : h.length = 512) (hb : ∀ b ∈ h, b < 256)
    (ht : field_terminated (checksum_field h) = true)
    (hv : (minotar_header_verify_checksum { fresh_ctx root with record_header_buf := h }).1 = true)
    (hi : i < 148 ∨ 156 ≤ i) (hi2 : i < 512) (hx : x < 256) (hne : h.getD i 0 ≠ x) :
    (minotar_header_verify_checksum
      { fresh_ctx root with record_header_buf := h.set i x }).1 = false ∧
    minotar_decode env (fuel + 1) (fresh_ctx root) (h.set i x ++ rest) =
      some (MINOTAR_invalid_checksum,
        { fresh_ctx root with
            record_header_buf := blank_checksum (h.set i x)
            rx_byte_offset := 512
            error := MINOTAR_invalid_checksum }, []) := by
  have hacc : checksum_accepts h = true := by
    rw [verify_checksum_terminated _ hlen hb ht] at hv; exact hv
  have hrej := checksum_accepts_set h i x hlen hb hi hi2 hx hne hacc
  have hlen2 : (h.set i x).length = 512 := by rw [List.length_set]; exact hlen
  have hb2 : ∀ b ∈ h.set i x, b < 256 := by
    intro b hmem
    rcases List.mem_or_eq_of_mem_set hmem with h3 | h3
    · exact hb b h3
    · omega
  have ht2 : field_terminated (checksum_field (h.set i x)) = true := by
    rw [checksum_field_set h i x hlen hi]; exact ht
  have hfalse : ∀ c : minotar_, c.record_header_buf = h.set i x →
      (minotar_header_verify_checksum c).1 = false := by
    intro c hc
    rw [verify_checksum_terminated c (by rw [hc]; exact hlen2) (by rw [hc]; exact hb2)
      (by rw [hc]; exact ht2), hc]
    exact hrej
  have hst : store (fresh_ctx root).record_header_buf (fresh_ctx root).rx_byte_offset
      ((h.set i x ++ rest).take (512 - (fresh_ctx root).rx_byte_offset)) = h.set i x := by
    have e : (h.set i x ++ rest).take 512 = h.set i x := by
      rw [List.take_append_of_le_length (by omega), List.take_of_length_le (by omega)]
    show store (List.replicate 512 0) 0 ((h.set i x ++ rest).take (512 - 0)) = h.set i x
    rw [Nat.sub_zero, e, store_at_zero _ _ (by rw [hlen2, List.length_replicate])]
  refine ⟨hfalse _ rfl, ?_⟩
  have hd := decode_header_invalid env fuel (fresh_ctx root) (h.set i x ++ rest) rfl rfl rfl
    (Nat.zero_lt_succ _) (by simp [fresh_ctx, hlen2]) (hfalse _ (by rw [hst]))
  rw [hd, hst, store_checksum_blank _ hlen2]

/-- Witness of `header_byte_flip_rejected`: the archive of `hello.txt` with the
first byte of the name changed from `h` to `H`. -/
theorem header_byte_flip_rejected_witness :
    (minotar_header_verify_checksum
      { fresh_ctx none with record_header_buf := hello_header.set 0 72 }).1 = false ∧
    minotar_decode posix_env 1 (fresh_ctx none) (hello_header.set 0 72 ++ field 512 (ascii "hi" ++ [10])) =
      some (MINOTAR_invalid_checksum,
        { fresh_ctx none with
            record_header_buf := blank_checksum (hello_header.set 0 72)
            rx_byte_offset := 512
            error := MINOTAR_invalid_checksum }, []) :=
  header_byte_flip_rejected posix_env 0 none hello_header (field 512 (ascii "hi" ++ [10])) 0 72
    (by decide) (by decide) (by decide) (by decide) (by decide) (by decide) (by decide) (by decide)

/-! ### Decoding the archive of `hello.txt` in any chunks -/

/-- A call of `minotar_decode` on an empty chunk returns at once. -/
theorem minotar_decode_nil (env : Env) (fuel : Nat) (ctx : minotar_) :
    minotar_decode env fuel ctx [] = some (ctx.error, ctx, []) := by
  unfold minotar_decode
  rw [decode_loop_done env [] fuel ctx 0 (by simp)]

/-- One run of `minotar_parse` that consumes the whole chunk and sets no error
ends the call. -/
theorem minotar_decode_one_parse (env : Env) (fuel : Nat) (ctx : minotar_) (bytes : List Nat)
    (he : ctx.error = MINOTAR_noerror) (hn : 0 < bytes.length) (hw : bytes.length < WORD)
    (ho : (minotar_parse env ctx bytes).offset = bytes.length) :
    minotar_decode env (fuel + 1) ctx bytes =
      some ((minotar_parse env ctx bytes).ctx.error, (minotar_parse env ctx bytes).ctx,
        (minotar_parse env ctx bytes).calls) := by
  unfold minotar_decode
  rw [decode_loop_step env bytes fuel ctx 0 ⟨he, hn⟩, List.drop_zero, ho,
    uadd_eq 0 _ (by omega), Nat.zero_add, if_neg (Nat.lt_irrefl _),
    decode_loop_done _ _ _ _ _ (by omega)]
  simp

/-- The call of `minotar_decode` on a chunk that leaves the header incomplete
stores the chunk at the cursor and does nothing else. -/
theorem decode_header_incomplete (env : Env) (fuel : Nat) (ctx : minotar_) (bytes : List Nat)
    (he : ctx.error = MINOTAR_noerror) (hc : ctx.record_header_complete = false)
    (hr : ctx.bytes_remaining = 0) (hn : 0 < bytes.length)
    (hk : ctx.rx_byte_offset + bytes.length < 512) :
    minotar_decode env (fuel + 1) ctx bytes =
      some (MINOTAR_noerror,
        { ctx with
            record_header_buf := store ctx.record_header_buf ctx.rx_byte_offset bytes
            rx_byte_offset := ctx.rx_byte_offset + bytes.length }, []) := by
  have hp : minotar_parse env ctx bytes =
      { ctx := { ctx with
            record_header_buf := store ctx.record_header_buf ctx.rx_byte_offset bytes
            rx_byte_offset := ctx.rx_byte_offset + bytes.length },
        offset := bytes.length, calls := [] } := by
    rw [minotar_parse, parse_header_incomplete env ctx bytes hc hn hk,
      parse_payload_none _ _ (by simpa using hr), parse_padding_none _ _ (by simpa using hc)]
  rw [minotar_decode_one_parse env fuel ctx bytes he hn (by rw [WORD_val]; omega) (by rw [hp]), hp]
  simp [he]

theorem to_ssize_pos (w : Nat) (h0 : 0 < w) (h1 : w < 2 ^ 63) : 0 < to_ssize w := by
  unfold to_ssize
  have : w % WORD = w := Nat.mod_eq_of_lt (by rw [WORD_val]; omega)
  rw [this, if_pos h1]
  omega

/-- Second block of `minotar_parse` when payload bytes are awaited and bytes are
left in the chunk: the smaller number of them is written to the open file. -/
theorem parse_payload_write (bytes : List Nat) (p : ParseState) (f : List Nat)
    (hf : p.ctx.file = some f) (ho : p.offset ≤ bytes.length)
    (hb : bytes.length < 2 ^ 63) (hrx : p.ctx.rx_byte_offset < 2 ^ 63)
    (hw : 0 < min (bytes.length - p.offset) p.ctx.bytes_remaining)
    (hrem : p.ctx.bytes_remaining < WORD) :
    parse_payload bytes p =
      { ctx := { p.ctx with
          rx_byte_offset := p.ctx.rx_byte_offset + min (bytes.length - p.offset) p.ctx.bytes_remaining
          bytes_remaining := p.ctx.bytes_remaining - min (bytes.length - p.offset) p.ctx.bytes_remaining },
        offset := p.offset + min (bytes.length - p.offset) p.ctx.bytes_remaining,
        calls := p.calls ++ [FsCall.fwrite f ((bytes.drop p.offset).take
          (min (bytes.length - p.offset) p.ctx.bytes_remaining))] } := by
  have hW := WORD_val
  have h1 : usub bytes.length p.offset = bytes.length - p.offset := usub_eq _ _ ho (by omega)
  have hpos := to_ssize_pos (min (bytes.length - p.offset) p.ctx.bytes_remaining) hw (by omega)
  have h2 : uadd p.ctx.rx_byte_offset (min (bytes.length - p.offset) p.ctx.bytes_remaining)
      = p.ctx.rx_byte_offset + min (bytes.length - p.offset) p.ctx.bytes_remaining :=
    uadd_eq _ _ (by omega)
  have h3 : usub p.ctx.bytes_remaining (min (bytes.length - p.offset) p.ctx.bytes_remaining)
      = p.ctx.bytes_remaining - min (bytes.length - p.offset) p.ctx.bytes_remaining :=
    usub_eq _ _ (by omega) hrem
  have h4 : uadd p.offset (min (bytes.length - p.offset) p.ctx.bytes_remaining)
      = p.offset + min (bytes.length - p.offset) p.ctx.bytes_remaining :=
    uadd_eq _ _ (by omega)
  simp only [parse_payload, h1, MINOTAR_MIN_eq, hpos, if_true, h2, h3, h4, hf]

theorem calc_padding_small (idx : Nat) :
    ∀ o, o ≤ 1024 → MINOTAR_CALC_PADDING o idx RECORD_BLOCK_ROUNDOFF = (512 - o % 512) % 512 := by
  unfold MINOTAR_CALC_PADDING
  decide

theorem land_512_small : ∀ r, r ≤ 512 → (Nat.land r 512 = 0 ↔ r < 512) := by
  decide

/-- Third block of `minotar_parse` once the payload is complete, for small
numbers: `ps` padding bytes are skipped and, when the cursor stays below 512, the
context is reset. -/
theorem parse_padding_small (bytes : List Nat) (p : ParseState) (ps : Nat)
    (hc : p.ctx.record_header_complete = true) (hr : p.ctx.bytes_remaining = 0)
    (ho : p.offset ≤ bytes.length) (hb : bytes.length ≤ 1024)
    (hps : ps = min ((512 - p.offset % 512) % 512) (bytes.length - p.offset))
    (hrx : p.ctx.rx_byte_offset + ps ≤ 512) :
    parse_padding bytes p =
      if p.ctx.rx_byte_offset + ps < 512 then
        { ctx := (reset_body { p.ctx with rx_byte_offset := p.ctx.rx_byte_offset + ps }).1,
          offset := p.offset + ps,
          calls := p.calls ++ (reset_body { p.ctx with rx_byte_offset := p.ctx.rx_byte_offset + ps }).2 }
      else
        { ctx := { p.ctx with rx_byte_offset := p.ctx.rx_byte_offset + ps },
          offset := p.offset + ps,
          calls := p.calls } := by
  have hW := WORD_val
  have h1 : usub bytes.length p.offset = bytes.length - p.offset := usub_eq _ _ ho (by omega)
  have h2 := calc_padding_small p.ctx.rx_byte_offset p.offset (by omega)
  have h3 : uadd p.ctx.rx_byte_offset ps = p.ctx.rx_byte_offset + ps := uadd_eq _ _ (by omega)
  have h4 : uadd p.offset ps = p.offset + ps := uadd_eq _ _ (by omega)
  have h5 := land_512_small _ hrx
  simp only [parse_padding, hc, hr, beq_self_eq_true, Bool.and_self, if_true, h1, h2,
    MINOTAR_MIN_eq, ← hps, h3, h4, h5]

theorem hello_create_file (env : Env) (hsz : env.sizeof_typeflag = 1) (hm : env.malloc 10 = true)
    (hf : env.fopen (ascii "hello.txt") = true)
    (hk : env.defined_mknod = true → env.mknod (ascii "hello.txt") (Nat.lor 0o644 S_IFREG) 0 = 0) :
    minotar_create_file env hello_checked =
      (true, { hello_checked with file := some (ascii "hello.txt") }, hello_create_calls env) := by
  have h1 : minotar_header_get_path_length 1 hello_checked = 10 := by decide
  have h2 : cstr (minotar_header_parse_path 1 hello_checked (List.replicate 10 0) 10) 0
      = ascii "hello.txt" := by decide
  have h3 : minotar_header_get_device_version 1 hello_checked = 0 := by decide
  have h4 : minotar_get_file_mode hello_checked = 0o644 := by decide
  have h5 : typeflag 1 hello_checked = 48 := by decide
  unfold minotar_create_file
  simp only [hsz, h1, hm, h2, h3, h4, h5]
  by_cases hd : env.defined_mknod = true
  · simp [hd, hk hd, hf, hello_create_calls, FILE_TYPE_hard_link, FILE_TYPE_symlink,
      FILE_TYPE_char_special, FILE_TYPE_block_special, FILE_TYPE_directory, FILE_TYPE_fifo]
  · simp [hd, hf, hello_create_calls, FILE_TYPE_hard_link, FILE_TYPE_symlink,
      FILE_TYPE_char_special, FILE_TYPE_block_special, FILE_TYPE_directory, FILE_TYPE_fifo]

theorem hello_record_block (env : Env) (hsz : env.sizeof_typeflag = 1) (hm : env.malloc 10 = true)
    (hf : env.fopen (ascii "hello.txt") = true)
    (hk : env.defined_mknod = true → env.mknod (ascii "hello.txt") (Nat.lor 0o644 S_IFREG) 0 = 0) :
    minotar_parse_record_block env (hello_awaiting 512) =
      (true, hello_payload 512, hello_create_calls env) := by
  have hv : minotar_header_verify_checksum (hello_awaiting 512) =
      (true, { hello_awaiting 512 with record_header_buf := blank_checksum hello_header }) := by
    decide
  have hs : minotar_get_file_size { hello_checked with file := some (ascii "hello.txt") } = 3 := by
    decide
  have he : ({ ({ hello_awaiting 512 with record_header_buf := blank_checksum hello_header } : minotar_)
      with record_header_complete := true, rx_byte_offset := 0 } : minotar_) = hello_checked := by
    decide
  have hc := hello_create_file env hsz hm hf hk
  unfold minotar_parse_record_block
  simp only [hv, Bool.not_true, Bool.false_eq_true, if_false]
  rw [he]
  simp only [hc, hs, Bool.not_true, Bool.false_eq_true, if_false]
  rfl

theorem hello_archive_length : hello_archive.length = 1024 := by decide

theorem hello_archive_take_512 : hello_archive.take 512 = hello_header := by decide

theorem hello_archive_drop_515 : hello_archive.drop 515 = List.replicate 509 0 := by decide

theorem hello_payload_bytes : (hello_archive.drop 512).take 3 = ascii "hi" ++ [10] := by decide

theorem store_append (P Z Q : List Nat) (hq : Q.length ≤ Z.length) :
    store (P ++ Z) P.length Q = P ++ Q ++ Z.drop Q.length := by
  unfold store
  rw [List.take_left, List.length_append, Nat.add_sub_cancel_left, List.take_of_length_le hq,
    List.drop_append]

/-- Storing the next `n` bytes of a stream after its first `k` bytes. -/
theorem store_stream (A : List Nat) (k n m : Nat) (h1 : k + n ≤ m) (h2 : m ≤ A.length) :
    store (A.take k ++ List.replicate (m - k) 0) k ((A.drop k).take n)
      = A.take (k + n) ++ List.replicate (m - (k + n)) 0 := by
  have hk : (A.take k).length = k := by rw [List.length_take]; omega
  have hn : ((A.drop k).take n).length = n := by
    rw [List.length_take, List.length_drop]; omega
  have h := store_append (A.take k) (List.replicate (m - k) 0) ((A.drop k).take n)
    (by rw [hn, List.length_replicate]; omega)
  rw [hk, hn] at h
  rw [h, List.drop_replicate, ← List.take_add, Nat.sub_sub]

/-- Storing zero bytes into a buffer of zero bytes. -/
theorem store_zeros (m j n : Nat) (h : j + n ≤ m) :
    store (List.replicate m 0) j (List.replicate n 0) = List.replicate m 0 := by
  have e : List.replicate m 0 = List.replicate j 0 ++ List.replicate (m - j) 0 := by
    rw [← List.replicate_add]; congr 1; omega
  have h2 := store_append (List.replicate j 0) (List.replicate (m - j) 0) (List.replicate n 0)
    (by simp only [List.length_replicate]; omega)
  simp only [List.length_replicate] at h2
  rw [e, h2, List.drop_replicate, ← List.replicate_add, ← List.replicate_add, ← List.replicate_add]
  congr 1
  omega

theorem hello_zero_chunk (k n : Nat) (hk : 515 ≤ k) (hn : k + n ≤ 1024) :
    (hello_archive.drop k).take n = List.replicate n 0 := by
  have e : hello_archive.drop k = (hello_archive.drop 515).drop (k - 515) := by
    rw [List.drop_drop]; congr 1; omega
  rw [e, hello_archive_drop_515, List.drop_replicate, List.take_replicate]
  congr 1
  omega

theorem hello_awaiting_zero : hello_awaiting 0 = fresh_ctx none := by decide

/-- Header bytes of the archive of `hello.txt` that leave the header incomplete. -/
theorem hello_step_header_incomplete (env : Env) (fuel k n : Nat) (hn : 0 < n) (hk : k + n < 512) :
    minotar_decode env (fuel + 1) (hello_awaiting k) ((hello_archive.drop k).take n) =
      some (MINOTAR_noerror, hello_awaiting (k + n), []) := by
  have hl : ((hello_archive.drop k).take n).length = n := by
    rw [List.length_take, List.length_drop, hello_archive_length]; omega
  rw [decode_header_incomplete env fuel (hello_awaiting k) _ rfl rfl rfl (by rw [hl]; exact hn)
    (by rw [hl]; exact hk)]
  simp only [hello_awaiting, hl, store_stream hello_archive k n 512 (by omega)
    (by rw [hello_archive_length]; omega)]

/-- Padding bytes of the archive of `hello.txt` met after a reset are stored as
header bytes. -/
theorem hello_step_after (env : Env) (fuel k j n : Nat) (hn : 0 < n) (hk : 515 ≤ k)
    (hkn : k + n ≤ 1024) (hj : j + 515 ≤ k) :
    minotar_decode env (fuel + 1) (hello_after j) ((hello_archive.drop k).take n) =
      some (MINOTAR_noerror, hello_after (j + n), []) := by
  rw [hello_zero_chunk k n hk hkn,
    decode_header_incomplete env fuel (hello_after j) _ rfl rfl rfl (by simpa using hn)
      (by simp [hello_after]; omega)]
  simp only [hello_after, fresh_ctx, List.length_replicate, store_zeros 512 j n (by omega)]

theorem parse_header_skip (env : Env) (bytes : List Nat) (p : ParseState)
    (h : p.ctx.record_header_complete = true) : parse_header env bytes p = p := by
  simp [parse_header, h]

theorem parse_payload_no_bytes (bytes : List Nat) (p : ParseState) (h : p.offset = bytes.length)
    (hb : bytes.length < WORD) : parse_payload bytes p = p := by
  have h1 : usub bytes.length p.offset = 0 := by rw [usub_eq _ _ (by omega) hb, h, Nat.sub_self]
  have h0 : to_ssize 0 = 0 := by decide
  simp [parse_payload, h1, MINOTAR_MIN_eq, h0]

theorem parse_padding_payload_left (bytes : List Nat) (p : ParseState)
    (h : p.ctx.bytes_remaining ≠ 0) : parse_padding bytes p = p := by
  simp [parse_padding, h]

theorem hello_chunk_length (k n : Nat) (h : k + n ≤ 1024) :
    ((hello_archive.drop k).take n).length = n := by
  rw [List.length_take, List.length_drop, hello_archive_length]; omega

theorem hello_chunk_drop_take (kc n d w : Nat) (h : d + w ≤ n) :
    (((hello_archive.drop kc).take n).drop d).take w = (hello_archive.drop (kc + d)).take w := by
  rw [List.drop_take, List.drop_drop, List.take_take]
  congr 1
  omega

theorem hello_payload_step (k w : Nat) (hk : 512 ≤ k) (_hw : k + w ≤ 515) :
    ({ hello_payload k with
        rx_byte_offset := (hello_payload k).rx_byte_offset + w
        bytes_remaining := (hello_payload k).bytes_remaining - w } : minotar_)
      = hello_payload (k + w) := by
  simp only [hello_payload]
  congr 1 <;> omega

/-- Payload block on the record of `hello.txt`: the state after the payload
bytes of the chunk, before the padding block. -/
theorem hello_tail_payload (kc k2 n : Nat) (cl : List FsCall) (h1 : kc ≤ k2) (h2 : 512 ≤ k2)
    (h3 : k2 < 515) (h4 : k2 < kc + n) (h5 : kc + n ≤ 1024) :
    parse_payload ((hello_archive.drop kc).take n)
        { ctx := hello_payload k2, offset := k2 - kc, calls := cl } =
      { ctx := hello_payload (k2 + min (kc + n - k2) (515 - k2)),
        offset := k2 - kc + min (kc + n - k2) (515 - k2),
        calls := cl ++ [FsCall.fwrite (ascii "hello.txt")
          ((hello_archive.drop k2).take (min (kc + n - k2) (515 - k2)))] } := by
  have hl := hello_chunk_length kc n h5
  have hw : min (n - (k2 - kc)) (515 - k2) = min (kc + n - k2) (515 - k2) := by omega
  have hp := parse_payload_write ((hello_archive.drop kc).take n)
    { ctx := hello_payload k2, offset := k2 - kc, calls := cl } (ascii "hello.txt") rfl
    (by rw [hl]; simp only; omega) (by rw [hl]; omega) (by simp only [hello_payload]; omega)
    (by rw [hl]; simp only [hello_payload]; omega)
    (by simp only [hello_payload]; rw [WORD_val]; omega)
  rw [hp]
  have e := hello_chunk_drop_take kc n (k2 - kc) (min (kc + n - k2) (515 - k2)) (by omega)
  have e2 : kc + (k2 - kc) = k2 := by omega
  rw [e2] at e
  simp only [hl, hello_payload, hw, e, ParseState.mk.injEq, minotar_.mk.injEq, true_and, and_true]
  omega

theorem hello_reset (r : Nat) :
    reset_body { hello_payload 515 with rx_byte_offset := r } =
      (fresh_ctx none, [FsCall.fclose (ascii "hello.txt")]) := by
  have hl : (blank_checksum hello_header).length = 512 := blank_checksum_length _ (by decide)
  simp only [reset_body, hello_payload, store_zero_full _ hl, fresh_ctx]

/-- Padding block on the record of `hello.txt`, in a chunk that starts at
position `kc` of the archive and reaches the end of the payload. -/
theorem hello_tail_padding (kc n ps : Nat) (cl : List FsCall) (h1 : kc ≤ 514)
    (h4 : 515 ≤ kc + n) (h5 : kc + n ≤ 1024)
    (hps : ps = min ((kc + 509) % 512) (kc + n - 515)) :
    parse_padding ((hello_archive.drop kc).take n)
        { ctx := hello_payload 515, offset := 515 - kc, calls := cl } =
      if ps < 509 then
        { ctx := fresh_ctx none, offset := 515 - kc + ps,
          calls := cl ++ [FsCall.fclose (ascii "hello.txt")] }
      else { ctx := hello_stuck, offset := 515 - kc + ps, calls := cl } := by
  have hl := hello_chunk_length kc n h5
  have hrx : (hello_payload 515).rx_byte_offset = 3 := rfl
  have hp := parse_padding_small ((hello_archive.drop kc).take n)
    { ctx := hello_payload 515, offset := 515 - kc, calls := cl } ps rfl rfl
    (by rw [hl]; simp only; omega) (by rw [hl]; omega)
    (by rw [hl]; simp only; omega) (by simp only [hrx]; omega)
  rw [hp]
  simp only [hrx, hello_reset]
  by_cases hlt : ps < 509
  · rw [if_pos (by omega), if_pos hlt]
  · rw [if_neg (by omega), if_neg hlt]
    have e : 3 + ps = 512 := by omega
    simp only [e, hello_payload, hello_stuck]

theorem decode_loop_last (env : Env) (bytes : List Nat) (fuel : Nat) (ctx : minotar_)
    (parsed : Nat) (he : ctx.error = MINOTAR_noerror) (hn : parsed < bytes.length)
    (hw : bytes.length < WORD)
    (ho : parsed + (minotar_parse env ctx (bytes.drop parsed)).offset = bytes.length) :
    decode_loop env bytes (fuel + 1) ctx parsed =
      some ((minotar_parse env ctx (bytes.drop parsed)).ctx,
        (minotar_parse env ctx (bytes.drop parsed)).calls) := by
  rw [decode_loop_step env bytes fuel ctx parsed ⟨he, hn⟩, uadd_eq _ _ (by omega), ho,
    if_neg (Nat.lt_irrefl _), decode_loop_done _ _ _ _ _ (by omega)]
  simp

/-- One run of `minotar_parse` on a chunk that leaves the header incomplete. -/
theorem minotar_parse_header_incomplete (env : Env) (ctx : minotar_) (bytes : List Nat)
    (hc : ctx.record_header_complete = false) (hr : ctx.bytes_remaining = 0)
    (hn : 0 < bytes.length) (hk : ctx.rx_byte_offset + bytes.length < 512) :
    minotar_parse env ctx bytes =
      { ctx := { ctx with
            record_header_buf := store ctx.record_header_buf ctx.rx_byte_offset bytes
            rx_byte_offset := ctx.rx_byte_offset + bytes.length },
        offset := bytes.length, calls := [] } := by
  rw [minotar_parse, parse_header_incomplete env ctx bytes hc hn hk,
    parse_payload_none _ _ (by simpa using hr), parse_padding_none _ _ (by simpa using hc)]

theorem hello_step_record (env : Env) (fuel kc k2 n : Nat) (cl : List FsCall) (ctx : minotar_)
    (he : ctx.error = MINOTAR_noerror) (hn : 0 < n)
    (h1 : kc ≤ k2) (h2 : 512 ≤ k2) (h3 : k2 < 515) (h4 : k2 ≤ kc + n) (h5 : kc + n ≤ 1024)
    (hparse : minotar_parse env ctx ((hello_archive.drop kc).take n) =
      parse_padding ((hello_archive.drop kc).take n)
        (parse_payload ((hello_archive.drop kc).take n)
          { ctx := hello_payload k2, offset := k2 - kc, calls := cl })) :
    ∃ ctx2 t, minotar_decode env (fuel + 2) ctx ((hello_archive.drop kc).take n)
        = some (MINOTAR_noerror, ctx2, t) ∧ HelloRecordPost kc k2 n cl ctx2 t := by
  have hl := hello_chunk_length kc n h5
  have hW := WORD_val
  by_cases hA : kc + n = k2
  · -- no payload byte in the chunk
    have hp : minotar_parse env ctx ((hello_archive.drop kc).take n) =
        { ctx := hello_payload k2, offset := k2 - kc, calls := cl } := by
      rw [hparse, parse_payload_no_bytes _ _ (by rw [hl]; simp only; omega) (by rw [hl]; omega),
        parse_padding_payload_left _ _ (by simp only [hello_payload]; omega)]
    refine ⟨hello_payload k2, cl, ?_, Or.inl ⟨by omega, by rw [hA], Or.inl ⟨hA, rfl⟩⟩⟩
    rw [minotar_decode_one_parse env (fuel + 1) ctx _ he (by rw [hl]; exact hn) (by rw [hl]; omega)
      (by rw [hp, hl]; simp only; omega), hp]
    rfl
  · have hpay := hello_tail_payload kc k2 n cl h1 h2 h3 (by omega) h5
    by_cases hB : kc + n < 515
    · -- payload bytes remain after the chunk
      have hm : min (kc + n - k2) (515 - k2) = kc + n - k2 := by omega
      rw [hm] at hpay
      have e1 : k2 + (kc + n - k2) = kc + n := by omega
      have e2 : k2 - kc + (kc + n - k2) = n := by omega
      rw [e1, e2] at hpay
      have hp : minotar_parse env ctx ((hello_archive.drop kc).take n) =
          { ctx := hello_payload (kc + n), offset := n,
            calls := cl ++ [FsCall.fwrite (ascii "hello.txt")
              ((hello_archive.drop k2).take (kc + n - k2))] } := by
        rw [hparse, hpay, parse_padding_payload_left _ _ (by simp only [hello_payload]; omega)]
      refine ⟨hello_payload (kc + n), _, ?_, Or.inl ⟨hB, rfl, Or.inr ⟨by omega, rfl⟩⟩⟩
      rw [minotar_decode_one_parse env (fuel + 1) ctx _ he (by rw [hl]; exact hn)
        (by rw [hl]; omega) (by rw [hp, hl]), hp]
      rfl
    · -- the payload ends in the chunk
      have hm : min (kc + n - k2) (515 - k2) = 515 - k2 := by omega
      rw [hm] at hpay
      have e1 : k2 + (515 - k2) = 515 := by omega
      have e2 : k2 - kc + (515 - k2) = 515 - kc := by omega
      rw [e1, e2] at hpay
      have hpad := hello_tail_padding kc n (min ((kc + 509) % 512) (kc + n - 515))
        (cl ++ [FsCall.fwrite (ascii "hello.txt") ((hello_archive.drop k2).take (515 - k2))])
        (by omega) (by omega) h5 rfl
      by_cases hC : min ((kc + 509) % 512) (kc + n - 515) < 509
      · -- reset
        rw [if_pos hC] at hpad
        have hp : minotar_parse env ctx ((hello_archive.drop kc).take n) =
            { ctx := fresh_ctx none,
              offset := 515 - kc + min ((kc + 509) % 512) (kc + n - 515),
              calls := cl ++ [FsCall.fwrite (ascii "hello.txt")
                ((hello_archive.drop k2).take (515 - k2))] ++
                [FsCall.fclose (ascii "hello.txt")] } := by
          rw [hparse, hpay, hpad]
        generalize hps : min ((kc + 509) % 512) (kc + n - 515) = ps at hC hp
        have hole : 515 - kc + ps ≤ n := by omega
        by_cases hD : 515 - kc + ps = n
        · -- the chunk ends with the reset
          refine ⟨hello_after 0, _, ?_, Or.inr (Or.inr ⟨by omega, 0, by omega, rfl, rfl⟩)⟩
          rw [minotar_decode_one_parse env (fuel + 1) ctx _ he (by rw [hl]; exact hn)
            (by rw [hl]; omega) (by rw [hp, hl]; exact hD), hp]
          simp only [List.append_assoc, List.singleton_append]
          rfl
        · -- the bytes after the reset are stored as header bytes
          have hz : ((hello_archive.drop kc).take n).drop (515 - kc + ps)
              = List.replicate (n - (515 - kc + ps)) 0 := by
            have e := hello_chunk_drop_take kc n (515 - kc + ps) (n - (515 - kc + ps)) (by omega)
            rw [List.take_of_length_le (by rw [List.length_drop, hl])] at e
            rw [e, hello_zero_chunk _ _ (by omega) (by omega)]
          have hp2 := minotar_parse_header_incomplete env (fresh_ctx none)
            (List.replicate (n - (515 - kc + ps)) 0) rfl rfl
            (by rw [List.length_replicate]; omega)
            (by rw [List.length_replicate]; show 0 + _ < 512; omega)
          have hctx : ({ fresh_ctx none with
              record_header_buf := store (fresh_ctx none).record_header_buf
                (fresh_ctx none).rx_byte_offset (List.replicate (n - (515 - kc + ps)) 0)
              rx_byte_offset := (fresh_ctx none).rx_byte_offset +
                (List.replicate (n - (515 - kc + ps)) 0).length } : minotar_)
              = hello_after (n - (515 - kc + ps)) := by
            simp only [hello_after, fresh_ctx, List.length_replicate, Nat.zero_add,
              store_zeros 512 0 _ (show 0 + (n - (515 - kc + ps)) ≤ 512 by omega)]
          rw [hctx, List.length_replicate] at hp2
          refine ⟨hello_after (n - (515 - kc + ps)), _, ?_,
            Or.inr (Or.inr ⟨by omega, n - (515 - kc + ps), by omega, rfl, rfl⟩)⟩
          unfold minotar_decode
          rw [decode_loop_step env _ (fuel + 1) ctx 0 ⟨he, by rw [hl]; exact hn⟩, List.drop_zero,
            hp]
          simp only
          rw [uadd_eq 0 _ (by omega), Nat.zero_add, if_neg (by rw [hl]; omega),
            decode_loop_last env _ fuel (fresh_ctx none) _ rfl (by rw [hl]; omega)
              (by rw [hl]; omega) (by rw [hz, hp2, hl]; simp only; omega), hz, hp2]
          simp only [List.append_nil, List.append_assoc, List.singleton_append]
          rfl
      · -- no reset
        rw [if_neg hC] at hpad
        have hp : minotar_parse env ctx ((hello_archive.drop kc).take n) =
            { ctx := hello_stuck,
              offset := 515 - kc + min ((kc + 509) % 512) (kc + n - 515),
              calls := cl ++ [FsCall.fwrite (ascii "hello.txt")
                ((hello_archive.drop k2).take (515 - k2))] } := by
          rw [hparse, hpay, hpad]
        have ho : 515 - kc + min ((kc + 509) % 512) (kc + n - 515) = n := by omega
        refine ⟨hello_stuck, _, ?_, Or.inr (Or.inl ⟨by omega, rfl, rfl⟩)⟩
        rw [minotar_decode_one_parse env (fuel + 1) ctx _ he (by rw [hl]; exact hn)
          (by rw [hl]; omega) (by rw [hp, hl]; exact ho), hp]
        rfl

theorem HelloInv_facts (env : Env) (k : Nat) (ctx : minotar_) (t : List FsCall)
    (h : HelloInv env k ctx t) : ctx.error = MINOTAR_noerror ∧ k ≤ 1024 := by
  rcases h with ⟨h1, rfl, -⟩ | ⟨h1, h2, rfl, -⟩ | ⟨h1, rfl, -⟩ | ⟨h1, h2, j, -, rfl, -⟩
  · exact ⟨rfl, by omega⟩
  · exact ⟨rfl, by omega⟩
  · exact ⟨rfl, by omega⟩
  · exact ⟨rfl, by omega⟩

theorem hello_parse_header_complete (env : Env) (k n : Nat) (hsz : env.sizeof_typeflag = 1)
    (hm : env.malloc 10 = true) (hf : env.fopen (ascii "hello.txt") = true)
    (hmk : env.defined_mknod = true →
      env.mknod (ascii "hello.txt") (Nat.lor 0o644 S_IFREG) 0 = 0)
    (hk : k < 512) (hn : 512 ≤ k + n) (h5 : k + n ≤ 1024) :
    minotar_parse env (hello_awaiting k) ((hello_archive.drop k).take n) =
      parse_padding ((hello_archive.drop k).take n)
        (parse_payload ((hello_archive.drop k).take n)
          { ctx := hello_payload 512, offset := 512 - k, calls := hello_create_calls env }) := by
  have hl := hello_chunk_length k n h5
  have hh := parse_header_complete env (hello_awaiting k) ((hello_archive.drop k).take n) rfl hk
    (by rw [hl]; exact hn)
  have hrx : (hello_awaiting k).rx_byte_offset = k := rfl
  have hbuf : (hello_awaiting k).record_header_buf
      = hello_archive.take k ++ List.replicate (512 - k) 0 := rfl
  have hst : store (hello_archive.take k ++ List.replicate (512 - k) 0) k
      (((hello_archive.drop k).take n).take (512 - k))
      = hello_archive.take 512 ++ List.replicate (512 - 512) 0 := by
    rw [List.take_take, show min (512 - k) n = 512 - k by omega,
      store_stream hello_archive k (512 - k) 512 (by omega) (by rw [hello_archive_length]; omega)]
    have e : k + (512 - k) = 512 := by omega
    rw [e]
  have hctx : ({ hello_awaiting k with
      record_header_buf := store (hello_awaiting k).record_header_buf
        (hello_awaiting k).rx_byte_offset
        (((hello_archive.drop k).take n).take (512 - (hello_awaiting k).rx_byte_offset))
      rx_byte_offset := 512 } : minotar_) = hello_awaiting 512 := by
    rw [hrx, hbuf, hst]
    rfl
  rw [hctx, hello_record_block env hsz hm hf hmk, hrx] at hh
  rw [minotar_parse, hh]

theorem hello_parse_payload (env : Env) (k n : Nat) :
    minotar_parse env (hello_payload k) ((hello_archive.drop k).take n) =
      parse_padding ((hello_archive.drop k).take n)
        (parse_payload ((hello_archive.drop k).take n)
          { ctx := hello_payload k, offset := k - k, calls := [] }) := by
  rw [minotar_parse, parse_header_skip _ _ _ rfl, Nat.sub_self]

theorem hello_payload_flatten (ws : List (List Nat)) (k w : Nat) (hk : 512 ≤ k)
    (h : ws.flatten = (hello_archive.drop 512).take (k - 512)) :
    (ws ++ [(hello_archive.drop k).take w]).flatten
      = (hello_archive.drop 512).take (k + w - 512) := by
  have e : hello_archive.drop k = (hello_archive.drop 512).drop (k - 512) := by
    rw [List.drop_drop]; congr 1; omega
  have e2 : k + w - 512 = (k - 512) + w := by omega
  rw [List.flatten_append, h, e, e2, List.take_add]
  simp

theorem calls_append_write (c : List FsCall) (ws : List (List Nat)) (d : List Nat)
    (f : List Nat → FsCall) : (c ++ ws.map f) ++ ([] ++ [f d]) = c ++ (ws ++ [d]).map f := by
  simp

theorem calls_append_write_close (c : List FsCall) (ws : List (List Nat)) (d : List Nat)
    (f : List Nat → FsCall) (x : FsCall) :
    (c ++ ws.map f) ++ ([] ++ [f d, x]) = c ++ (ws ++ [d]).map f ++ [x] := by
  simp

theorem calls_write_close (c : List FsCall) (d : List Nat) (f : List Nat → FsCall) (x : FsCall) :
    c ++ [f d, x] = c ++ [d].map f ++ [x] := by
  simp

/-- One call of `minotar_decode` on the next `n` bytes of the archive of
`hello.txt` returns `MINOTAR_noerror` and keeps the invariant. -/
theorem hello_step (env : Env) (fuel k n : Nat) (ctx : minotar_) (t : List FsCall)
    (hsz : env.sizeof_typeflag = 1) (hm : env.malloc 10 = true)
    (hf : env.fopen (ascii "hello.txt") = true)
    (hmk : env.defined_mknod = true →
      env.mknod (ascii "hello.txt") (Nat.lor 0o644 S_IFREG) 0 = 0)
    (hinv : HelloInv env k ctx t) (hn : 0 < n) (h5 : k + n ≤ 1024) :
    ∃ ctx2 t2, minotar_decode env (fuel + 2) ctx ((hello_archive.drop k).take n)
        = some (MINOTAR_noerror, ctx2, t2) ∧ HelloInv env (k + n) ctx2 (t ++ t2) := by
  have e3 : 515 - 512 = 3 := rfl
  rcases hinv with ⟨h1, rfl, rfl⟩ | ⟨h1, h2, rfl, ws, hws, rfl⟩ | ⟨h1, rfl, -⟩ |
    ⟨h1, h2, j, hj, rfl, ws, hws, rfl⟩
  · -- awaiting the header
    by_cases hp : k + n < 512
    · exact ⟨hello_awaiting (k + n), [],
        hello_step_header_incomplete env (fuel + 1) k n hn hp, Or.inl ⟨hp, rfl, rfl⟩⟩
    · obtain ⟨ctx2, t2, hd, hpost⟩ := hello_step_record env fuel k 512 n (hello_create_calls env)
        (hello_awaiting k) rfl hn (by omega) (by omega) (by omega) (by omega) h5
        (hello_parse_header_complete env k n hsz hm hf hmk h1 (by omega) h5)
      refine ⟨ctx2, t2, hd, ?_⟩
      rw [List.nil_append]
      unfold HelloInv
      rcases hpost with ⟨a1, rfl, ⟨a2, rfl⟩ | ⟨a2, rfl⟩⟩ | ⟨a1, rfl, rfl⟩ | ⟨a1, j, a2, rfl, rfl⟩
      · refine Or.inr (Or.inl ⟨by omega, a1, rfl, [], ?_, ?_⟩)
        · rw [a2, Nat.sub_self, List.take_zero, List.flatten_nil]
        · rw [List.map_nil, List.append_nil]
      · refine Or.inr (Or.inl ⟨by omega, a1, rfl,
          [(hello_archive.drop 512).take (k + n - 512)], ?_, ?_⟩)
        · rw [List.flatten_cons, List.flatten_nil, List.append_nil]
        · rw [List.map_cons, List.map_nil]
      · refine Or.inr (Or.inr (Or.inl ⟨a1, rfl, [(hello_archive.drop 512).take 3], ?_, ?_⟩))
        · rw [List.flatten_cons, List.flatten_nil, List.append_nil]
        · rw [List.map_cons, List.map_nil, e3]
      · refine Or.inr (Or.inr (Or.inr ⟨a1, h5, j, a2, rfl,
          [(hello_archive.drop 512).take 3], ?_, ?_⟩))
        · rw [List.flatten_cons, List.flatten_nil, List.append_nil]
        · rw [e3]
          exact calls_write_close (hello_create_calls env) _ (FsCall.fwrite (ascii "hello.txt")) _
  · -- in the payload
    obtain ⟨ctx2, t2, hd, hpost⟩ := hello_step_record env fuel k k n [] (hello_payload k) rfl hn
      (Nat.le_refl _) h1 h2 (by omega) h5 (hello_parse_payload env k n)
    refine ⟨ctx2, t2, hd, ?_⟩
    unfold HelloInv
    rcases hpost with ⟨a1, rfl, ⟨a2, rfl⟩ | ⟨a2, rfl⟩⟩ | ⟨a1, rfl, rfl⟩ | ⟨a1, j, a2, rfl, rfl⟩
    · omega
    · refine Or.inr (Or.inl ⟨by omega, a1, rfl,
        ws ++ [(hello_archive.drop k).take (k + n - k)], ?_, ?_⟩)
      · rw [hello_payload_flatten ws k _ h1 hws, show k + (k + n - k) - 512 = k + n - 512 by omega]
      · exact calls_append_write (hello_create_calls env) ws _ (FsCall.fwrite (ascii "hello.txt"))
    · refine Or.inr (Or.inr (Or.inl ⟨a1, rfl,
        ws ++ [(hello_archive.drop k).take (515 - k)], ?_, ?_⟩))
      · rw [hello_payload_flatten ws k _ h1 hws, show k + (515 - k) - 512 = 3 by omega]
      · exact calls_append_write (hello_create_calls env) ws _ (FsCall.fwrite (ascii "hello.txt"))
    · refine Or.inr (Or.inr (Or.inr ⟨a1, h5, j, a2, rfl,
        ws ++ [(hello_archive.drop k).take (515 - k)], ?_, ?_⟩))
      · rw [hello_payload_flatten ws k _ h1 hws, show k + (515 - k) - 512 = 3 by omega]
      · exact calls_append_write_close (hello_create_calls env) ws _
          (FsCall.fwrite (ascii "hello.txt")) _
  · omega
  · -- after the reset
    refine ⟨hello_after (j + n), [], hello_step_after env (fuel + 1) k j n hn h1 h5 hj, ?_⟩
    unfold HelloInv
    refine Or.inr (Or.inr (Or.inr ⟨by omega, h5, j + n, by omega, rfl, ws, hws, ?_⟩))
    rw [List.append_nil]

/-- Decoding the rest of the archive of `hello.txt`, in any chunks, from a
state of the invariant. -/
theorem hello_chunks (env : Env) (fuel : Nat) (hsz : env.sizeof_typeflag = 1)
    (hm : env.malloc 10 = true) (hf : env.fopen (ascii "hello.txt") = true)
    (hmk : env.defined_mknod = true →
      env.mknod (ascii "hello.txt") (Nat.lor 0o644 S_IFREG) 0 = 0)
    (chunks : List (List Nat)) :
    ∀ (k : Nat) (ctx : minotar_) (t : List FsCall), HelloInv env k ctx t →
      chunks.flatten = hello_archive.drop k →
      ∃ ctx2 t2, decode_chunks env (fuel + 2) ctx chunks
          = some (List.replicate chunks.length MINOTAR_noerror, ctx2, t2) ∧
        HelloInv env 1024 ctx2 (t ++ t2) := by
  induction chunks with
  | nil =>
    intro k ctx t hinv hfl
    have hk := (HelloInv_facts env k ctx t hinv).2
    have hlen := congrArg List.length hfl
    rw [List.flatten_nil, List.length_nil, List.length_drop, hello_archive_length] at hlen
    have e : k = 1024 := by omega
    subst e
    exact ⟨ctx, [], rfl, by rw [List.append_nil]; exact hinv⟩
  | cons c cs ih =>
    intro k ctx t hinv hfl
    obtain ⟨he, hk⟩ := HelloInv_facts env k ctx t hinv
    rw [List.flatten_cons] at hfl
    have hlen := congrArg List.length hfl
    rw [List.length_append, List.length_drop, hello_archive_length] at hlen
    have hc : c = (hello_archive.drop k).take c.length := by
      rw [← hfl, List.take_left]
    have hcs : cs.flatten = hello_archive.drop (k + c.length) := by
      rw [← List.drop_drop, ← hfl, List.drop_left]
    by_cases hn : c.length = 0
    · have hnil : c = [] := List.length_eq_zero.1 hn
      subst hnil
      obtain ⟨ctx2, t2, hd, hi⟩ := ih k ctx t hinv (by simpa using hcs)
      refine ⟨ctx2, t2, ?_, hi⟩
      simp only [decode_chunks, minotar_decode_nil, he, hd, List.nil_append, List.length_cons,
        List.replicate_succ]
    · obtain ⟨ctx1, t1, hd1, hi1⟩ := hello_step env fuel k c.length ctx t hsz hm hf hmk hinv
        (by omega) (by omega)
      rw [← hc] at hd1
      obtain ⟨ctx2, t2, hd, hi⟩ := ih (k + c.length) ctx1 (t ++ t1) hi1 hcs
      refine ⟨ctx2, t1 ++ t2, ?_, by rw [← List.append_assoc]; exact hi⟩
      simp only [decode_chunks, hd1, hd, List.length_cons, List.replicate_succ]

/-- Round trip on a build with a one-byte type flag: for every way of cutting
the 1024-byte archive of `hello.txt` into chunks (empty chunks allowed), where
`malloc` and `fopen` succeed (and `mknod`, where it is used),
decoding the chunks in order on a fresh context without extract root returns
`MINOTAR_noerror` from every call; the library calls are those that create the
regular file at the path `hello.txt` and set its mode to 0644, the value of the
octal mode field of the header (`hello_create_calls`), then `fwrite` calls on
that file whose data, put together, are the three bytes `h`, `i`, line feed, then
at most one `fclose` of that file. -/
theorem hello_round_trip (env : Env) (fuel : Nat) (chunks : List (List Nat))
    (hsz : env.sizeof_typeflag = 1) (hm : env.malloc 10 = true)
    (hf : env.fopen (ascii "hello.txt") = true)
    (hmk : env.defined_mknod = true →
      env.mknod (ascii "hello.txt") (Nat.lor 0o644 S_IFREG) 0 = 0)
    (hfuel : 2 ≤ fuel) (hfl : chunks.flatten = hello_archive) :
    ∃ (ctx : minotar_) (ws : List (List Nat)) (cl : List FsCall),
      decode_chunks env fuel (fresh_ctx none) chunks =
        some (List.replicate chunks.length MINOTAR_noerror, ctx,
          hello_create_calls env ++ ws.map (FsCall.fwrite (ascii "hello.txt")) ++ cl) ∧
      ws.flatten = ascii "hi" ++ [10] ∧
      (cl = [] ∨ cl = [FsCall.fclose (ascii "hello.txt")]) ∧
      minotar_get_file_mode { fresh_ctx none with record_header_buf := hello_header } = 0o644 := by
  obtain ⟨f, rfl⟩ := Nat.exists_eq_add_of_le hfuel
  rw [Nat.add_comm]
  obtain ⟨ctx2, t2, hd, hi⟩ := hello_chunks env f hsz hm hf hmk chunks 0 (fresh_ctx none) []
    (Or.inl ⟨by omega, hello_awaiting_zero.symm, rfl⟩) hfl
  rw [List.nil_append] at hi
  rcases hi with ⟨h1, -⟩ | ⟨-, h2, -⟩ | ⟨-, -, ws, hws, rfl⟩ | ⟨-, -, j, -, -, ws, hws, rfl⟩
  · omega
  · omega
  · exact ⟨ctx2, ws, [], by rw [List.append_nil]; exact hd,
      by rw [hws, hello_payload_bytes], Or.inl rfl, by decide⟩
  · exact ⟨ctx2, ws, [FsCall.fclose (ascii "hello.txt")], hd,
      by rw [hws, hello_payload_bytes], Or.inr rfl, by decide⟩

/-- Witness of `hello_round_trip`: the archive cut after bytes 100 and 600. -/
theorem hello_round_trip_witness :
    ∃ (ctx : minotar_) (ws : List (List Nat)) (cl : List FsCall),
      decode_chunks posix_env 2 (fresh_ctx none)
          [hello_archive.take 100, (hello_archive.drop 100).take 500, hello_archive.drop 600] =
        some (List.replicate 3 MINOTAR_noerror, ctx,
          hello_create_calls posix_env ++ ws.map (FsCall.fwrite (ascii "hello.txt")) ++ cl) ∧
      ws.flatten = ascii "hi" ++ [10] ∧
      (cl = [] ∨ cl = [FsCall.fclose (ascii "hello.txt")]) ∧
      minotar_get_file_mode { fresh_ctx none with record_header_buf := hello_header } = 0o644 :=
  hello_round_trip posix_env 2
    [hello_archive.take 100, (hello_archive.drop 100).take 500, hello_archive.drop 600]
    (by decide) (by decide) (by decide) (by decide) (by decide) (by decide)

/-! ### Termination, creation failure, device numbers -/

theorem decode_loop_stuck_at (env : Env) (bytes : List Nat) (ctx : minotar_)
    (h : stuck ctx = true) (parsed : Nat) (hp : parsed < bytes.length) (hw : bytes.length < WORD)
    (fuel : Nat) : decode_loop env bytes fuel ctx parsed = none := by
  have he := ((stuck_iff ctx).1 h).2.2.2.2
  induction fuel with
  | zero => simp [decode_loop, he, hp]
  | succ n ih =>
    rw [decode_loop_step env bytes n ctx parsed ⟨he, hp⟩, minotar_parse_stuck env ctx _ h]
    have : uadd parsed 0 = parsed := by rw [uadd_eq _ _ (by omega)]; rfl
    simp only [this, if_neg (Nat.lt_asymm hp), ih]

/-- C11 at a failing input: the fresh context fed the 1024-byte archive of
`ten.bin` returns `MINOTAR_noerror` in a state where `minotar_parse` consumes 0
bytes of a non-empty remainder with no error set; and fed, as one chunk, the
record of `ten.bin` followed by the first 100 bytes of the next header, the loop
of `minotar_decode` does not end within any number of iterations. -/
theorem decode_never_returns_on_two_records :
    (minotar_decode posix_env 1 (fresh_ctx none) ten_archive).map
      (fun r => (r.1, r.2.1.error, (minotar_parse posix_env r.2.1 [0]).offset))
      = some (MINOTAR_noerror, MINOTAR_noerror, 0) ∧
    (minotar_parse posix_env (fresh_ctx none) two_records).offset = 1024 ∧
    (minotar_parse posix_env (minotar_parse posix_env (fresh_ctx none) two_records).ctx
      (two_records.drop 1024)).offset = 0 ∧
    ∀ fuel : Nat, minotar_decode posix_env fuel (fresh_ctx none) two_records = none := by
  have h1 : (minotar_parse posix_env (fresh_ctx none) two_records).offset = 1024 := by decide
  have h2 : stuck (minotar_parse posix_env (fresh_ctx none) two_records).ctx = true := by decide
  have hl : two_records.length = 1124 := by decide
  refine ⟨by decide, h1, ?_, ?_⟩
  · rw [minotar_parse_stuck posix_env _ _ h2]
  · intro fuel
    unfold minotar_decode
    cases fuel with
    | zero => simp [decode_loop, fresh_ctx, hl]
    | succ n =>
      rw [decode_loop_step posix_env two_records n (fresh_ctx none) 0 ⟨rfl, by rw [hl]; omega⟩,
        List.drop_zero, h1]
      have hu : uadd 0 1024 = 1024 := by decide
      rw [hu, if_neg (by rw [hl]; omega),
        decode_loop_stuck_at posix_env two_records _ h2 1024 (by rw [hl]; omega)
          (by rw [hl, WORD_val]; omega) n]

/-- C12 at a failing input: on a system where `mkdir` fails, the header of the
directory `newdir` passes the checksum test and `minotar_create_file` returns
false, yet the call of `minotar_decode` that completes the header returns
`MINOTAR_noerror`, stores no error, and the next call returns `MINOTAR_noerror`
too: the padding block of the same `minotar_parse` run resets the context.  On
a system where `fopen` fails, decoding the archive of `hello.txt` returns
`MINOTAR_noerror` as well. -/
theorem creation_failure_is_cleared :
    (minotar_parse_record_block mkdir_fails_env
      { fresh_ctx none with record_header_buf := dir_header, rx_byte_offset := 512 }).1 = false ∧
    (minotar_parse_record_block mkdir_fails_env
      { fresh_ctx none with record_header_buf := dir_header, rx_byte_offset := 512 }).2.1.error
      = MINOTAR_failed_to_create_file ∧
    (minotar_decode mkdir_fails_env 1 (fresh_ctx none) dir_header).map
      (fun r => (r.1, r.2.1.error, r.2.2))
      = some (MINOTAR_noerror, MINOTAR_noerror,
          [FsCall.mkdir (ascii "newdir") 0o644, FsCall.chmod (ascii "newdir") 0o644]) ∧
    (decode_chunks mkdir_fails_env 1 (fresh_ctx none) [dir_header, [0]]).map (fun r => r.1)
      = some [MINOTAR_noerror, MINOTAR_noerror] ∧
    (minotar_decode fopen_fails_env 1 (fresh_ctx none) hello_archive).map
      (fun r => (r.1, r.2.1.error, r.2.2))
      = some (MINOTAR_noerror, MINOTAR_noerror,
          [FsCall.fopen (ascii "hello.txt"), FsCall.chmod (ascii "hello.txt") 0o644]) := by
  decide

theorem land_shifted_low (a m : Nat) (hm : m < 2 ^ 32) :
    Nat.land ((a * 2 ^ 32) % WORD) m = 0 := by
  apply Nat.eq_of_testBit_eq
  intro i
  show (((a * 2 ^ 32) % WORD) &&& m).testBit i = (0 : Nat).testBit i
  rw [Nat.testBit_and, Nat.zero_testBit]
  by_cases hi : i < 32
  · have : ((a * 2 ^ 32) % WORD).testBit i = false := by
      rw [WORD, Nat.testBit_mod_two_pow, Nat.mul_comm, Nat.testBit_mul_pow_two]
      simp [hi]
    rw [this, Bool.false_and]
  · have : m.testBit i = false :=
      Nat.testBit_lt_two_pow (lt_of_lt_of_le hm (Nat.pow_le_pow_right (by norm_num) (by omega)))
    rw [this, Bool.and_false]

/-- C16 at a failing input and in general: with device fields that decode to
`M = 1` and `m = 2` the function returns 0, where the claim gives `2^32 + 2`;
and for every header the function returns 0: `major << 32` has no bit in
common with the 32-bit `minor`, and the two are combined with `&`. -/
theorem device_version_is_zero :
    strtoul8 (device_ctx.record_header_buf.drop (OFF_devmajor 1)) % WORD32 = 1 ∧
    strtoul8 (device_ctx.record_header_buf.drop (OFF_devminor 1)) % WORD32 = 2 ∧
    minotar_header_get_device_version 1 device_ctx = 0 ∧
    minotar_header_get_device_version 1 hello_checked = 0 ∧
    ∀ (tw : Nat) (ctx : minotar_), minotar_header_get_device_version tw ctx = 0 := by
  refine ⟨by decide, by decide, by decide, by decide, ?_⟩
  intro tw ctx
  unfold minotar_header_get_device_version
  exact land_shifted_low _ _ (Nat.mod_lt _ (by decide))

/-! ### Header accumulation -/

theorem awaiting_ctx_nil (root : Option (List Nat)) : awaiting_ctx root [] = fresh_ctx root := rfl

/-- One call of `minotar_decode` that leaves the header incomplete appends the
chunk to the bytes stored. -/
theorem decode_awaiting (env : Env) (fuel : Nat) (root : Option (List Nat)) (P c : List Nat)
    (h : P.length + c.length < 512) :
    minotar_decode env (fuel + 1) (awaiting_ctx root P) c =
      some (MINOTAR_noerror, awaiting_ctx root (P ++ c), []) := by
  by_cases hc : c = []
  · subst hc
    rw [minotar_decode_nil, List.append_nil]
    rfl
  · have hpos : 0 < c.length := List.length_pos.2 hc
    rw [decode_header_incomplete env fuel (awaiting_ctx root P) c rfl rfl rfl hpos h]
    have hs : store (P ++ List.replicate (512 - P.length) 0) P.length c
        = (P ++ c) ++ List.replicate (512 - (P ++ c).length) 0 := by
      rw [store_append P _ c (by rw [List.length_replicate]; omega), List.drop_replicate,
        List.length_append]
      congr 2
      omega
    simp only [awaiting_ctx, hs, List.length_append]

/-- Chunks that leave the header incomplete are stored one after the other. -/
theorem decode_chunks_awaiting (env : Env) (fuel : Nat) (root : Option (List Nat))
    (chunks : List (List Nat)) :
    ∀ P : List Nat, P.length + chunks.flatten.length < 512 →
      decode_chunks env (fuel + 1) (awaiting_ctx root P) chunks =
        some (List.replicate chunks.length MINOTAR_noerror,
          awaiting_ctx root (P ++ chunks.flatten), []) := by
  induction chunks with
  | nil => intro P _; simp [decode_chunks]
  | cons c cs ih =>
    intro P h
    rw [List.flatten_cons, List.length_append] at h
    have h1 := decode_awaiting env fuel root P c (by omega)
    have h2 := ih (P ++ c) (by rw [List.length_append]; omega)
    simp only [decode_chunks, h1, h2, List.length_cons, List.replicate_succ, List.flatten_cons,
      List.append_assoc, List.append_nil]

/-- C17 (header accumulation): for a fresh context and chunks of total length
`m < 512`, every call returns `MINOTAR_noerror` and makes no library call, and
afterwards the cursor is `m`, the header buffer holds the chunks put together
followed by zero bytes, the header is incomplete and no error is set.  In one
run of `minotar_parse` with the header incomplete and cursor `k < 512`, the
first block stores `min (512 - k) length` bytes at `k`: when `k + length < 512`
it does no more, and when `512 ≤ k + length` it runs
`minotar_parse_record_block` on the completed buffer, in that same run. -/
theorem header_accumulation (env : Env) (fuel : Nat) (root : Option (List Nat))
    (chunks : List (List Nat)) (ctx : minotar_) (bytes : List Nat)
    (hm : chunks.flatten.length < 512) (hc : ctx.record_header_complete = false)
    (hk : ctx.rx_byte_offset < 512) (hn : 0 < bytes.length) :
    decode_chunks env (fuel + 1) (fresh_ctx root) chunks =
      some (List.replicate chunks.length MINOTAR_noerror,
        { extract_path := root, file := none, bytes_remaining := 0,
          rx_byte_offset := chunks.flatten.length, error := MINOTAR_noerror,
          record_header_complete := false,
          record_header_buf := chunks.flatten ++ List.replicate (512 - chunks.flatten.length) 0 },
        []) ∧
    (ctx.rx_byte_offset + bytes.length < 512 →
      parse_header env bytes { ctx := ctx, offset := 0, calls := [] } =
        { ctx := { ctx with
            record_header_buf := store ctx.record_header_buf ctx.rx_byte_offset bytes
            rx_byte_offset := ctx.rx_byte_offset + bytes.length },
          offset := bytes.length, calls := [] }) ∧
    (512 ≤ ctx.rx_byte_offset + bytes.length →
      parse_header env bytes { ctx := ctx, offset := 0, calls := [] } =
        { ctx := (minotar_parse_record_block env { ctx with
              record_header_buf := store ctx.record_header_buf ctx.rx_byte_offset
                (bytes.take (512 - ctx.rx_byte_offset))
              rx_byte_offset := 512 }).2.1,
          offset := 512 - ctx.rx_byte_offset,
          calls := (minotar_parse_record_block env { ctx with
              record_header_buf := store ctx.record_header_buf ctx.rx_byte_offset
                (bytes.take (512 - ctx.rx_byte_offset))
              rx_byte_offset := 512 }).2.2 }) := by
  refine ⟨?_, fun h => parse_header_incomplete env ctx bytes hc hn h,
    fun h => parse_header_complete env ctx bytes hc hk h⟩
  have h := decode_chunks_awaiting env fuel root chunks [] (by simpa using hm)
  rw [awaiting_ctx_nil, List.nil_append] at h
  rw [h]
  rfl

/-- Witness of `header_accumulation`: the first 300 bytes of the header of
`hello.txt` in chunks of 100, 0 and 200 bytes, and the context after 500 bytes
given 10 and 12 bytes. -/
theorem header_accumulation_witness :
    decode_chunks posix_env 1 (fresh_ctx none)
        [hello_header.take 100, [], (hello_header.drop 100).take 200] =
      some (List.replicate 3 MINOTAR_noerror,
        { extract_path := none, file := none, bytes_remaining := 0,
          rx_byte_offset := [hello_header.take 100, [], (hello_header.drop 100).take 200].flatten.length,
          error := MINOTAR_noerror, record_header_complete := false,
          record_header_buf := [hello_header.take 100, [], (hello_header.drop 100).take 200].flatten ++
            List.replicate
              (512 - [hello_header.take 100, [], (hello_header.drop 100).take 200].flatten.length) 0 },
        []) :=
  (header_accumulation posix_env 0 none
    [hello_header.take 100, [], (hello_header.drop 100).take 200] (hello_awaiting 500)
    (hello_header.drop 500) (by decide) (by decide) (by decide) (by decide)).1

/-! ### Reachable contexts: buffer bounds, output handle, unknown error -/

/-- What `minotar_create_file` leaves as it is: every member but `file` and
`error`, and `error` too when it returns true. -/
theorem create_file_frame (env : Env) (c : minotar_) :
    (minotar_create_file env c).2.1.record_header_complete = c.record_header_complete ∧
    (minotar_create_file env c).2.1.record_header_buf = c.record_header_buf ∧
    (minotar_create_file env c).2.1.rx_byte_offset = c.rx_byte_offset ∧
    (minotar_create_file env c).2.1.bytes_remaining = c.bytes_remaining ∧
    (minotar_create_file env c).2.1.extract_path = c.extract_path ∧
    ((minotar_create_file env c).1 = true → (minotar_create_file env c).2.1.error = c.error) := by
  unfold minotar_create_file
  simp only []
  split_ifs <;> simp

theorem verify_checksum_frame (c : minotar_) :
    (minotar_header_verify_checksum c).2 =
      { c with record_header_buf := store c.record_header_buf OFF_checksum (List.replicate 8 32) } :=
  rfl

theorem ctx_inv_fresh (root : Option (List Nat)) : ctx_inv (fresh_ctx root) :=
  ⟨List.length_replicate 512 0, fun _ => ⟨rfl, rfl, fun _ => Nat.zero_lt_succ _⟩⟩

theorem ctx_inv_reset_body (c : minotar_) (h : c.record_header_buf.length = 512) :
    ctx_inv (reset_body c).1 := by
  refine ⟨?_, fun _ => ⟨rfl, rfl, fun _ => Nat.zero_lt_succ _⟩⟩
  show (store c.record_header_buf 0 (List.replicate 512 0)).length = 512
  rw [store_length _ _ _ (Nat.zero_le _), h]

theorem ctx_inv_record_block (env : Env) (c : minotar_) (hl : c.record_header_buf.length = 512)
    (hr : c.bytes_remaining = 0) (hf : c.file = none) :
    ctx_inv (minotar_parse_record_block env c).2.1 := by
  have hl2 : (store c.record_header_buf OFF_checksum (List.replicate 8 32)).length = 512 := by
    rw [store_length _ _ _ (by rw [hl]; decide), hl]
  have hfr := create_file_frame env
    { c with record_header_buf := store c.record_header_buf OFF_checksum (List.replicate 8 32),
             record_header_complete := true, rx_byte_offset := 0 }
  unfold minotar_parse_record_block
  simp only [verify_checksum_frame]
  split_ifs with h1 h2
  · exact ⟨hl2, fun _ => ⟨hr, hf, fun he => by simp at he⟩⟩
  · refine ⟨?_, fun hcf => ?_⟩
    · show (minotar_create_file env _).2.1.record_header_buf.length = 512
      rw [hfr.2.1]; exact hl2
    · have : (minotar_create_file env
        { c with record_header_buf := store c.record_header_buf OFF_checksum (List.replicate 8 32),
                 record_header_complete := true, rx_byte_offset := 0 }).2.1.record_header_complete
          = false := hcf
      rw [hfr.1] at this
      simp at this
  · refine ⟨?_, fun hcf => ?_⟩
    · show (minotar_create_file env _).2.1.record_header_buf.length = 512
      rw [hfr.2.1]; exact hl2
    · have : (minotar_create_file env
        { c with record_header_buf := store c.record_header_buf OFF_checksum (List.replicate 8 32),
                 record_header_complete := true, rx_byte_offset := 0 }).2.1.record_header_complete
          = false := hcf
      rw [hfr.1] at this
      simp at this

theorem ctx_inv_parse_header (env : Env) (bytes : List Nat) (c : minotar_) (h : ctx_inv c)
    (he : c.error = MINOTAR_noerror) :
    ctx_inv (parse_header env bytes { ctx := c, offset := 0, calls := [] }).ctx := by
  by_cases hc : c.record_header_complete = true
  · rw [parse_header_skip env bytes _ hc]; exact h
  · have hc2 : c.record_header_complete = false := by simpa using hc
    obtain ⟨hl, hi⟩ := h
    obtain ⟨hr, hf, hx⟩ := hi hc2
    have hk := hx he
    by_cases hn : bytes.length = 0
    · have hz : MINOTAR_MIN (usub RECORD_BLOCK_ROUNDOFF c.rx_byte_offset) bytes.length = 0 := by
        rw [MINOTAR_MIN_eq, hn]; exact Nat.min_zero _
      have : parse_header env bytes { ctx := c, offset := 0, calls := [] }
          = { ctx := c, offset := 0, calls := [] } := by
        simp [parse_header, hz]
      rw [this]
      exact ⟨hl, hi⟩
    · by_cases hlt : c.rx_byte_offset + bytes.length < 512
      · rw [parse_header_incomplete env c bytes hc2 (by omega) hlt]
        refine ⟨?_, fun _ => ⟨hr, hf, fun _ => hlt⟩⟩
        show (store c.record_header_buf c.rx_byte_offset bytes).length = 512
        rw [store_length _ _ _ (by omega), hl]
      · rw [parse_header_complete env c bytes hc2 hk (by omega)]
        apply ctx_inv_record_block
        · show (store c.record_header_buf c.rx_byte_offset _).length = 512
          rw [store_length _ _ _ (by omega), hl]
        · exact hr
        · exact hf

theorem ctx_inv_parse_payload (bytes : List Nat) (p : ParseState) (h : ctx_inv p.ctx) :
    ctx_inv (parse_payload bytes p).ctx := by
  unfold parse_payload
  simp only []
  split_ifs with hw
  · refine ⟨h.1, fun hc => ?_⟩
    have hr := (h.2 hc).1
    rw [hr, MINOTAR_MIN_eq, Nat.min_zero] at hw
    have h0 : to_ssize 0 = 0 := by decide
    rw [h0] at hw
    exact absurd hw (lt_irrefl _)
  · exact h

theorem ctx_inv_parse_padding (bytes : List Nat) (p : ParseState) (h : ctx_inv p.ctx) :
    ctx_inv (parse_padding bytes p).ctx := by
  unfold parse_padding
  simp only []
  split_ifs with hc hz
  · exact ctx_inv_reset_body _ h.1
  · refine ⟨h.1, fun hcf => ?_⟩
    have : p.ctx.record_header_complete = false := hcf
    simp [this] at hc
  · exact h

/-- One run of `minotar_parse` from a context with no error keeps the
invariant. -/
theorem ctx_inv_parse (env : Env) (bytes : List Nat) (c : minotar_) (h : ctx_inv c)
    (he : c.error = MINOTAR_noerror) : ctx_inv (minotar_parse env c bytes).ctx :=
  ctx_inv_parse_padding bytes _ (ctx_inv_parse_payload bytes _ (ctx_inv_parse_header env bytes c h he))

theorem ctx_inv_set_error (c : minotar_) (e : minotar_error_t) (h : ctx_inv c)
    (hne : e ≠ MINOTAR_noerror) : ctx_inv { c with error := e } :=
  ⟨h.1, fun hc => ⟨(h.2 hc).1, (h.2 hc).2.1, fun he => absurd he hne⟩⟩

theorem ctx_inv_decode_loop (env : Env) (bytes : List Nat) (fuel : Nat) :
    ∀ (c : minotar_) (parsed : Nat) (r : minotar_ × List FsCall), ctx_inv c →
      decode_loop env bytes fuel c parsed = some r → ctx_inv r.1 := by
  induction fuel with
  | zero =>
    intro c parsed r h hd
    by_cases hc : c.error = MINOTAR_noerror ∧ parsed < bytes.length
    · simp [decode_loop, hc] at hd
    · rw [decode_loop_done env bytes _ c parsed hc] at hd
      cases hd
      exact h
  | succ n ih =>
    intro c parsed r h hd
    by_cases hc : c.error = MINOTAR_noerror ∧ parsed < bytes.length
    · rw [decode_loop_step env bytes n c parsed hc] at hd
      have hp := ctx_inv_parse env (bytes.drop parsed) c h hc.1
      generalize hq : decode_loop env bytes n _ _ = q at hd
      cases q with
      | none => simp at hd
      | some v =>
        have hv := ih _ _ v (by
          split_ifs
          · exact ctx_inv_set_error _ _ hp (by decide)
          · exact hp) hq
        obtain ⟨v1, v2⟩ := v
        simp only [Option.some.injEq] at hd
        rw [← hd]
        exact hv
    · rw [decode_loop_done env bytes _ c parsed hc] at hd
      cases hd
      exact h

/-- Every reachable context satisfies the invariant. -/
theorem reachable_inv (env : Env) (c : minotar_) (h : Reachable env c) : ctx_inv c := by
  induction h with
  | fresh root => exact ctx_inv_fresh root
  | parse c bytes _ he ih => exact ctx_inv_parse env bytes c ih he
  | decode c c2 fuel bytes e t _ hd ih =>
    unfold minotar_decode at hd
    generalize hq : decode_loop env bytes fuel c 0 = q at hd
    cases q with
    | none => simp at hd
    | some v =>
      have hv := ctx_inv_decode_loop env bytes fuel c 0 v ih hq
      obtain ⟨v1, v2⟩ := v
      simp only [Option.some.injEq, Prod.mk.injEq] at hd
      rw [← hd.2.1]
      exact hv
  | reset c c2 e t _ hd ih =>
    simp only [minotar_reset, Prod.mk.injEq, Option.some.injEq] at hd
    rw [← hd.2.1]
    exact ctx_inv_reset_body c ih.1
  | set_extract_directory c c2 path e _ hd ih =>
    cases path with
    | none =>
      simp only [minotar_set_extract_directory, Prod.mk.injEq, Option.some.injEq] at hd
      rw [← hd.2]; exact ih
    | some p =>
      simp only [minotar_set_extract_directory] at hd
      split_ifs at hd
      · simp only [Prod.mk.injEq, Option.some.injEq] at hd
        rw [← hd.2]; exact ih
      · simp only [Prod.mk.injEq, Option.some.injEq] at hd
        rw [← hd.2]; exact ih
      · simp only [Prod.mk.injEq, Option.some.injEq] at hd
        rw [← hd.2]
        exact ih

/-- C18 (header buffer bounds): in every context reachable from a fresh one
by `minotar_decode`, `minotar_reset` and `minotar_set_extract_directory` (and
between two iterations of the decode loop), when the header is incomplete and
no error is set the cursor is below 512 and the buffer has 512 bytes; so
`512 - cursor` does not wrap and the bytes copied by the first block of
`minotar_parse` end inside the buffer. -/
theorem header_buffer_bounds (env : Env) (c : minotar_) (bytes : List Nat)
    (h : Reachable env c) (hc : c.record_header_complete = false)
    (he : c.error = MINOTAR_noerror) :
    c.rx_byte_offset < 512 ∧ c.record_header_buf.length = 512 ∧
    usub RECORD_BLOCK_ROUNDOFF c.rx_byte_offset = 512 - c.rx_byte_offset ∧
    c.rx_byte_offset + MINOTAR_MIN (usub RECORD_BLOCK_ROUNDOFF c.rx_byte_offset) bytes.length
      ≤ c.record_header_buf.length := by
  obtain ⟨hl, hi⟩ := reachable_inv env c h
  have hk := (hi hc).2.2 he
  have hu : usub RECORD_BLOCK_ROUNDOFF c.rx_byte_offset = 512 - c.rx_byte_offset :=
    usub_eq 512 c.rx_byte_offset (by omega) (by rw [WORD_val]; omega)
  refine ⟨hk, hl, hu, ?_⟩
  rw [hu, MINOTAR_MIN_eq, hl]
  omega

/-- Witness of `header_buffer_bounds`: the context after the first 100 bytes of
the header of `hello.txt`, offered the remaining bytes of the archive. -/
theorem header_buffer_bounds_witness :
    (awaiting_ctx none (hello_header.take 100)).rx_byte_offset < 512 ∧
    (awaiting_ctx none (hello_header.take 100)).record_header_buf.length = 512 ∧
    usub RECORD_BLOCK_ROUNDOFF (awaiting_ctx none (hello_header.take 100)).rx_byte_offset
      = 512 - (awaiting_ctx none (hello_header.take 100)).rx_byte_offset ∧
    (awaiting_ctx none (hello_header.take 100)).rx_byte_offset +
      MINOTAR_MIN (usub RECORD_BLOCK_ROUNDOFF (awaiting_ctx none (hello_header.take 100)).rx_byte_offset)
        (hello_archive.drop 100).length
      ≤ (awaiting_ctx none (hello_header.take 100)).record_header_buf.length :=
  header_buffer_bounds posix_env (awaiting_ctx none (hello_header.take 100)) (hello_archive.drop 100)
    (Reachable.decode (fresh_ctx none) (awaiting_ctx none (hello_header.take 100)) 1
      (hello_header.take 100) MINOTAR_noerror [] (Reachable.fresh none)
      (decode_awaiting posix_env 0 none [] (hello_header.take 100) (by decide)))
    rfl rfl

theorem parse_payload_handle (bytes : List Nat) (p : ParseState) :
    (parse_payload bytes p).ctx.file = p.ctx.file ∧
    (∀ g, FsCall.fopen g ∈ (parse_payload bytes p).calls → FsCall.fopen g ∈ p.calls) := by
  unfold parse_payload
  simp only []
  split_ifs
  · refine ⟨rfl, fun g hg => ?_⟩
    cases hf : p.ctx.file with
    | none => simpa [hf] using hg
    | some f => simpa [hf] using hg
  · exact ⟨rfl, fun g hg => hg⟩

theorem parse_padding_handle (bytes : List Nat) (p : ParseState) :
    (∀ g, FsCall.fopen g ∈ (parse_padding bytes p).calls → FsCall.fopen g ∈ p.calls) ∧
    (∀ f, p.ctx.file = some f → (parse_padding bytes p).ctx.file = some f ∨
      ((parse_padding bytes p).ctx.file = none ∧ FsCall.fclose f ∈ (parse_padding bytes p).calls)) := by
  unfold parse_padding
  simp only []
  split_ifs
  · constructor
    · intro g hg
      cases hf : p.ctx.file with
      | none => simpa [reset_body, hf] using hg
      | some f => simpa [reset_body, hf] using hg
    · intro f hf
      right
      exact ⟨rfl, by simp [reset_body, hf]⟩
  · exact ⟨fun g hg => hg, fun f hf => Or.inl hf⟩
  · exact ⟨fun g hg => hg, fun f hf => Or.inl hf⟩

/-- With the header complete, one run of `minotar_parse` opens no file, and a
file that is open stays open or is closed by the reset. -/
theorem parse_open_handle (env : Env) (c : minotar_) (bytes : List Nat)
    (hc : c.record_header_complete = true) :
    (∀ g, FsCall.fopen g ∉ (minotar_parse env c bytes).calls) ∧
    (∀ f, c.file = some f → (minotar_parse env c bytes).ctx.file = some f ∨
      ((minotar_parse env c bytes).ctx.file = none ∧
        FsCall.fclose f ∈ (minotar_parse env c bytes).calls)) := by
  unfold minotar_parse
  rw [parse_header_skip env bytes _ hc]
  have h1 := parse_payload_handle bytes { ctx := c, offset := 0, calls := [] }
  have h2 := parse_padding_handle bytes (parse_payload bytes { ctx := c, offset := 0, calls := [] })
  constructor
  · intro g hg
    have := h1.2 g (h2.1 g hg)
    simp at this
  · intro f hf
    exact h2.2 f (by rw [h1.1]; exact hf)

/-- C20 (single output handle): in every context reachable from a fresh one by
`minotar_decode` and `minotar_reset` (also by `minotar_set_extract_directory`,
and between two iterations of the decode loop), an incomplete header means that
no file is open and no payload byte is awaited.  So a run of `minotar_parse`
that calls `fopen` starts with no file open, and a file that is open at the
start of a run is still the open file after it or has been closed by `fclose`
in it; `minotar_reset` closes the open file. -/
theorem single_output_handle (env : Env) (c : minotar_) (bytes : List Nat)
    (h : Reachable env c) :
    (c.record_header_complete = false → c.file = none ∧ c.bytes_remaining = 0) ∧
    (∀ g, FsCall.fopen g ∈ (minotar_parse env c bytes).calls → c.file = none) ∧
    (∀ f, c.file = some f → (minotar_parse env c bytes).ctx.file = some f ∨
      ((minotar_parse env c bytes).ctx.file = none ∧
        FsCall.fclose f ∈ (minotar_parse env c bytes).calls)) ∧
    (∀ f, c.file = some f → (minotar_reset (some c)).2.1.map (fun x => x.file) = some none ∧
      (minotar_reset (some c)).2.2 = [FsCall.fclose f]) := by
  obtain ⟨_, hi⟩ := reachable_inv env c h
  refine ⟨fun hc => ⟨(hi hc).2.1, (hi hc).1⟩, fun g hg => ?_, fun f hf => ?_, fun f hf => ?_⟩
  · cases hc : c.record_header_complete with
    | false => exact (hi hc).2.1
    | true => exact absurd hg ((parse_open_handle env c bytes hc).1 g)
  · cases hc : c.record_header_complete with
    | false => rw [(hi hc).2.1] at hf; cases hf
    | true => exact (parse_open_handle env c bytes hc).2 f hf
  · simp [minotar_reset, reset_body, hf]

/-- Witness of `single_output_handle`: the context after the header of
`hello.txt`, with the file open, offered the rest of the archive. -/
theorem single_output_handle_witness :
    ((hello_payload 512).record_header_complete = false →
      (hello_payload 512).file = none ∧ (hello_payload 512).bytes_remaining = 0) ∧
    (∀ g, FsCall.fopen g ∈ (minotar_parse posix_env (hello_payload 512) (hello_archive.drop 512)).calls →
      (hello_payload 512).file = none) ∧
    (∀ f, (hello_payload 512).file = some f →
      (minotar_parse posix_env (hello_payload 512) (hello_archive.drop 512)).ctx.file = some f ∨
      ((minotar_parse posix_env (hello_payload 512) (hello_archive.drop 512)).ctx.file = none ∧
        FsCall.fclose f ∈ (minotar_parse posix_env (hello_payload 512) (hello_archive.drop 512)).calls)) ∧
    (∀ f, (hello_payload 512).file = some f →
      (minotar_reset (some (hello_payload 512))).2.1.map (fun x => x.file) = some none ∧
      (minotar_reset (some (hello_payload 512))).2.2 = [FsCall.fclose f]) :=
  single_output_handle posix_env (hello_payload 512) (hello_archive.drop 512)
    (Reachable.decode (fresh_ctx none) (hello_payload 512) 1 hello_header MINOTAR_noerror
      (hello_create_calls posix_env) (Reachable.fresh none) (by decide))

theorem MINOTAR_MIN_le_left (x y : Nat) : MINOTAR_MIN x y ≤ x := by
  rw [MINOTAR_MIN_eq]; exact Nat.min_le_left _ _

theorem MINOTAR_MIN_le_right (x y : Nat) : MINOTAR_MIN x y ≤ y := by
  rw [MINOTAR_MIN_eq]; exact Nat.min_le_right _ _

theorem uadd_le (a b : Nat) : uadd a b ≤ a + b := Nat.mod_le _ _

theorem parse_header_offset (env : Env) (bytes : List Nat) (c : minotar_) :
    (parse_header env bytes { ctx := c, offset := 0, calls := [] }).offset ≤ bytes.length := by
  have h1 := MINOTAR_MIN_le_right (usub RECORD_BLOCK_ROUNDOFF c.rx_byte_offset) bytes.length
  have h2 := uadd_le 0 (MINOTAR_MIN (usub RECORD_BLOCK_ROUNDOFF c.rx_byte_offset) bytes.length)
  unfold parse_header
  simp only []
  split_ifs <;> (try simp only []) <;> omega

theorem parse_payload_offset (bytes : List Nat) (p : ParseState) (h : p.offset ≤ bytes.length)
    (hl : bytes.length < WORD) : (parse_payload bytes p).offset ≤ bytes.length := by
  have h1 := MINOTAR_MIN_le_left (usub bytes.length p.offset) p.ctx.bytes_remaining
  have h2 := uadd_le p.offset (MINOTAR_MIN (usub bytes.length p.offset) p.ctx.bytes_remaining)
  have h3 := usub_eq bytes.length p.offset h hl
  unfold parse_payload
  simp only []
  split_ifs <;> (try simp only []) <;> omega

theorem parse_padding_offset (bytes : List Nat) (p : ParseState) (h : p.offset ≤ bytes.length)
    (hl : bytes.length < WORD) : (parse_padding bytes p).offset ≤ bytes.length := by
  have h1 := MINOTAR_MIN_le_right
    (MINOTAR_CALC_PADDING p.offset p.ctx.rx_byte_offset RECORD_BLOCK_ROUNDOFF)
    (usub bytes.length p.offset)
  have h2 := uadd_le p.offset (MINOTAR_MIN
    (MINOTAR_CALC_PADDING p.offset p.ctx.rx_byte_offset RECORD_BLOCK_ROUNDOFF)
    (usub bytes.length p.offset))
  have h3 := usub_eq bytes.length p.offset h hl
  unfold parse_padding
  simp only []
  split_ifs <;> (try simp only []) <;> omega

/-- The count that `minotar_parse` returns is at most the length offered. -/
theorem minotar_parse_offset (env : Env) (c : minotar_) (bytes : List Nat)
    (hl : bytes.length < WORD) : (minotar_parse env c bytes).offset ≤ bytes.length :=
  parse_padding_offset bytes _
    (parse_payload_offset bytes _ (parse_header_offset env bytes c) hl) hl

theorem record_block_error (env : Env) (c : minotar_) :
    (minotar_parse_record_block env c).2.1.error = c.error ∨
    (minotar_parse_record_block env c).2.1.error = MINOTAR_invalid_checksum ∨
    (minotar_parse_record_block env c).2.1.error = MINOTAR_failed_to_create_file := by
  have hfr := create_file_frame env
    { c with record_header_buf := store c.record_header_buf OFF_checksum (List.replicate 8 32),
             record_header_complete := true, rx_byte_offset := 0 }
  unfold minotar_parse_record_block
  simp only [verify_checksum_frame]
  split_ifs with h1 h2
  · exact Or.inr (Or.inl rfl)
  · exact Or.inr (Or.inr rfl)
  · left
    have h3 := hfr.2.2.2.2.2 (by simpa using h2)
    exact h3

/-- The error that one run of `minotar_parse` leaves is the one it found, none,
`MINOTAR_invalid_checksum` or `MINOTAR_failed_to_create_file`. -/
theorem minotar_parse_error (env : Env) (c : minotar_) (bytes : List Nat) :
    (minotar_parse env c bytes).ctx.error = c.error ∨
    (minotar_parse env c bytes).ctx.error = MINOTAR_noerror ∨
    (minotar_parse env c bytes).ctx.error = MINOTAR_invalid_checksum ∨
    (minotar_parse env c bytes).ctx.error = MINOTAR_failed_to_create_file := by
  have h1 : (parse_header env bytes { ctx := c, offset := 0, calls := [] }).ctx.error = c.error ∨
      (parse_header env bytes { ctx := c, offset := 0, calls := [] }).ctx.error
        = MINOTAR_invalid_checksum ∨
      (parse_header env bytes { ctx := c, offset := 0, calls := [] }).ctx.error
        = MINOTAR_failed_to_create_file := by
    unfold parse_header
    simp only []
    split_ifs
    · exact record_block_error env _
    · exact Or.inl rfl
    · exact Or.inl rfl
    · exact Or.inl rfl
  have h2 : ∀ p : ParseState, (parse_payload bytes p).ctx.error = p.ctx.error := by
    intro p
    unfold parse_payload
    simp only []
    split_ifs <;> rfl
  have h3 : ∀ p : ParseState, (parse_padding bytes p).ctx.error = p.ctx.error ∨
      (parse_padding bytes p).ctx.error = MINOTAR_noerror := by
    intro p
    unfold parse_padding
    simp only []
    split_ifs
    · exact Or.inr rfl
    · exact Or.inl rfl
    · exact Or.inl rfl
  unfold minotar_parse
  rcases h3 (parse_payload bytes (parse_header env bytes { ctx := c, offset := 0, calls := [] }))
    with h | h
  · rw [h, h2]
    rcases h1 with h | h | h
    · exact Or.inl h
    · exact Or.inr (Or.inr (Or.inl h))
    · exact Or.inr (Or.inr (Or.inr h))
  · exact Or.inr (Or.inl h)

theorem decode_loop_unknown (env : Env) (bytes : List Nat) (hl : bytes.length < WORD) (fuel : Nat) :
    ∀ (c : minotar_) (parsed : Nat) (r : minotar_ × List FsCall), parsed ≤ bytes.length →
      decode_loop env bytes fuel c parsed = some r → r.1.error = MINOTAR_unknown_error →
      c.error = MINOTAR_unknown_error := by
  induction fuel with
  | zero =>
    intro c parsed r _ hd hu
    by_cases hc : c.error = MINOTAR_noerror ∧ parsed < bytes.length
    · simp [decode_loop, hc] at hd
    · rw [decode_loop_done env bytes _ c parsed hc] at hd
      cases hd
      exact hu
  | succ n ih =>
    intro c parsed r hp hd hu
    by_cases hc : c.error = MINOTAR_noerror ∧ parsed < bytes.length
    · rw [decode_loop_step env bytes n c parsed hc] at hd
      have ho := minotar_parse_offset env c (bytes.drop parsed)
        (by rw [List.length_drop]; omega)
      rw [List.length_drop] at ho
      have hle : uadd parsed (minotar_parse env c (bytes.drop parsed)).offset ≤ bytes.length :=
        le_trans (uadd_le _ _) (by omega)
      rw [if_neg (by omega)] at hd
      generalize hq : decode_loop env bytes n _ _ = q at hd
      cases q with
      | none => simp at hd
      | some v =>
        obtain ⟨v1, v2⟩ := v
        simp only [Option.some.injEq] at hd
        have hv := ih _ _ (v1, v2) hle hq (by rw [← hd] at hu; exact hu)
        rcases minotar_parse_error env c (bytes.drop parsed) with h | h | h | h
        · rw [← h]; exact hv
        · rw [h] at hv; cases hv
        · rw [h] at hv; cases hv
        · rw [h] at hv; cases hv
    · rw [decode_loop_done env bytes _ c parsed hc] at hd
      cases hd
      exact hu

/-- C19 (`MINOTAR_unknown_error` is unreachable): for a chunk whose length fits
a `size_t`, `minotar_parse` returns a count that is at most the length it was
offered, whatever the context; so in the loop of `minotar_decode` the test
`parsed > length` is false after every step, and a call of `minotar_decode`
that returns gives `MINOTAR_unknown_error` exactly when that error was stored
in the context before the call. -/
theorem unknown_error_unreachable (env : Env) (fuel : Nat) (ctx : minotar_) (bytes : List Nat)
    (r : minotar_error_t × minotar_ × List FsCall) (hl : bytes.length < WORD)
    (hd : minotar_decode env fuel ctx bytes = some r) :
    (∀ c : minotar_, (minotar_parse env c bytes).offset ≤ bytes.length) ∧
    (∀ (c : minotar_) (parsed : Nat), parsed ≤ bytes.length →
      ¬ uadd parsed (minotar_parse env c (bytes.drop parsed)).offset > bytes.length) ∧
    (r.1 = MINOTAR_unknown_error ↔ ctx.error = MINOTAR_unknown_error) := by
  refine ⟨fun c => minotar_parse_offset env c bytes hl, fun c parsed hp => ?_, ?_, ?_⟩
  · have ho := minotar_parse_offset env c (bytes.drop parsed) (by rw [List.length_drop]; omega)
    rw [List.length_drop] at ho
    have := uadd_le parsed (minotar_parse env c (bytes.drop parsed)).offset
    omega
  · intro hu
    unfold minotar_decode at hd
    generalize hq : decode_loop env bytes fuel ctx 0 = q at hd
    cases q with
    | none => simp at hd
    | some v =>
      obtain ⟨v1, v2⟩ := v
      simp only [Option.some.injEq] at hd
      refine decode_loop_unknown env bytes hl fuel ctx 0 (v1, v2) (Nat.zero_le _) hq ?_
      rw [← hd] at hu
      exact hu
  · intro hu
    have he : ctx.error ≠ MINOTAR_noerror := by rw [hu]; decide
    rw [minotar_decode_error env fuel ctx bytes he] at hd
    simp only [Option.some.injEq] at hd
    rw [← hd]
    exact hu

/-- Witness of `unknown_error_unreachable`: the archive of `hello.txt` decoded
in one call from a fresh context. -/
theorem unknown_error_unreachable_witness :
    (MINOTAR_noerror = MINOTAR_unknown_error ↔
      (fresh_ctx none).error = MINOTAR_unknown_error) :=
  (unknown_error_unreachable posix_env 2 (fresh_ctx none) hello_header
    (MINOTAR_noerror, hello_payload 512, hello_create_calls posix_env) (by decide)
    (by decide)).2.2

/-! ### Payload streaming -/

theorem written_append (f : List Nat) (a b : List FsCall) :
    written f (a ++ b) = written f a ++ written f b := by
  induction a with
  | nil => rfl
  | cons x xs ih =>
    cases x with
    | fwrite g d =>
      simp only [List.cons_append, written]
      split_ifs <;> simp [ih]
    | _ => simpa [written] using ih

/-- Second block of `minotar_parse` with a file open: the smaller of the number
of bytes left in the chunk and the number of payload bytes awaited is written,
from the local offset on. -/
theorem parse_payload_stream (bytes : List Nat) (p : ParseState) (f : List Nat)
    (hf : p.ctx.file = some f) (ho : p.offset ≤ bytes.length) (hb : bytes.length < 2 ^ 63)
    (hrem : p.ctx.bytes_remaining < WORD) :
    parse_payload bytes p =
      if 0 < min (bytes.length - p.offset) p.ctx.bytes_remaining then
        { ctx := { p.ctx with
            rx_byte_offset := uadd p.ctx.rx_byte_offset
              (min (bytes.length - p.offset) p.ctx.bytes_remaining)
            bytes_remaining := p.ctx.bytes_remaining -
              min (bytes.length - p.offset) p.ctx.bytes_remaining },
          offset := p.offset + min (bytes.length - p.offset) p.ctx.bytes_remaining,
          calls := p.calls ++ [FsCall.fwrite f ((bytes.drop p.offset).take
            (min (bytes.length - p.offset) p.ctx.bytes_remaining))] }
      else p := by
  have hW := WORD_val
  have h1 : usub bytes.length p.offset = bytes.length - p.offset := usub_eq _ _ ho (by omega)
  by_cases hw : 0 < min (bytes.length - p.offset) p.ctx.bytes_remaining
  · have hpos := to_ssize_pos (min (bytes.length - p.offset) p.ctx.bytes_remaining) hw (by omega)
    have h3 : usub p.ctx.bytes_remaining (min (bytes.length - p.offset) p.ctx.bytes_remaining)
        = p.ctx.bytes_remaining - min (bytes.length - p.offset) p.ctx.bytes_remaining :=
      usub_eq _ _ (by omega) hrem
    have h4 : uadd p.offset (min (bytes.length - p.offset) p.ctx.bytes_remaining)
        = p.offset + min (bytes.length - p.offset) p.ctx.bytes_remaining :=
      uadd_eq _ _ (by omega)
    rw [if_pos hw]
    simp only [parse_payload, h1, MINOTAR_MIN_eq, hpos, if_true, h3, h4, hf]
  · have hz : min (bytes.length - p.offset) p.ctx.bytes_remaining = 0 := by omega
    have h0 : to_ssize 0 = 0 := by decide
    rw [if_neg hw]
    simp only [parse_payload, h1, MINOTAR_MIN_eq, hz, h0, lt_self_iff_false, if_false]

/-- Third block of `minotar_parse` with a file open: it writes nothing, closes
the file when it resets, and leaves the number of payload bytes awaited. -/
theorem parse_padding_calls (bytes : List Nat) (p : ParseState) (f : List Nat)
    (hf : p.ctx.file = some f) :
    ∃ cl, (cl = [] ∨ cl = [FsCall.fclose f]) ∧ (parse_padding bytes p).calls = p.calls ++ cl ∧
      (parse_padding bytes p).ctx.bytes_remaining = p.ctx.bytes_remaining := by
  unfold parse_padding
  simp only []
  split_ifs with h1 h2
  · refine ⟨[FsCall.fclose f], Or.inr rfl, by simp [reset_body, hf], ?_⟩
    simp only [Bool.and_eq_true, beq_iff_eq] at h1
    rw [h1.2]
    rfl
  · exact ⟨[], Or.inl rfl, by simp, rfl⟩
  · exact ⟨[], Or.inl rfl, by simp, rfl⟩

/-- One run of `minotar_parse`: after the header block has left the state `p`
with the file `f` open, the run writes to `f` the bytes of the chunk from the
local offset on, as many as the smaller of what is left in the chunk and what
is awaited, and nothing else but a possible `fclose`. -/
theorem minotar_parse_stream (env : Env) (ctx : minotar_) (bytes : List Nat) (f : List Nat)
    (hb : bytes.length < 2 ^ 63)
    (hf : (parse_header env bytes { ctx := ctx, offset := 0, calls := [] }).ctx.file = some f)
    (hrem : (parse_header env bytes { ctx := ctx, offset := 0, calls := [] }).ctx.bytes_remaining
      < WORD) :
    ∃ cl, (cl = [] ∨ cl = [FsCall.fclose f]) ∧
      (minotar_parse env ctx bytes).calls =
        (parse_header env bytes { ctx := ctx, offset := 0, calls := [] }).calls ++
        (if 0 < min (bytes.length -
              (parse_header env bytes { ctx := ctx, offset := 0, calls := [] }).offset)
            (parse_header env bytes { ctx := ctx, offset := 0, calls := [] }).ctx.bytes_remaining
         then [FsCall.fwrite f
            ((bytes.drop (parse_header env bytes { ctx := ctx, offset := 0, calls := [] }).offset).take
              (min (bytes.length -
                (parse_header env bytes { ctx := ctx, offset := 0, calls := [] }).offset)
              (parse_header env bytes { ctx := ctx, offset := 0, calls := [] }).ctx.bytes_remaining))]
         else []) ++ cl ∧
      (minotar_parse env ctx bytes).ctx.bytes_remaining =
        (parse_header env bytes { ctx := ctx, offset := 0, calls := [] }).ctx.bytes_remaining -
          min (bytes.length -
              (parse_header env bytes { ctx := ctx, offset := 0, calls := [] }).offset)
            (parse_header env bytes { ctx := ctx, offset := 0, calls := [] }).ctx.bytes_remaining := by
  have ho := parse_header_offset env bytes ctx
  rw [show minotar_parse env ctx bytes = parse_padding bytes (parse_payload bytes
    (parse_header env bytes { ctx := ctx, offset := 0, calls := [] })) from rfl]
  generalize parse_header env bytes { ctx := ctx, offset := 0, calls := [] } = p at hf hrem ho ⊢
  have hp := parse_payload_stream bytes p f hf ho hb hrem
  by_cases hw : 0 < min (bytes.length - p.offset) p.ctx.bytes_remaining
  · rw [if_pos hw] at hp
    obtain ⟨cl, hcl, h1, h2⟩ := parse_padding_calls bytes (parse_payload bytes p) f
      (by rw [hp]; exact hf)
    refine ⟨cl, hcl, ?_, ?_⟩
    · rw [h1, hp, if_pos hw]
    · rw [h2, hp]
  · rw [if_neg hw] at hp
    obtain ⟨cl, hcl, h1, h2⟩ := parse_padding_calls bytes (parse_payload bytes p) f
      (by rw [hp]; exact hf)
    refine ⟨cl, hcl, ?_, ?_⟩
    · rw [h1, hp, if_neg hw, List.append_nil]
    · rw [h2, hp]
      omega

theorem uadd_uadd (a b c : Nat) : uadd (uadd a b) c = uadd a (b + c) := by
  unfold uadd
  rw [Nat.add_mod, Nat.mod_mod, ← Nat.add_mod, Nat.add_assoc]

/-- One call of `minotar_decode` on a chunk shorter than the payload awaited:
the chunk is written to the open file. -/
theorem decode_payload_chunk (env : Env) (fuel : Nat) (ctx : minotar_) (f c : List Nat)
    (hc : ctx.record_header_complete = true) (he : ctx.error = MINOTAR_noerror)
    (hf : ctx.file = some f) (hrx : ctx.rx_byte_offset < WORD)
    (hrem : ctx.bytes_remaining < WORD) (hb : c.length < 2 ^ 63)
    (hlen : c.length < ctx.bytes_remaining) :
    minotar_decode env (fuel + 1) ctx c =
      some (MINOTAR_noerror,
        { ctx with rx_byte_offset := uadd ctx.rx_byte_offset c.length
                   bytes_remaining := ctx.bytes_remaining - c.length },
        if c = [] then [] else [FsCall.fwrite f c]) := by
  by_cases hn : c = []
  · subst hn
    have h1 : uadd ctx.rx_byte_offset 0 = ctx.rx_byte_offset := by
      unfold uadd; rw [Nat.add_zero]; exact Nat.mod_eq_of_lt hrx
    have e1 : minotar_decode env (fuel + 1) ctx [] = some (MINOTAR_noerror, ctx, []) := by
      rw [minotar_decode_nil, he]
    rw [e1, if_pos rfl]
    simp only [List.length_nil, h1, Nat.sub_zero]
  · have hpos : 0 < c.length := List.length_pos.2 hn
    have hp : minotar_parse env ctx c =
        { ctx := { ctx with rx_byte_offset := uadd ctx.rx_byte_offset c.length
                            bytes_remaining := ctx.bytes_remaining - c.length },
          offset := c.length, calls := [FsCall.fwrite f c] } := by
      unfold minotar_parse
      rw [parse_header_skip env c _ hc,
        parse_payload_stream c { ctx := ctx, offset := 0, calls := [] } f hf (Nat.zero_le _) hb hrem]
      have hm : min (c.length - 0) ctx.bytes_remaining = c.length := by
        rw [Nat.sub_zero]; exact Nat.min_eq_left (by omega)
      simp only [hm, hpos, if_true, List.drop_zero, List.take_length, Nat.zero_add, List.nil_append]
      rw [parse_padding_payload_left _ _ (by simp only []; omega)]
    have hW := WORD_val
    rw [minotar_decode_one_parse env fuel ctx c he hpos (by omega) (by rw [hp]), hp, if_neg hn]
    simp only [he]

/-- Chunks that together are shorter than the payload awaited are written to
the open file one after the other. -/
theorem decode_chunks_payload (env : Env) (fuel : Nat) (f : List Nat) (chunks : List (List Nat)) :
    ∀ ctx : minotar_, ctx.record_header_complete = true → ctx.error = MINOTAR_noerror →
      ctx.file = some f → ctx.rx_byte_offset < WORD → ctx.bytes_remaining < WORD →
      (∀ c ∈ chunks, c.length < 2 ^ 63) → chunks.flatten.length < ctx.bytes_remaining →
      ∃ t, decode_chunks env (fuel + 1) ctx chunks =
          some (List.replicate chunks.length MINOTAR_noerror,
            { ctx with rx_byte_offset := uadd ctx.rx_byte_offset chunks.flatten.length
                       bytes_remaining := ctx.bytes_remaining - chunks.flatten.length }, t) ∧
        written f t = chunks.flatten ∧
        ∀ x ∈ t, ∃ c ∈ chunks, x = FsCall.fwrite f c := by
  induction chunks with
  | nil =>
    intro ctx _ _ _ hrx _ _ _
    refine ⟨[], ?_, rfl, by simp⟩
    have h1 : uadd ctx.rx_byte_offset 0 = ctx.rx_byte_offset := by
      unfold uadd; rw [Nat.add_zero]; exact Nat.mod_eq_of_lt hrx
    simp [decode_chunks, h1]
  | cons c cs ih =>
    intro ctx hc he hf hrx hrem hs hm
    rw [List.flatten_cons, List.length_append] at hm
    have h1 := decode_payload_chunk env fuel ctx f c hc he hf hrx hrem
      (hs c (List.mem_cons_self _ _)) (by omega)
    obtain ⟨t, h2, h3, h4⟩ := ih
      { ctx with rx_byte_offset := uadd ctx.rx_byte_offset c.length
                 bytes_remaining := ctx.bytes_remaining - c.length }
      hc he hf (Nat.mod_lt _ (by rw [WORD_val]; omega)) (by simp only []; omega)
      (fun x hx => hs x (List.mem_cons_of_mem _ hx)) (by simp only []; omega)
    refine ⟨(if c = [] then [] else [FsCall.fwrite f c]) ++ t, ?_, ?_, ?_⟩
    · simp only [decode_chunks, h1, h2, uadd_uadd, Nat.sub_sub, List.length_cons,
        List.replicate_succ, List.flatten_cons, List.length_append]
    · rw [written_append, h3, List.flatten_cons]
      by_cases hn : c = []
      · simp [hn, written]
      · simp [hn, written]
    · intro x hx
      rw [List.mem_append] at hx
      rcases hx with hx | hx
      · by_cases hn : c = []
        · simp [hn] at hx
        · simp only [hn, if_false, List.mem_singleton] at hx
          exact ⟨c, List.mem_cons_self _ _, hx⟩
      · obtain ⟨y, hy, hxy⟩ := h4 x hx
        exact ⟨y, List.mem_cons_of_mem _ hy, hxy⟩

/-- With the header complete and no payload byte awaited, a run of
`minotar_parse` writes nothing. -/
theorem minotar_parse_no_write (env : Env) (ctx : minotar_) (bytes : List Nat)
    (hc : ctx.record_header_complete = true) (hr : ctx.bytes_remaining = 0) :
    ∀ g d, FsCall.fwrite g d ∉ (minotar_parse env ctx bytes).calls := by
  intro g d
  unfold minotar_parse
  rw [parse_header_skip env bytes _ hc, parse_payload_none bytes _ hr]
  unfold parse_padding
  simp only []
  split_ifs
  · cases hf : ctx.file <;> simp [reset_body, hf]
  · simp
  · simp

/-- Payload streaming from a state: from a context with the header complete, the
file `f` open and `n` payload bytes awaited, chunks shorter together than `n`
are each accepted with `MINOTAR_noerror` and written to `f` as they come; the
run of `minotar_parse` on the chunk that reaches the end of the payload writes
the bytes still awaited and no other, so the bytes written to `f` are the first
`n` bytes of the stream, and no byte is awaited afterwards.  In every run of
`minotar_parse` the bytes written start at the local offset left by the header
block and number the smaller of the bytes left in the chunk and the bytes
awaited; with the header complete and no byte awaited a run writes nothing.
Chunk lengths are below `2^63` (the size is compared as an `ssize_t`). -/
theorem payload_streaming (env : Env) (fuel : Nat) (ctx : minotar_) (f : List Nat)
    (chunks : List (List Nat)) (last : List Nat)
    (hc : ctx.record_header_complete = true) (he : ctx.error = MINOTAR_noerror)
    (hf : ctx.file = some f) (hrx : ctx.rx_byte_offset < WORD)
    (hrem : ctx.bytes_remaining < WORD)
    (hs : ∀ c ∈ chunks, c.length < 2 ^ 63) (hl : last.length < 2 ^ 63)
    (hm : chunks.flatten.length < ctx.bytes_remaining)
    (hlast : ctx.bytes_remaining ≤ chunks.flatten.length + last.length) :
    (∃ mid t, decode_chunks env (fuel + 1) ctx chunks =
        some (List.replicate chunks.length MINOTAR_noerror, mid, t) ∧
      mid.bytes_remaining = ctx.bytes_remaining - chunks.flatten.length ∧
      (∀ x ∈ t, ∃ c ∈ chunks, x = FsCall.fwrite f c) ∧
      written f t = chunks.flatten ∧
      written f (t ++ (minotar_parse env mid last).calls)
        = (chunks.flatten ++ last).take ctx.bytes_remaining ∧
      (minotar_parse env mid last).ctx.bytes_remaining = 0) ∧
    (∀ (c : minotar_) (bytes g : List Nat), bytes.length < 2 ^ 63 →
      (parse_header env bytes { ctx := c, offset := 0, calls := [] }).ctx.file = some g →
      (parse_header env bytes { ctx := c, offset := 0, calls := [] }).ctx.bytes_remaining < WORD →
      ∃ cl, (cl = [] ∨ cl = [FsCall.fclose g]) ∧
        (minotar_parse env c bytes).calls =
          (parse_header env bytes { ctx := c, offset := 0, calls := [] }).calls ++
          (if 0 < min (bytes.length -
                (parse_header env bytes { ctx := c, offset := 0, calls := [] }).offset)
              (parse_header env bytes { ctx := c, offset := 0, calls := [] }).ctx.bytes_remaining
           then [FsCall.fwrite g
              ((bytes.drop (parse_header env bytes { ctx := c, offset := 0, calls := [] }).offset).take
                (min (bytes.length -
                  (parse_header env bytes { ctx := c, offset := 0, calls := [] }).offset)
                (parse_header env bytes { ctx := c, offset := 0, calls := [] }).ctx.bytes_remaining))]
           else []) ++ cl ∧
        (minotar_parse env c bytes).ctx.bytes_remaining =
          (parse_header env bytes { ctx := c, offset := 0, calls := [] }).ctx.bytes_remaining -
            min (bytes.length -
                (parse_header env bytes { ctx := c, offset := 0, calls := [] }).offset)
              (parse_header env bytes { ctx := c, offset := 0, calls := [] }).ctx.bytes_remaining) ∧
    (∀ (c : minotar_) (bytes : List Nat), c.record_header_complete = true →
      c.bytes_remaining = 0 → ∀ g d, FsCall.fwrite g d ∉ (minotar_parse env c bytes).calls) := by
  refine ⟨?_, fun c bytes g hb hg hr => minotar_parse_stream env c bytes g hb hg hr,
    fun c bytes h1 h2 => minotar_parse_no_write env c bytes h1 h2⟩
  obtain ⟨t, h1, h2, h3⟩ := decode_chunks_payload env fuel f chunks ctx hc he hf hrx hrem hs hm
  have hsk := parse_header_skip env last
    { ctx := { ctx with rx_byte_offset := uadd ctx.rx_byte_offset chunks.flatten.length
                        bytes_remaining := ctx.bytes_remaining - chunks.flatten.length },
      offset := 0, calls := [] } hc
  obtain ⟨cl, hcl, h4, h5⟩ := minotar_parse_stream env
    { ctx with rx_byte_offset := uadd ctx.rx_byte_offset chunks.flatten.length
               bytes_remaining := ctx.bytes_remaining - chunks.flatten.length } last f hl
    (by rw [hsk]; exact hf) (by rw [hsk]; exact lt_of_le_of_lt (Nat.sub_le _ _) hrem)
  rw [hsk] at h4 h5
  simp only [Nat.sub_zero, List.drop_zero, List.nil_append] at h4 h5
  have hw : min last.length (ctx.bytes_remaining - chunks.flatten.length)
      = ctx.bytes_remaining - chunks.flatten.length := Nat.min_eq_right (by omega)
  rw [hw] at h4 h5
  rw [if_pos (by omega)] at h4
  refine ⟨_, t, h1, rfl, h3, h2, ?_, ?_⟩
  · have hcw : written f cl = [] := by
      rcases hcl with h | h <;> rw [h] <;> rfl
    have ht : chunks.flatten.take ctx.bytes_remaining = chunks.flatten :=
      List.take_of_length_le (by omega)
    have hw1 : ∀ d : List Nat, written f [FsCall.fwrite f d] = d := by
      intro d
      simp [written]
    rw [written_append, h2, h4, written_append, hcw, List.append_nil,
      List.take_append_eq_append_take, ht, hw1]
  · rw [h5, Nat.sub_self]

/-- Witness of `payload_streaming`: after the header of `hello.txt`, the chunks
`h` and the empty chunk, then a chunk with the rest of the payload and the
first padding bytes. -/
theorem payload_streaming_witness :
    ∃ mid t, decode_chunks posix_env 1 (hello_payload 512) [[104], []] =
        some (List.replicate 2 MINOTAR_noerror, mid, t) ∧
      mid.bytes_remaining = (hello_payload 512).bytes_remaining - [[104], []].flatten.length ∧
      (∀ x ∈ t, ∃ c ∈ [[104], []], x = FsCall.fwrite (ascii "hello.txt") c) ∧
      written (ascii "hello.txt") t = [[104], []].flatten ∧
      written (ascii "hello.txt") (t ++ (minotar_parse posix_env mid [105, 10, 0, 0]).calls)
        = ([[104], []].flatten ++ [105, 10, 0, 0]).take (hello_payload 512).bytes_remaining ∧
      (minotar_parse posix_env mid [105, 10, 0, 0]).ctx.bytes_remaining = 0 :=
  (payload_streaming posix_env 0 (hello_payload 512) (ascii "hello.txt") [[104], []]
    [105, 10, 0, 0] rfl rfl rfl (by decide) (by decide) (by decide) (by decide) (by decide)
    (by decide)).1

/-! ### Type dispatch and header layout -/

/-- C14 at a failing input: in the build `posix_env`, where neither `symlink`
nor `mknod` is a preprocessor macro (they are functions of the C library), the
typeflags `'2'`, `'3'` and `'4'` make `minotar_create_file` create nothing (the
only library call is `chmod`) and return true.  For comparison, where `malloc`
fails the function returns false before the switch. -/
theorem dispatch_without_macros :
    minotar_create_file posix_env (typed_ctx 50)
      = (true, typed_ctx 50, [FsCall.chmod (ascii "hello.txt") 0o644]) ∧
    minotar_create_file posix_env (typed_ctx 51)
      = (true, typed_ctx 51, [FsCall.chmod (ascii "hello.txt") 0o644]) ∧
    minotar_create_file posix_env (typed_ctx 52)
      = (true, typed_ctx 52, [FsCall.chmod (ascii "hello.txt") 0o644]) ∧
    minotar_create_file malloc_fails_env (typed_ctx 53)
      = (false, { typed_ctx 53 with error := MINOTAR_out_of_memory }, []) := by
  refine ⟨?_, ?_, ?_, ?_⟩ <;> decide

/-- Whatever the typeflag, the last library call of `minotar_create_file` is
`chmod` on the path, with the decoded mode or the decoded mode with type bits. -/
theorem create_file_last_call (env : Env) (ctx : minotar_)
    (hm : env.malloc (minotar_header_get_path_length env.sizeof_typeflag ctx) = true) :
    ∃ m, (minotar_create_file env ctx).2.2.getLast? = some (FsCall.chmod (created_path env ctx) m) ∧
      (m = minotar_get_file_mode ctx ∨
       (env.defined_mknod = true ∧
        (m = Nat.lor (minotar_get_file_mode ctx) S_IFLNK ∨
         m = Nat.lor (minotar_get_file_mode ctx) S_IFCHR ∨
         m = Nat.lor (minotar_get_file_mode ctx) S_IFBLK ∨
         m = Nat.lor (minotar_get_file_mode ctx) S_IFREG))) := by
  unfold minotar_create_file created_path
  simp only [hm, Bool.not_true, Bool.false_eq_true, if_false]
  generalize cstr (minotar_header_parse_path env.sizeof_typeflag ctx
    (List.replicate (minotar_header_get_path_length env.sizeof_typeflag ctx) 0)
    (minotar_header_get_path_length env.sizeof_typeflag ctx)) 0 = P
  generalize minotar_get_file_mode ctx = M
  generalize minotar_header_get_device_version env.sizeof_typeflag ctx = V
  generalize cstr ctx.record_header_buf (OFF_linkname env.sizeof_typeflag) = L
  generalize typeflag env.sizeof_typeflag ctx = T
  split_ifs
  all_goals first
    | exact ⟨M, rfl, Or.inl rfl⟩
    | exact ⟨Nat.lor M S_IFLNK, rfl, Or.inr ⟨by assumption, Or.inl rfl⟩⟩
    | exact ⟨Nat.lor M S_IFCHR, rfl, Or.inr ⟨by assumption, Or.inr (Or.inl rfl)⟩⟩
    | exact ⟨Nat.lor M S_IFBLK, rfl, Or.inr ⟨by assumption, Or.inr (Or.inr (Or.inl rfl))⟩⟩
    | exact ⟨Nat.lor M S_IFREG, rfl, Or.inr ⟨by assumption, Or.inr (Or.inr (Or.inr rfl))⟩⟩

/-- The switch of `minotar_create_file` branch by branch: when `malloc` gives the path buffer,
`minotar_create_file` selects by the member `typeflag`: `'1'` calls `link` from
linkname to path, `'5'` `mkdir`, `'6'` `mkfifo`; `'2'` calls `symlink` where
`symlink` is a macro, else `mknod` and `link` where `mknod` is a macro, else
nothing; `'3'` and `'4'` call `mknod` with `S_IFCHR`, `S_IFBLK` and the device
number where `mknod` is a macro, else nothing; every other value calls `fopen`
on the path (after `mknod` with `S_IFREG` where `mknod` is a macro) and stores
the stream as the output handle.  Only that last case changes the context, and
in every case the last call is `chmod` on the path, with the decoded mode or,
in the `mknod` branches, the decoded mode with the type bits set. -/
theorem type_dispatch (env : Env) (ctx : minotar_)
    (hm : env.malloc (minotar_header_get_path_length env.sizeof_typeflag ctx) = true) :
    (typeflag env.sizeof_typeflag ctx = 49 →
      minotar_create_file env ctx =
        (env.link (header_linkname env ctx) (created_path env ctx) == 0, ctx,
          [FsCall.link (header_linkname env ctx) (created_path env ctx),
           FsCall.chmod (created_path env ctx) (minotar_get_file_mode ctx)])) ∧
    (typeflag env.sizeof_typeflag ctx = 50 →
      minotar_create_file env ctx =
        if env.defined_symlink then
          (env.symlink (header_linkname env ctx) (created_path env ctx) == 0, ctx,
            [FsCall.symlink (header_linkname env ctx) (created_path env ctx),
             FsCall.chmod (created_path env ctx) (minotar_get_file_mode ctx)])
        else if env.defined_mknod then
          (env.link (header_linkname env ctx) (created_path env ctx) == 0, ctx,
            [FsCall.mknod (created_path env ctx) (Nat.lor (minotar_get_file_mode ctx) S_IFLNK) 0,
             FsCall.link (header_linkname env ctx) (created_path env ctx),
             FsCall.chmod (created_path env ctx) (Nat.lor (minotar_get_file_mode ctx) S_IFLNK)])
        else (true, ctx, [FsCall.chmod (created_path env ctx) (minotar_get_file_mode ctx)])) ∧
    (typeflag env.sizeof_typeflag ctx = 51 →
      minotar_create_file env ctx =
        if env.defined_mknod then
          (env.mknod (created_path env ctx) (Nat.lor (minotar_get_file_mode ctx) S_IFCHR)
              (minotar_header_get_device_version env.sizeof_typeflag ctx) == 0, ctx,
            [FsCall.mknod (created_path env ctx) (Nat.lor (minotar_get_file_mode ctx) S_IFCHR)
              (minotar_header_get_device_version env.sizeof_typeflag ctx),
             FsCall.chmod (created_path env ctx) (Nat.lor (minotar_get_file_mode ctx) S_IFCHR)])
        else (true, ctx, [FsCall.chmod (created_path env ctx) (minotar_get_file_mode ctx)])) ∧
    (typeflag env.sizeof_typeflag ctx = 52 →
      minotar_create_file env ctx =
        if env.defined_mknod then
          (env.mknod (created_path env ctx) (Nat.lor (minotar_get_file_mode ctx) S_IFBLK)
              (minotar_header_get_device_version env.sizeof_typeflag ctx) == 0, ctx,
            [FsCall.mknod (created_path env ctx) (Nat.lor (minotar_get_file_mode ctx) S_IFBLK)
              (minotar_header_get_device_version env.sizeof_typeflag ctx),
             FsCall.chmod (created_path env ctx) (Nat.lor (minotar_get_file_mode ctx) S_IFBLK)])
        else (true, ctx, [FsCall.chmod (created_path env ctx) (minotar_get_file_mode ctx)])) ∧
    (typeflag env.sizeof_typeflag ctx = 53 →
      minotar_create_file env ctx =
        (env.mkdir (created_path env ctx) (minotar_get_file_mode ctx) == 0, ctx,
          [FsCall.mkdir (created_path env ctx) (minotar_get_file_mode ctx),
           FsCall.chmod (created_path env ctx) (minotar_get_file_mode ctx)])) ∧
    (typeflag env.sizeof_typeflag ctx = 54 →
      minotar_create_file env ctx =
        (env.mkfifo (created_path env ctx) (minotar_get_file_mode ctx) == 0, ctx,
          [FsCall.mkfifo (created_path env ctx) (minotar_get_file_mode ctx),
           FsCall.chmod (created_path env ctx) (minotar_get_file_mode ctx)])) ∧
    ((typeflag env.sizeof_typeflag ctx < 49 ∨ 54 < typeflag env.sizeof_typeflag ctx) →
      minotar_create_file env ctx =
        if env.defined_mknod then
          (env.mknod (created_path env ctx) (Nat.lor (minotar_get_file_mode ctx) S_IFREG) 0 == 0,
            { ctx with file := if env.fopen (created_path env ctx) then some (created_path env ctx)
                               else none },
            [FsCall.mknod (created_path env ctx) (Nat.lor (minotar_get_file_mode ctx) S_IFREG) 0,
             FsCall.fopen (created_path env ctx),
             FsCall.chmod (created_path env ctx) (Nat.lor (minotar_get_file_mode ctx) S_IFREG)])
        else
          (true,
            { ctx with file := if env.fopen (created_path env ctx) then some (created_path env ctx)
                               else none },
            [FsCall.fopen (created_path env ctx),
             FsCall.chmod (created_path env ctx) (minotar_get_file_mode ctx)])) ∧
    ((49 ≤ typeflag env.sizeof_typeflag ctx ∧ typeflag env.sizeof_typeflag ctx ≤ 54) →
      (minotar_create_file env ctx).2.1 = ctx) ∧
    (∃ m, (minotar_create_file env ctx).2.2.getLast? = some (FsCall.chmod (created_path env ctx) m) ∧
      (m = minotar_get_file_mode ctx ∨
       (env.defined_mknod = true ∧
        (m = Nat.lor (minotar_get_file_mode ctx) S_IFLNK ∨
         m = Nat.lor (minotar_get_file_mode ctx) S_IFCHR ∨
         m = Nat.lor (minotar_get_file_mode ctx) S_IFBLK ∨
         m = Nat.lor (minotar_get_file_mode ctx) S_IFREG)))) := by
  have h49 : FILE_TYPE_hard_link = 49 := rfl
  have h50 : FILE_TYPE_symlink = 50 := rfl
  have h51 : FILE_TYPE_char_special = 51 := rfl
  have h52 : FILE_TYPE_block_special = 52 := rfl
  have h53 : FILE_TYPE_directory = 53 := rfl
  have h54 : FILE_TYPE_fifo = 54 := rfl
  refine ⟨fun h => ?_, fun h => ?_, fun h => ?_, fun h => ?_, fun h => ?_, fun h => ?_,
    fun h => ?_, fun h => ?_, ?_⟩
  · simp [minotar_create_file, hm, h, h49, created_path, header_linkname]
  · simp [minotar_create_file, hm, h, h49, h50, created_path, header_linkname]
  · simp [minotar_create_file, hm, h, h49, h50, h51, created_path, header_linkname]
  · simp [minotar_create_file, hm, h, h49, h50, h51, h52, created_path, header_linkname]
  · simp [minotar_create_file, hm, h, h49, h50, h51, h52, h53, created_path, header_linkname]
  · simp [minotar_create_file, hm, h, h49, h50, h51, h52, h53, h54, created_path, header_linkname]
  · have e1 : typeflag env.sizeof_typeflag ctx ≠ 49 := by omega
    have e2 : typeflag env.sizeof_typeflag ctx ≠ 50 := by omega
    have e3 : typeflag env.sizeof_typeflag ctx ≠ 51 := by omega
    have e4 : typeflag env.sizeof_typeflag ctx ≠ 52 := by omega
    have e5 : typeflag env.sizeof_typeflag ctx ≠ 53 := by omega
    have e6 : typeflag env.sizeof_typeflag ctx ≠ 54 := by omega
    simp [minotar_create_file, hm, e1, e2, e3, e4, e5, e6, h49, h50, h51, h52, h53, h54,
      created_path, header_linkname]
  · unfold minotar_create_file
    simp only [hm, Bool.not_true, Bool.false_eq_true, if_false, h49, h50, h51, h52, h53, h54]
    split_ifs <;> first | rfl | omega
  · exact create_file_last_call env ctx hm

/-- Witness of `type_dispatch`: the header of `hello.txt` with the typeflag byte
`'5'` in the build `posix_env`: a directory is made and no file is opened. -/
theorem type_dispatch_witness :
    minotar_create_file posix_env (typed_ctx 53) =
      (posix_env.mkdir (created_path posix_env (typed_ctx 53))
          (minotar_get_file_mode (typed_ctx 53)) == 0, typed_ctx 53,
        [FsCall.mkdir (created_path posix_env (typed_ctx 53))
            (minotar_get_file_mode (typed_ctx 53)),
         FsCall.chmod (created_path posix_env (typed_ctx 53))
            (minotar_get_file_mode (typed_ctx 53))]) :=
  (type_dispatch posix_env (typed_ctx 53) rfl).2.2.2.2.1 (by decide)

theorem drop_take_six (l : List Nat) (k : Nat) (h : k + 6 ≤ l.length) :
    (l.drop k).take 6 = [l.getD k 0, l.getD (k + 1) 0, l.getD (k + 2) 0, l.getD (k + 3) 0,
      l.getD (k + 4) 0, l.getD (k + 5) 0] := by
  have hg : ∀ i, l.getD (k + i) 0 = (l.drop k).getD i 0 := by
    intro i
    simp [List.getD_eq_getElem?_getD, List.getElem?_drop]
  have hd : 6 ≤ (l.drop k).length := by rw [List.length_drop]; omega
  have h0 := hg 0
  rw [Nat.add_zero] at h0
  rw [h0, hg 1, hg 2, hg 3, hg 4, hg 5]
  generalize l.drop k = d at hd
  match d, hd with
  | a :: b :: c :: e :: f :: g :: rest, _ => rfl

/-- With a one-byte `typeflag` the typed view is the ustar layout: the widths
total 512, and the members sit at the offsets of the standard; so the magic
test reads bytes 257 to 262 and the typeflag is byte 156. -/
theorem header_layout_one_byte (ctx : minotar_) (hl : ctx.record_header_buf.length = 512) :
    OFF_checksum = 148 ∧ OFF_checksum + 8 = OFF_typeflag ∧ OFF_typeflag = 156 ∧
    OFF_linkname 1 = 157 ∧ OFF_magic 1 = 257 ∧ OFF_magic 1 + 6 = 263 ∧ OFF_devmajor 1 = 329 ∧
    OFF_prefix_field 1 = 345 ∧ OFF_prefix_field 1 + 155 = 500 ∧
    OFF_prefix_field 1 + 155 + 12 = 512 ∧
    (minotar_header_has_extended_path 1 ctx = true ↔
      ctx.record_header_buf.getD 257 0 = 117 ∧ ctx.record_header_buf.getD 258 0 = 115 ∧
      ctx.record_header_buf.getD 259 0 = 116 ∧ ctx.record_header_buf.getD 260 0 = 97 ∧
      ctx.record_header_buf.getD 261 0 = 114 ∧ ctx.record_header_buf.getD 262 0 = 0) ∧
    typeflag 1 ctx = ctx.record_header_buf.getD 156 0 := by
  refine ⟨rfl, rfl, rfl, rfl, rfl, rfl, rfl, rfl, rfl, rfl, ?_, ?_⟩
  · have h257 : OFF_magic 1 = 257 := rfl
    unfold minotar_header_has_extended_path
    rw [h257, drop_take_six _ 257 (by omega)]
    simp
  · have hg : ctx.record_header_buf.getD 156 0 = (ctx.record_header_buf.drop 156).getD 0 0 := by
      simp [List.getD_eq_getElem?_getD, List.getElem?_drop]
    have hd : 1 ≤ (ctx.record_header_buf.drop 156).length := by rw [List.length_drop]; omega
    have h156 : OFF_typeflag = 156 := rfl
    unfold typeflag
    rw [h156, hg]
    generalize ctx.record_header_buf.drop 156 = d at hd
    match d, hd with
    | a :: rest, _ => simp [le_value]

/-- C15 (header layout) fails in a build where the enum `tar_file_type_t` has
four bytes: the members after `typeflag` sit three bytes further (linkname at
160, magic at 260, devmajor at 332, the path field at 348) and the widths total
515.  The header of `hello.txt` has `ustar` and a NUL at bytes 257 to 262 and
is not detected as ustar; a header with typeflag byte `'1'` and link name
`a.txt` has a `typeflag` member that is not `'1'`, and `minotar_create_file`
opens a regular file for it; with a one-byte enum the same header makes the
hard link. -/
theorem wide_enum_breaks_layout :
    OFF_linkname wide_enum_env.sizeof_typeflag = 160 ∧
    OFF_magic wide_enum_env.sizeof_typeflag = 260 ∧
    OFF_devmajor wide_enum_env.sizeof_typeflag = 332 ∧
    OFF_prefix_field wide_enum_env.sizeof_typeflag = 348 ∧
    OFF_prefix_field wide_enum_env.sizeof_typeflag + 155 + 12 = 515 ∧
    (hello_checked.record_header_buf.drop 257).take 6 = ascii "ustar" ++ [0] ∧
    minotar_header_has_extended_path wide_enum_env.sizeof_typeflag hello_checked = false ∧
    minotar_header_has_extended_path posix_env.sizeof_typeflag hello_checked = true ∧
    link_ctx.record_header_buf.getD 156 0 = 49 ∧
    typeflag wide_enum_env.sizeof_typeflag link_ctx = 1949196593 ∧
    minotar_create_file wide_enum_env link_ctx =
      (true, { link_ctx with file := some (ascii "hello.tx") },
        [FsCall.fopen (ascii "hello.tx"), FsCall.chmod (ascii "hello.tx") 0o644]) ∧
    minotar_create_file posix_env link_ctx =
      (true, link_ctx,
        [FsCall.link (ascii "a.txt") (ascii "hello.txt"),
         FsCall.chmod (ascii "hello.txt") 0o644]) := by
  refine ⟨rfl, rfl, rfl, rfl, rfl, ?_, ?_, ?_, ?_, ?_, ?_, ?_⟩ <;> decide

/-! ### Padding arithmetic -/

theorem land_511 (a : Nat) : Nat.land a 511 = a % 512 := by
  have h := Nat.and_pow_two_sub_one_eq_mod a 9
  simpa using h

theorem xor_512_mod (x : Nat) : Nat.xor x 512 % 512 = x % 512 := by
  apply Nat.eq_of_testBit_eq
  intro i
  have h9 : (512 : Nat) = 2 ^ 9 := by norm_num
  rw [h9, Nat.testBit_mod_two_pow, Nat.testBit_mod_two_pow]
  show (decide (i < 9) && (x ^^^ 2 ^ 9).testBit i) = _
  rw [Nat.testBit_xor, Nat.testBit_two_pow]
  by_cases hi : i < 9
  · have : ¬ (9 = i) := by omega
    simp [hi, this]
  · simp [hi]

/-- C24 (power-of-two padding arithmetic): for every `x`, the expression of
`MINOTAR_CALC_PADDING` with block size 512, `(512 - (x ^ 512)) & 511` with the
subtraction on 64-bit words, equals `(512 - x mod 512) mod 512`; it is 0 exactly
when `x` is a multiple of 512 and it is always below 512.  The macro parameter
`idx` plays no part. -/
theorem padding_power_of_two (x idx : Nat) :
    MINOTAR_CALC_PADDING x idx RECORD_BLOCK_ROUNDOFF = (512 - x % 512) % 512 ∧
    (MINOTAR_CALC_PADDING x idx RECORD_BLOCK_ROUNDOFF = 0 ↔ x % 512 = 0) ∧
    MINOTAR_CALC_PADDING x idx RECORD_BLOCK_ROUNDOFF < 512 ∧
    (x + MINOTAR_CALC_PADDING x idx RECORD_BLOCK_ROUNDOFF) % 512 = 0 := by
  have h1 : MINOTAR_CALC_PADDING x idx RECORD_BLOCK_ROUNDOFF = (512 - x % 512) % 512 := by
    unfold MINOTAR_CALC_PADDING RECORD_BLOCK_ROUNDOFF
    have hx := xor_512_mod x
    have hW := WORD_val
    show Nat.land (usub 512 (Nat.xor x 512)) 511 = _
    rw [land_511]
    unfold usub
    rw [hW]
    omega
  rw [h1]
  refine ⟨rfl, ?_, ?_, ?_⟩ <;> omega

/-! ### Checksum accumulators -/

theorem sum_bytes_le (l : List Nat) (hb : ∀ b ∈ l, b < 256) : l.sum ≤ 255 * l.length := by
  induction l with
  | nil => simp
  | cons a l ih =>
    have h1 := hb a (List.mem_cons_self _ _)
    have h2 := ih (fun x hx => hb x (List.mem_cons_of_mem _ hx))
    simp only [List.sum_cons, List.length_cons]
    omega

theorem ssum_bytes_bounds (l : List Nat) (hb : ∀ b ∈ l, b < 256) :
    -128 * (l.length : Int) ≤ (l.map schar).sum ∧ (l.map schar).sum ≤ 127 * (l.length : Int) := by
  induction l with
  | nil => simp
  | cons a l ih =>
    have h1 := schar_bounds a (hb a (List.mem_cons_self _ _))
    have h2 := ih (fun x hx => hb x (List.mem_cons_of_mem _ hx))
    simp only [List.map_cons, List.sum_cons, List.length_cons, Nat.cast_add, Nat.cast_one]
    omega

/-- The unsigned sum exceeds the signed sum by 256 for every byte with the high
bit set. -/
theorem sum_high_bytes (l : List Nat) (hb : ∀ b ∈ l, b < 256) :
    (l.sum : Int) = (l.map schar).sum + 256 * ((l.countP (fun b => decide (128 ≤ b)) : Nat) : Int) := by
  induction l with
  | nil => simp
  | cons a l ih =>
    have h2 := ih (fun x hx => hb x (List.mem_cons_of_mem _ hx))
    by_cases ha : a < 128
    · have hd : decide (128 ≤ a) = false := by simp; omega
      simp only [List.sum_cons, List.map_cons, Nat.cast_add, schar, if_pos ha, List.countP_cons,
        hd, Bool.false_eq_true, if_false, Nat.add_zero]
      omega
    · have hd : decide (128 ≤ a) = true := by simp; omega
      simp only [List.sum_cons, List.map_cons, Nat.cast_add, schar, if_neg ha, List.countP_cons,
        hd, if_true, Nat.cast_one]
      omega

theorem blank_checksum_parts (buf : List Nat) (hl : buf.length = 512) :
    (blank_checksum buf).sum = (buf.take 148).sum + 256 + (buf.drop 156).sum ∧
    ((blank_checksum buf).map schar).sum
      = ((buf.take 148).map schar).sum + 256 + ((buf.drop 156).map schar).sum ∧
    (buf.take 148).length = 148 ∧ (buf.drop 156).length = 356 := by
  have e1 : (List.replicate 8 32).sum = 256 := by decide
  have e2 : ((List.replicate 8 32).map schar).sum = 256 := by decide
  refine ⟨?_, ?_, ?_, ?_⟩
  · unfold blank_checksum
    rw [List.sum_append, List.sum_append, e1]
  · unfold blank_checksum
    rw [List.map_append, List.map_append, List.sum_append, List.sum_append, e2]
  · rw [List.length_take, hl]; rfl
  · rw [List.length_drop, hl]

/-- C25 (checksum accumulators): for every buffer of 512 bytes, with the
checksum field blanked the unsigned byte sum lies in [256, 128776] and the
signed byte sum in [-64256, 64264]; the 32-bit accumulators of
`minotar_header_verify_checksum` hold these sums (no wrap-around); the unsigned
sum minus the signed sum is 256 times the number of bytes of the blanked header
that are 0x80 or more, so the two sums are equal exactly when no such byte has
its high bit set. -/
theorem checksum_accumulators (buf : List Nat) (hl : buf.length = 512)
    (hb : ∀ b ∈ buf, b < 256) :
    256 ≤ unsigned_sum buf ∧ unsigned_sum buf ≤ 128776 ∧
    -64256 ≤ signed_sum buf ∧ signed_sum buf ≤ 64264 ∧
    calc_checksum (store buf OFF_checksum (List.replicate 8 32)) = unsigned_sum buf ∧
    to_int32 (calc_schecksum (store buf OFF_checksum (List.replicate 8 32))) = signed_sum buf ∧
    (unsigned_sum buf : Int) - signed_sum buf
      = 256 * (((blank_checksum buf).countP (fun b => decide (128 ≤ b)) : Nat) : Int) ∧
    ((unsigned_sum buf : Int) = signed_sum buf ↔ ∀ b ∈ blank_checksum buf, b < 128) := by
  obtain ⟨p1, p2, p3, p4⟩ := blank_checksum_parts buf hl
  have hb1 : ∀ b ∈ buf.take 148, b < 256 := fun b h => hb b (List.mem_of_mem_take h)
  have hb2 : ∀ b ∈ buf.drop 156, b < 256 := fun b h => hb b (List.mem_of_mem_drop h)
  have u1 := sum_bytes_le _ hb1
  have u2 := sum_bytes_le _ hb2
  have s1 := ssum_bytes_bounds _ hb1
  have s2 := ssum_bytes_bounds _ hb2
  rw [p3] at u1 s1
  rw [p4] at u2 s2
  have hc := sum_high_bytes (blank_checksum buf) (blank_checksum_bytes buf hb)
  have hcount : (unsigned_sum buf : Int) - signed_sum buf
      = 256 * (((blank_checksum buf).countP (fun b => decide (128 ≤ b)) : Nat) : Int) := by
    unfold unsigned_sum signed_sum
    omega
  refine ⟨?_, ?_, ?_, ?_, ?_, ?_, hcount, ?_⟩
  · unfold unsigned_sum; omega
  · unfold unsigned_sum; omega
  · unfold signed_sum; rw [p2]; push_cast at s1 s2; omega
  · unfold signed_sum; rw [p2]; push_cast at s1 s2; omega
  · rw [store_checksum_blank buf hl]; exact calc_checksum_eq buf hl hb
  · rw [store_checksum_blank buf hl]; exact calc_schecksum_eq buf hl hb
  · constructor
    · intro h
      have h0 : (blank_checksum buf).countP (fun b => decide (128 ≤ b)) = 0 := by omega
      rw [List.countP_eq_zero] at h0
      intro b hm
      have := h0 b hm
      simpa using this
    · intro h
      have h0 : (blank_checksum buf).countP (fun b => decide (128 ≤ b)) = 0 := by
        rw [List.countP_eq_zero]
        intro b hm
        have := h b hm
        simp
        omega
      rw [h0] at hcount
      omega

/-- Witness of `checksum_accumulators`: the header of `hello.txt`, whose sums
are both 3970. -/
theorem checksum_accumulators_witness :
    256 ≤ unsigned_sum hello_header ∧ unsigned_sum hello_header ≤ 128776 ∧
    -64256 ≤ signed_sum hello_header ∧ signed_sum hello_header ≤ 64264 ∧
    calc_checksum (store hello_header OFF_checksum (List.replicate 8 32))
      = unsigned_sum hello_header ∧
    to_int32 (calc_schecksum (store hello_header OFF_checksum (List.replicate 8 32)))
      = signed_sum hello_header ∧
    (unsigned_sum hello_header : Int) - signed_sum hello_header
      = 256 * (((blank_checksum hello_header).countP (fun b => decide (128 ≤ b)) : Nat) : Int) ∧
    ((unsigned_sum hello_header : Int) = signed_sum hello_header ↔
      ∀ b ∈ blank_checksum hello_header, b < 128) :=
  checksum_accumulators hello_header (by decide) (by decide)

/-! ### Path length -/

/-- `strtoul` on a terminated numeric field of up to 22 bytes reads the field
and nothing after it. -/
theorem strtoul8_terminated_wide (f rest : List Nat) (hlen : f.length ≤ 22)
    (ht : field_terminated f = true) : strtoul8 (f ++ rest) = field_octal f := by
  unfold field_terminated at ht
  generalize hg : f.dropWhile (fun c => c == 32) = g at ht
  split at ht
  · rename_i c tl hdw
    simp only [Bool.or_eq_true, beq_iff_eq] at ht
    obtain ⟨a, g2, hga⟩ : ∃ a g2, g = a :: g2 := by
      cases g with
      | nil => simp at hdw
      | cons a g2 => exact ⟨a, g2, rfl⟩
    have ha32 : a ≠ 32 := dropWhile_space_head f a g2 (hg.trans hga)
    have hna : isspace a = false ∧ a ≠ 45 ∧ a ≠ 43 := by
      by_cases hd : isodigit a = true
      · simp only [isodigit, Bool.and_eq_true, decide_eq_true_eq] at hd
        refine ⟨?_, by omega, by omega⟩
        simp only [isspace, Bool.or_eq_false_iff, Bool.and_eq_false_iff, beq_eq_false_iff_ne,
          decide_eq_false_iff_not]
        omega
      · rw [hga, List.dropWhile_cons_of_neg hd] at hdw
        obtain ⟨rfl, -⟩ := List.cons.inj hdw
        have h0 : a = 0 := by omega
        subst h0
        exact ⟨by decide, by decide, by decide⟩
    obtain ⟨h1, h2⟩ := dropWhile_space_append rest f a g2 (hg.trans hga) hna.1
    rw [← hga] at h1 h2
    have hhead : (g ++ rest).head? = some a := by rw [hga]; rfl
    have htw := takeWhile_append_of_dropWhile_cons isodigit g rest c tl hdw
    have hlt := octal_value_lt (g.takeWhile isodigit)
      (fun x hx => List.mem_takeWhile_imp hx)
    have hl1 : (g.takeWhile isodigit).length + (c :: tl).length = g.length := by
      rw [← hdw, ← List.length_append, List.takeWhile_append_dropWhile]
    simp only [List.length_cons] at hl1
    have hl2 : (g.takeWhile isodigit).length ≤ 21 := by omega
    have hlt2 : octal_value (g.takeWhile isodigit) < WORD := by
      calc octal_value (g.takeWhile isodigit) < 8 ^ (g.takeWhile isodigit).length := hlt
        _ ≤ 8 ^ 21 := Nat.pow_le_pow_right (by norm_num) hl2
        _ < WORD := by decide
    unfold strtoul8 field_octal
    simp only [h1, hhead, hg]
    have e1 : (some a == some 45) = false := by simpa using hna.2.1
    have e2 : (some a == some 43) = false := by simpa using hna.2.2
    simp only [e1, e2, Bool.or_self, Bool.false_eq_true, if_false, htw, if_neg (Nat.not_le.2 hlt2)]
  · simp at ht

/-- The bytes from the size field on, in a header with the checksum field
blanked, start with the size field. -/
theorem blank_checksum_drop_size (buf : List Nat) (hl : buf.length = 512) :
    (blank_checksum buf).drop OFF_size =
      size_field buf ++ ((buf.drop 136).take 12 ++ List.replicate 8 32 ++ buf.drop 156) := by
  unfold blank_checksum size_field OFF_size
  have h1 : (buf.take 148).length = 148 := by rw [List.length_take, hl]; rfl
  rw [List.append_assoc, List.drop_append_of_le_length (by omega)]
  have h2 : (buf.take 148).drop 124 = (buf.drop 124).take 12 ++ (buf.drop 136).take 12 := by
    rw [List.drop_take]
    have : (buf.drop 124).take (148 - 124) = (buf.drop 124).take (12 + 12) := rfl
    rw [this, List.take_add, List.drop_drop]
  rw [h2, List.append_assoc, List.append_assoc]

theorem parse_padding_remaining (bytes : List Nat) (p : ParseState) :
    (parse_padding bytes p).ctx.bytes_remaining = p.ctx.bytes_remaining := by
  unfold parse_padding
  simp only []
  split_ifs with h1 h2
  · simp only [Bool.and_eq_true, beq_iff_eq] at h1
    rw [h1.2]
    rfl
  · rfl
  · rfl

/-- Second block of `minotar_parse` from local offset 0: the bytes awaited drop
by the number of bytes the block consumes. -/
theorem parse_payload_remaining (bytes : List Nat) (c : minotar_) (hrem : c.bytes_remaining < WORD)
    (hb : bytes.length < WORD) :
    (parse_payload bytes { ctx := c, offset := 0, calls := [] }).ctx.bytes_remaining +
        (parse_payload bytes { ctx := c, offset := 0, calls := [] }).offset = c.bytes_remaining ∧
    (bytes.length < 2 ^ 63 →
      (parse_payload bytes { ctx := c, offset := 0, calls := [] }).offset
        = min bytes.length c.bytes_remaining) := by
  have hW := WORD_val
  have h1 : usub bytes.length 0 = bytes.length := usub_eq _ _ (Nat.zero_le _) hb
  have hle := Nat.min_le_right bytes.length c.bytes_remaining
  have hle2 := Nat.min_le_left bytes.length c.bytes_remaining
  have h3 : usub c.bytes_remaining (min bytes.length c.bytes_remaining)
      = c.bytes_remaining - min bytes.length c.bytes_remaining := usub_eq _ _ hle hrem
  have h4 : uadd 0 (min bytes.length c.bytes_remaining) = min bytes.length c.bytes_remaining := by
    rw [uadd_eq _ _ (by omega), Nat.zero_add]
  unfold parse_payload
  simp only [h1, MINOTAR_MIN_eq, h3, h4]
  split_ifs with hw
  · constructor
    · show c.bytes_remaining - min bytes.length c.bytes_remaining
        + min bytes.length c.bytes_remaining = c.bytes_remaining
      omega
    · intro _
      rfl
  · simp only []
    refine ⟨rfl, fun h63 => ?_⟩
    by_cases h0 : 0 < min bytes.length c.bytes_remaining
    · exact absurd (to_ssize_pos _ h0 (by omega)) hw
    · omega

/-- C21, as stated, fails: the header of `hello.txt` with the size written as
the 12 digits `000000000003` validates and its file is created; the 12-byte
size field read as octal is 3, but `strtoul` runs on into the digits of the
next field and `bytes_remaining` is set to `3 * 8^11`. -/
theorem size_field_without_terminator :
    (minotar_decode posix_env 1 (fresh_ctx none) hello_header_long_size).map
        (fun r => (r.1, r.2.1.bytes_remaining, r.2.1.record_header_complete, r.2.2))
      = some (MINOTAR_noerror, 25769803776, true,
          [FsCall.fopen (ascii "hello.txt"), FsCall.chmod (ascii "hello.txt") 0o644]) ∧
    size_field hello_header_long_size = ascii "000000000003" ∧
    field_octal (size_field hello_header_long_size) = 3 := by
  refine ⟨?_, ?_, ?_⟩ <;> decide

/-- C21 as amended (`bytes_remaining` discipline): when
`minotar_parse_record_block` succeeds (the header validates and the entry is
created) `bytes_remaining` is what `strtoul` reads in base 8 from the size
field on, which for a size field terminated by a NUL or a space within its 12
bytes is that field read as octal; when it fails, and so when the checksum
fails, `bytes_remaining` is left as it was.  With the header complete, a run of
`minotar_parse` leaves `bytes_remaining` lower by the number of bytes its
payload block consumed, which for a chunk shorter than `2^63` is the smaller of
the chunk length and `bytes_remaining`; so it never grows. -/
theorem bytes_remaining_discipline (env : Env) (ctx : minotar_) (bytes : List Nat)
    (hl : ctx.record_header_buf.length = 512) (hrem : ctx.bytes_remaining < WORD)
    (hb : bytes.length < WORD) :
    ((minotar_parse_record_block env ctx).1 = true →
      (minotar_parse_record_block env ctx).2.1.bytes_remaining
        = strtoul8 ((blank_checksum ctx.record_header_buf).drop OFF_size) ∧
      (field_terminated (size_field ctx.record_header_buf) = true →
        (minotar_parse_record_block env ctx).2.1.bytes_remaining
          = field_octal (size_field ctx.record_header_buf))) ∧
    ((minotar_parse_record_block env ctx).1 = false →
      (minotar_parse_record_block env ctx).2.1.bytes_remaining = ctx.bytes_remaining) ∧
    ((minotar_header_verify_checksum ctx).1 = false →
      (minotar_parse_record_block env ctx).1 = false ∧
      (minotar_parse_record_block env ctx).2.1.error = MINOTAR_invalid_checksum) ∧
    (ctx.record_header_complete = true →
      (minotar_parse env ctx bytes).ctx.bytes_remaining +
          (parse_payload bytes { ctx := ctx, offset := 0, calls := [] }).offset
        = ctx.bytes_remaining ∧
      (minotar_parse env ctx bytes).ctx.bytes_remaining ≤ ctx.bytes_remaining ∧
      (bytes.length < 2 ^ 63 →
        (parse_payload bytes { ctx := ctx, offset := 0, calls := [] }).offset
          = min bytes.length ctx.bytes_remaining)) := by
  have hfr := create_file_frame env
    { ctx with record_header_buf := store ctx.record_header_buf OFF_checksum (List.replicate 8 32),
               record_header_complete := true, rx_byte_offset := 0 }
  refine ⟨fun h => ?_, fun h => ?_, fun h => ?_, fun hc => ?_⟩
  · have h1 : (minotar_parse_record_block env ctx).2.1.bytes_remaining
        = strtoul8 ((blank_checksum ctx.record_header_buf).drop OFF_size) := by
      unfold minotar_parse_record_block at h ⊢
      simp only [verify_checksum_frame] at h ⊢
      split_ifs at h ⊢ with a b
      show minotar_get_file_size _ = _
      unfold minotar_get_file_size
      rw [hfr.2.1]
      show strtoul8 ((store ctx.record_header_buf OFF_checksum (List.replicate 8 32)).drop
        OFF_size) = _
      rw [store_checksum_blank _ hl]
    refine ⟨h1, fun ht => ?_⟩
    rw [h1, blank_checksum_drop_size _ hl]
    exact strtoul8_terminated_wide _ _ (by
      unfold size_field
      rw [List.length_take]
      omega) ht
  · unfold minotar_parse_record_block at h ⊢
    simp only [verify_checksum_frame] at h ⊢
    split_ifs at h ⊢ with a b
    all_goals first
      | rfl
      | exact hfr.2.2.2.1
  · rw [parse_record_block_invalid env ctx h]
    exact ⟨rfl, rfl⟩
  · have hp := parse_payload_remaining bytes ctx hrem hb
    have hq : (minotar_parse env ctx bytes).ctx.bytes_remaining
        = (parse_payload bytes { ctx := ctx, offset := 0, calls := [] }).ctx.bytes_remaining := by
      unfold minotar_parse
      rw [parse_header_skip env bytes _ hc, parse_padding_remaining]
    rw [hq]
    exact ⟨hp.1, by omega, hp.2⟩

/-- Witness of `bytes_remaining_discipline`: the header of `hello.txt`, whose
size field `00000000003` is terminated and gives 3. -/
theorem bytes_remaining_discipline_witness :
    (minotar_parse_record_block posix_env hello_unchecked).2.1.bytes_remaining
      = field_octal (size_field hello_unchecked.record_header_buf) :=
  ((bytes_remaining_discipline posix_env hello_unchecked (hello_archive.drop 512) (by decide)
    (by decide) (by decide)).1 (by decide)).2 (by decide)

/-! ### The end-of-archive block -/

theorem decode_chunks_snoc (env : Env) (fuel : Nat) (chunks : List (List Nat)) (last : List Nat) :
    ∀ (ctx c1 c2 : minotar_) (es : List minotar_error_t) (e : minotar_error_t)
      (t1 t2 : List FsCall),
      decode_chunks env fuel ctx chunks = some (es, c1, t1) →
      minotar_decode env fuel c1 last = some (e, c2, t2) →
      decode_chunks env fuel ctx (chunks ++ [last]) = some (es ++ [e], c2, t1 ++ t2) := by
  induction chunks with
  | nil =>
    intro ctx c1 c2 es e t1 t2 h1 h2
    simp only [decode_chunks, Option.some.injEq, Prod.mk.injEq] at h1
    obtain ⟨rfl, rfl, rfl⟩ := h1
    simp [decode_chunks, h2]
  | cons c cs ih =>
    intro ctx c1 c2 es e t1 t2 h1 h2
    simp only [decode_chunks] at h1
    generalize hq : minotar_decode env fuel ctx c = q at h1
    cases q with
    | none => simp at h1
    | some v =>
      obtain ⟨e0, cm, tm⟩ := v
      simp only [] at h1
      generalize hq2 : decode_chunks env fuel cm cs = q2 at h1
      cases q2 with
      | none => simp at h1
      | some w =>
        obtain ⟨es2, cw, tw⟩ := w
        simp only [Option.some.injEq, Prod.mk.injEq] at h1
        obtain ⟨rfl, rfl, rfl⟩ := h1
        have h3 := ih cm cw c2 es2 e tw t2 hq2 h2
        simp [decode_chunks, hq, h3, List.append_assoc]

/-- The checksum test on the all-zero block: the field reads 0, both sums are
256, and the test fails. -/
theorem zero_block_sums :
    strtoul8 ((List.replicate 512 0).drop OFF_checksum) = 0 ∧
    unsigned_sum (List.replicate 512 0) = 256 ∧ signed_sum (List.replicate 512 0) = 256 := by
  refine ⟨?_, ?_, ?_⟩ <;> decide

theorem zero_block_verify (c : minotar_) (h : c.record_header_buf = List.replicate 512 0) :
    (minotar_header_verify_checksum c).1 = false := by
  have hl : c.record_header_buf.length = 512 := by rw [h]; rfl
  have hb : ∀ b ∈ c.record_header_buf, b < 256 := by
    intro b hm
    rw [h] at hm
    rw [List.eq_of_mem_replicate hm]
    decide
  rw [verify_checksum_eval c hl hb, h, zero_block_sums.1, zero_block_sums.2.1, zero_block_sums.2.2]
  show (0 % WORD32 == 256 || to_int32 0 == 256) = false
  decide

/-- C23, as stated, fails in its last part: the archive made of the header of
a directory whose size field is 1024 and the terminator of 1024 zero bytes is
decoded with `MINOTAR_noerror` at every call, in three chunkings, and ends in
the fresh context: the zero bytes are taken for the payload the size field
announces. -/
theorem terminator_taken_for_payload :
    decode_chunks posix_env 4 (fresh_ctx none)
        [sized_dir_header, List.replicate 512 0, List.replicate 512 0]
      = some ([MINOTAR_noerror, MINOTAR_noerror, MINOTAR_noerror], fresh_ctx none,
          [FsCall.mkdir (ascii "newdir") 0o644, FsCall.chmod (ascii "newdir") 0o644]) ∧
    decode_chunks posix_env 4 (fresh_ctx none) [sized_dir_header ++ List.replicate 1024 0]
      = some ([MINOTAR_noerror], fresh_ctx none,
          [FsCall.mkdir (ascii "newdir") 0o644, FsCall.chmod (ascii "newdir") 0o644]) ∧
    decode_chunks posix_env 4 (fresh_ctx none)
        [sized_dir_header.take 100, sized_dir_header.drop 100 ++ List.replicate 1024 0]
      = some ([MINOTAR_noerror, MINOTAR_noerror], fresh_ctx none,
          [FsCall.mkdir (ascii "newdir") 0o644, FsCall.chmod (ascii "newdir") 0o644]) ∧
    checksum_accepts sized_dir_header = true ∧
    field_octal ((sized_dir_header.drop 124).take 12) = 1024 := by
  refine ⟨?_, ?_, ?_, ?_, ?_⟩ <;> decide

/-- C23 as amended (the end-of-archive block is rejected): when the first 512
bytes fed to a fresh context, in whatever chunks, are zero, the checksum field
reads 0 while both sums are 256, the checksum test fails, the calls before the
512th byte return `MINOTAR_noerror`, the call that supplies it returns
`MINOTAR_invalid_checksum` whatever follows in its chunk, no library call is
made, and every later call returns `MINOTAR_invalid_checksum`: decoding that
reaches the terminator in a fresh context ends with that error. -/
theorem zero_block_rejected (env : Env) (fuel : Nat) (root : Option (List Nat))
    (chunks : List (List Nat)) (last more : List Nat)
    (hm : chunks.flatten.length < 512) (hlast : 512 ≤ chunks.flatten.length + last.length)
    (hz : (chunks.flatten ++ last).take 512 = List.replicate 512 0) :
    strtoul8 ((List.replicate 512 0).drop OFF_checksum) = 0 ∧
    unsigned_sum (List.replicate 512 0) = 256 ∧ signed_sum (List.replicate 512 0) = 256 ∧
    (minotar_header_verify_checksum
      { fresh_ctx root with record_header_buf := List.replicate 512 0, rx_byte_offset := 512 }).1
      = false ∧
    decode_chunks env (fuel + 1) (fresh_ctx root) (chunks ++ [last]) =
      some (List.replicate chunks.length MINOTAR_noerror ++ [MINOTAR_invalid_checksum],
        zero_block_rejected_ctx root, []) ∧
    minotar_decode env fuel (zero_block_rejected_ctx root) more =
      some (MINOTAR_invalid_checksum, zero_block_rejected_ctx root, []) := by
  refine ⟨zero_block_sums.1, zero_block_sums.2.1, zero_block_sums.2.2,
    zero_block_verify _ rfl, ?_, minotar_decode_error env fuel _ more (by
      show MINOTAR_invalid_checksum ≠ MINOTAR_noerror
      decide)⟩
  have h1 := decode_chunks_awaiting env fuel root chunks [] (by simpa using hm)
  rw [awaiting_ctx_nil, List.nil_append] at h1
  -- the bytes stored so far and the bytes that complete the block are zero
  rw [List.take_append_eq_append_take, List.take_of_length_le (by omega)] at hz
  have hA : chunks.flatten = List.replicate chunks.flatten.length 0 := by
    have := congrArg (List.take chunks.flatten.length) hz
    rw [List.take_left, List.take_replicate,
      Nat.min_eq_left (Nat.le_of_lt hm)] at this
    exact this
  have hB : last.take (512 - chunks.flatten.length)
      = List.replicate (512 - chunks.flatten.length) 0 := by
    have := congrArg (List.drop chunks.flatten.length) hz
    rw [List.drop_left, List.drop_replicate] at this
    exact this
  have hbuf : (awaiting_ctx root chunks.flatten).record_header_buf = List.replicate 512 0 := by
    show chunks.flatten ++ List.replicate (512 - chunks.flatten.length) 0 = _
    rw [hA, List.length_replicate, ← List.replicate_add]
    congr 1
    omega
  have hstore : store (awaiting_ctx root chunks.flatten).record_header_buf
      (awaiting_ctx root chunks.flatten).rx_byte_offset
      (last.take (512 - (awaiting_ctx root chunks.flatten).rx_byte_offset))
      = List.replicate 512 0 := by
    rw [hbuf]
    show store _ chunks.flatten.length (last.take (512 - chunks.flatten.length)) = _
    rw [hB]
    exact store_zeros 512 _ _ (by omega)
  have h2 := decode_header_invalid env fuel (awaiting_ctx root chunks.flatten) last rfl rfl rfl hm
    hlast (zero_block_verify _ hstore)
  rw [hstore, store_checksum_blank _ (by rfl)] at h2
  exact decode_chunks_snoc env (fuel + 1) chunks last _ _ _ _ _ _ _ h1 h2

/-- Witness of `zero_block_rejected`: the terminator of 1024 zero bytes fed in
chunks of 100, 0, 300 and 624 bytes. -/
theorem zero_block_rejected_witness :
    decode_chunks posix_env 1 (fresh_ctx none)
        ([List.replicate 100 0, [], List.replicate 300 0] ++ [List.replicate 624 0]) =
      some (List.replicate 3 MINOTAR_noerror ++ [MINOTAR_invalid_checksum],
        zero_block_rejected_ctx none, []) :=
  (zero_block_rejected posix_env 0 none [List.replicate 100 0, [], List.replicate 300 0]
    (List.replicate 624 0) [] (by decide) (by decide) (by decide)).2.2.2.2.1

/-! ### Round trip and payload at failing inputs -/

/-- C5 at a failing input: in a build where the enum `tar_file_type_t` has four
bytes, the archive of `hello.txt` is decoded with `MINOTAR_noerror` at every
call, cut after bytes 100 and 600 or fed in one piece, but the file is created,
written and closed at the path `hello.tx`: the magic is read three bytes too
far, the header is not taken for ustar, the path length is 9 and `snprintf`
keeps 8 bytes of the name. -/
theorem hello_round_trip_wide_enum :
    (decode_chunks wide_enum_env 2 (fresh_ctx none)
        [hello_archive.take 100, (hello_archive.drop 100).take 500, hello_archive.drop 600]).map
        (fun r => (r.1, r.2.2))
      = some ([MINOTAR_noerror, MINOTAR_noerror, MINOTAR_noerror],
          [FsCall.fopen (ascii "hello.tx"), FsCall.chmod (ascii "hello.tx") 0o644,
           FsCall.fwrite (ascii "hello.tx") (ascii "hi" ++ [10]),
           FsCall.fclose (ascii "hello.tx")]) ∧
    (decode_chunks wide_enum_env 2 (fresh_ctx none) [hello_archive]).map (fun r => (r.1, r.2.2))
      = some ([MINOTAR_noerror],
          [FsCall.fopen (ascii "hello.tx"), FsCall.chmod (ascii "hello.tx") 0o644,
           FsCall.fwrite (ascii "hello.tx") (ascii "hi" ++ [10])]) ∧
    minotar_header_has_extended_path wide_enum_env.sizeof_typeflag hello_checked = false ∧
    minotar_header_get_path_length wide_enum_env.sizeof_typeflag hello_checked = 9 ∧
    created_path wide_enum_env hello_checked = ascii "hello.tx" := by
  refine ⟨?_, ?_, ?_, ?_, ?_⟩ <;> decide

/-- C13, as stated, fails: the header of `hello.txt` with the size written as
the 12 digits `000000000003` has a valid checksum and its size field reads 3,
but after it the whole next block (the three payload bytes and their padding)
and the first 512 zero bytes that end the archive are written to the file, 1024
bytes, and more bytes are awaited. -/
theorem payload_runs_past_unterminated_size :
    (decode_chunks posix_env 2 (fresh_ctx none)
        [hello_header_long_size, field 512 (ascii "hi" ++ [10]), List.replicate 512 0]).map
        (fun r => (r.1, written (ascii "hello.txt") r.2.2, r.2.1.bytes_remaining))
      = some ([MINOTAR_noerror, MINOTAR_noerror, MINOTAR_noerror],
          field 512 (ascii "hi" ++ [10]) ++ List.replicate 512 0, 25769802752) ∧
    checksum_accepts hello_header_long_size = true ∧
    field_octal (size_field hello_header_long_size) = 3 := by
  refine ⟨?_, ?_, ?_⟩ <;> decide

/-! ### Payload streaming after a header -/

theorem strtoul8_lt (s : List Nat) : strtoul8 s < WORD := by
  have hW : 0 < WORD := by decide
  unfold strtoul8
  simp only []
  split_ifs
  all_goals first
    | omega
    | exact Nat.mod_lt _ hW

theorem create_file_no_write (env : Env) (c : minotar_) :
    ∀ g d, FsCall.fwrite g d ∉ (minotar_create_file env c).2.2 := by
  intro g d
  unfold minotar_create_file
  simp only []
  split_ifs <;> simp

theorem written_nil_of_no_write (f : List Nat) (t : List FsCall)
    (h : ∀ g d, FsCall.fwrite g d ∉ t) : written f t = [] := by
  induction t with
  | nil => rfl
  | cons x xs ih =>
    have hx := ih (fun g d hm => h g d (List.mem_cons_of_mem _ hm))
    cases x with
    | fwrite g d => exact absurd (List.mem_cons_self _ _) (h g d)
    | _ => simpa [written] using hx

/-- What a successful `minotar_parse_record_block` leaves: the header complete,
the cursor 0, the error as it was, the bytes awaited as `strtoul` reads them at
the size field, and no write among its library calls. -/
theorem record_block_success (env : Env) (ctx : minotar_)
    (hl : ctx.record_header_buf.length = 512)
    (hv : (minotar_parse_record_block env ctx).1 = true) :
    (minotar_parse_record_block env ctx).2.1.record_header_complete = true ∧
    (minotar_parse_record_block env ctx).2.1.rx_byte_offset = 0 ∧
    (minotar_parse_record_block env ctx).2.1.error = ctx.error ∧
    (minotar_parse_record_block env ctx).2.1.bytes_remaining
      = strtoul8 ((blank_checksum ctx.record_header_buf).drop OFF_size) ∧
    (∀ g d, FsCall.fwrite g d ∉ (minotar_parse_record_block env ctx).2.2) := by
  have hfr := create_file_frame env
    { ctx with record_header_buf := store ctx.record_header_buf OFF_checksum (List.replicate 8 32),
               record_header_complete := true, rx_byte_offset := 0 }
  have hnw := create_file_no_write env
    { ctx with record_header_buf := store ctx.record_header_buf OFF_checksum (List.replicate 8 32),
               record_header_complete := true, rx_byte_offset := 0 }
  unfold minotar_parse_record_block at hv ⊢
  simp only [verify_checksum_frame] at hv ⊢
  split_ifs at hv ⊢ with a b
  refine ⟨hfr.1, hfr.2.2.1, hfr.2.2.2.2.2 (by simpa using b), ?_, hnw⟩
  show minotar_get_file_size _ = _
  unfold minotar_get_file_size
  rw [hfr.2.1]
  show strtoul8 ((store ctx.record_header_buf OFF_checksum (List.replicate 8 32)).drop
    OFF_size) = _
  rw [store_checksum_blank _ hl]

theorem completed_header_length (ctx : minotar_) (bytes : List Nat)
    (hl : ctx.record_header_buf.length = 512) (hk : ctx.rx_byte_offset < 512) :
    (completed_header ctx bytes).record_header_buf.length = 512 := by
  show (store ctx.record_header_buf ctx.rx_byte_offset _).length = 512
  rw [store_length _ _ _ (by omega), hl]

/-- A successful record block on a header with a terminated size field awaits
the size the header declares. -/
theorem record_block_declared_size (env : Env) (ctx : minotar_)
    (hl : ctx.record_header_buf.length = 512)
    (hv : (minotar_parse_record_block env ctx).1 = true)
    (ht : field_terminated (size_field ctx.record_header_buf) = true) :
    (minotar_parse_record_block env ctx).2.1.bytes_remaining
      = declared_size ctx.record_header_buf := by
  rw [(record_block_success env ctx hl hv).2.2.2.1, blank_checksum_drop_size _ hl]
  exact strtoul8_terminated_wide _ _ (by
    unfold size_field
    rw [List.length_take]
    omega) ht

theorem take_min_length (l : List Nat) (n : Nat) : l.take (min l.length n) = l.take n := by
  rcases Nat.le_total l.length n with h | h
  · rw [Nat.min_eq_left h, List.take_of_length_le h, List.take_of_length_le (Nat.le_refl _)]
  · rw [Nat.min_eq_right h]

theorem parse_payload_frame (bytes : List Nat) (p : ParseState) :
    (parse_payload bytes p).ctx.record_header_complete = p.ctx.record_header_complete ∧
    (parse_payload bytes p).ctx.error = p.ctx.error ∧
    (parse_payload bytes p).ctx.file = p.ctx.file ∧
    (p.ctx.rx_byte_offset < WORD → (parse_payload bytes p).ctx.rx_byte_offset < WORD) := by
  unfold parse_payload
  simp only []
  split_ifs
  · exact ⟨rfl, rfl, rfl, fun _ => Nat.mod_lt _ (by decide)⟩
  · exact ⟨rfl, rfl, rfl, fun h => h⟩

/-- The run of `minotar_parse` that completes a header whose record block
succeeds with the file `f` open: the library calls are those of the record
block, then one write of the bytes that follow the header in the chunk, as many
as are there and awaited, then a possible `fclose`. -/
theorem parse_completing_header (env : Env) (ctxH : minotar_) (first f : List Nat)
    (hc : ctxH.record_header_complete = false) (hk : ctxH.rx_byte_offset < 512)
    (hl : ctxH.record_header_buf.length = 512)
    (hn : 512 ≤ ctxH.rx_byte_offset + first.length) (hfl : first.length < 2 ^ 63)
    (hv : (minotar_parse_record_block env (completed_header ctxH first)).1 = true)
    (hf : (minotar_parse_record_block env (completed_header ctxH first)).2.1.file = some f)
    (ht : field_terminated (size_field (completed_header ctxH first).record_header_buf) = true) :
    ∃ cl, (cl = [] ∨ cl = [FsCall.fclose f]) ∧
      (minotar_parse env ctxH first).calls =
        (minotar_parse_record_block env (completed_header ctxH first)).2.2 ++
        (if 0 < min (first.length - (512 - ctxH.rx_byte_offset))
            (declared_size (completed_header ctxH first).record_header_buf)
         then [FsCall.fwrite f ((first.drop (512 - ctxH.rx_byte_offset)).take
            (min (first.length - (512 - ctxH.rx_byte_offset))
              (declared_size (completed_header ctxH first).record_header_buf)))]
         else []) ++ cl ∧
      written f (minotar_parse env ctxH first).calls =
        (first.drop (512 - ctxH.rx_byte_offset)).take
          (declared_size (completed_header ctxH first).record_header_buf) ∧
      (minotar_parse env ctxH first).ctx.bytes_remaining =
        declared_size (completed_header ctxH first).record_header_buf -
          min (first.length - (512 - ctxH.rx_byte_offset))
            (declared_size (completed_header ctxH first).record_header_buf) := by
  have hHl := completed_header_length ctxH first hl hk
  have hs := record_block_success env (completed_header ctxH first) hHl hv
  have hds := record_block_declared_size env (completed_header ctxH first) hHl hv ht
  have hph : parse_header env first { ctx := ctxH, offset := 0, calls := [] } =
      { ctx := (minotar_parse_record_block env (completed_header ctxH first)).2.1,
        offset := 512 - ctxH.rx_byte_offset,
        calls := (minotar_parse_record_block env (completed_header ctxH first)).2.2 } :=
    parse_header_complete env ctxH first hc hk hn
  have hrW : (minotar_parse_record_block env (completed_header ctxH first)).2.1.bytes_remaining
      < WORD := by rw [hs.2.2.2.1]; exact strtoul8_lt _
  obtain ⟨cl, hcl, h1, h2⟩ := minotar_parse_stream env ctxH first f hfl
    (by rw [hph]; exact hf) (by rw [hph]; exact hrW)
  rw [hph] at h1 h2
  simp only [] at h1 h2
  rw [hds] at h1 h2
  refine ⟨cl, hcl, h1, ?_, h2⟩
  have hcw : written f cl = [] := by
    rcases hcl with h | h <;> rw [h] <;> rfl
  have hw1 : ∀ d : List Nat, written f [FsCall.fwrite f d] = d := by
    intro d
    simp [written]
  rw [h1, written_append, written_append, hcw, List.append_nil,
    written_nil_of_no_write f _ hs.2.2.2.2, List.nil_append]
  have hlen : (first.drop (512 - ctxH.rx_byte_offset)).length
      = first.length - (512 - ctxH.rx_byte_offset) := List.length_drop _ _
  split_ifs with hw
  · rw [hw1, ← hlen, take_min_length]
  · rw [← take_min_length]
    have : min (first.drop (512 - ctxH.rx_byte_offset)).length
        (declared_size (completed_header ctxH first).record_header_buf) = 0 := by
      rw [hlen]; omega
    rw [this]
    rfl

/-! ### Payload streaming after a header, through the chunks -/

/-- The call of `minotar_decode` on the chunk that completes the header, when
the payload goes on after the chunk: the call returns `MINOTAR_noerror`, the
bytes of the chunk after the header have been written to `f`, and the context
awaits the rest of the declared size with the file open. -/
theorem decode_completing_header (env : Env) (fuel : Nat) (ctxH : minotar_) (first f : List Nat)
    (hc : ctxH.record_header_complete = false) (he : ctxH.error = MINOTAR_noerror)
    (hk : ctxH.rx_byte_offset < 512) (hl : ctxH.record_header_buf.length = 512)
    (hn : 512 ≤ ctxH.rx_byte_offset + first.length) (hfl : first.length < 2 ^ 63)
    (hv : (minotar_parse_record_block env (completed_header ctxH first)).1 = true)
    (hf : (minotar_parse_record_block env (completed_header ctxH first)).2.1.file = some f)
    (ht : field_terminated (size_field (completed_header ctxH first).record_header_buf) = true)
    (hm : first.length - (512 - ctxH.rx_byte_offset)
      < declared_size (completed_header ctxH first).record_header_buf) :
    ∃ c1 t1, minotar_decode env (fuel + 1) ctxH first = some (MINOTAR_noerror, c1, t1) ∧
      c1.record_header_complete = true ∧ c1.error = MINOTAR_noerror ∧ c1.file = some f ∧
      c1.rx_byte_offset < WORD ∧
      c1.bytes_remaining = declared_size (completed_header ctxH first).record_header_buf -
        (first.length - (512 - ctxH.rx_byte_offset)) ∧
      written f t1 = first.drop (512 - ctxH.rx_byte_offset) := by
  have hW := WORD_val
  have hHl := completed_header_length ctxH first hl hk
  have hs := record_block_success env (completed_header ctxH first) hHl hv
  have hds := record_block_declared_size env (completed_header ctxH first) hHl hv ht
  have hph : parse_header env first { ctx := ctxH, offset := 0, calls := [] } =
      { ctx := (minotar_parse_record_block env (completed_header ctxH first)).2.1,
        offset := 512 - ctxH.rx_byte_offset,
        calls := (minotar_parse_record_block env (completed_header ctxH first)).2.2 } :=
    parse_header_complete env ctxH first hc hk hn
  obtain ⟨cl, -, -, hwr, hrem⟩ := parse_completing_header env ctxH first f hc hk hl hn hfl hv hf ht
  have hmin : min (first.length - (512 - ctxH.rx_byte_offset))
      (declared_size (completed_header ctxH first).record_header_buf)
      = first.length - (512 - ctxH.rx_byte_offset) := Nat.min_eq_left (Nat.le_of_lt hm)
  rw [hmin] at hrem
  have hwr2 : written f (minotar_parse env ctxH first).calls
      = first.drop (512 - ctxH.rx_byte_offset) := by
    rw [hwr, List.take_of_length_le]
    rw [List.length_drop]
    omega
  -- the payload and padding blocks after the header block
  have hpf := parse_payload_frame first
    (parse_header env first { ctx := ctxH, offset := 0, calls := [] })
  have hpad : minotar_parse env ctxH first = parse_payload first
      (parse_header env first { ctx := ctxH, offset := 0, calls := [] }) := by
    have hne : (parse_payload first
        (parse_header env first { ctx := ctxH, offset := 0, calls := [] })).ctx.bytes_remaining
        ≠ 0 := by
      have e : (minotar_parse env ctxH first).ctx.bytes_remaining
          = (parse_payload first
            (parse_header env first { ctx := ctxH, offset := 0, calls := [] })).ctx.bytes_remaining :=
        parse_padding_remaining first _
      rw [← e, hrem]
      omega
    exact parse_padding_payload_left first _ hne
  have hoff : (minotar_parse env ctxH first).offset = first.length := by
    rw [hpad, parse_payload_stream first _ f (by rw [hph]; exact hf)
      (by rw [hph]; show 512 - ctxH.rx_byte_offset ≤ first.length; omega) hfl
      (by rw [hph, hs.2.2.2.1]; exact strtoul8_lt _)]
    rw [hph]
    simp only []
    rw [hds, hmin]
    split_ifs
    · show 512 - ctxH.rx_byte_offset + (first.length - (512 - ctxH.rx_byte_offset)) = first.length
      omega
    · show 512 - ctxH.rx_byte_offset = first.length
      omega
  refine ⟨(minotar_parse env ctxH first).ctx, (minotar_parse env ctxH first).calls, ?_, ?_, ?_, ?_,
    ?_, hrem, hwr2⟩
  · have hd := minotar_decode_one_parse env fuel ctxH first he (by omega) (by omega) hoff
    have herr : (minotar_parse env ctxH first).ctx.error = MINOTAR_noerror := by
      rw [hpad, hpf.2.1, hph]
      show (minotar_parse_record_block env (completed_header ctxH first)).2.1.error = _
      rw [hs.2.2.1]
      exact he
    rw [hd, herr]
  · rw [hpad, hpf.1, hph]; exact hs.1
  · rw [hpad, hpf.2.1, hph]
    show (minotar_parse_record_block env (completed_header ctxH first)).2.1.error = _
    rw [hs.2.2.1]
    exact he
  · rw [hpad, hpf.2.2.1, hph]; exact hf
  · rw [hpad]
    apply hpf.2.2.2
    rw [hph]
    show (minotar_parse_record_block env (completed_header ctxH first)).2.1.rx_byte_offset < WORD
    rw [hs.2.1]
    decide

/-- C13 as amended (payload streaming): take a context awaiting a header and
a chunk `first` that completes it, such that the checksum is accepted, the
entry is created with the file `f` open, and the 12-byte size field is
terminated by a NUL or a space and reads `n`.  Then `n` bytes are awaited; the
run of `minotar_parse` on `first` makes the calls of the record block, which
write nothing, then writes the bytes of `first` that follow the header, at most
`n` of them, so no header byte is written.  When the payload goes on through
the chunks `chunks` and ends in the chunk `last`, every call before `last`
returns `MINOTAR_noerror` and the bytes written to `f`, up to and with the run
on `last`, are the first `n` bytes of the stream that follows the header; no
byte is awaited afterwards, and with the header complete and no byte awaited a
run writes nothing.  Chunk lengths are below `2^63`. -/
theorem payload_streaming_of_header (env : Env) (fuel : Nat) (ctxH : minotar_)
    (first f : List Nat) (chunks : List (List Nat)) (last : List Nat)
    (hc : ctxH.record_header_complete = false) (he : ctxH.error = MINOTAR_noerror)
    (hk : ctxH.rx_byte_offset < 512) (hl : ctxH.record_header_buf.length = 512)
    (hn : 512 ≤ ctxH.rx_byte_offset + first.length) (hfl : first.length < 2 ^ 63)
    (hv : (minotar_parse_record_block env (completed_header ctxH first)).1 = true)
    (hf : (minotar_parse_record_block env (completed_header ctxH first)).2.1.file = some f)
    (ht : field_terminated (size_field (completed_header ctxH first).record_header_buf) = true) :
    (minotar_parse_record_block env (completed_header ctxH first)).2.1.bytes_remaining
      = declared_size (completed_header ctxH first).record_header_buf ∧
    (∀ g d, FsCall.fwrite g d ∉ (minotar_parse_record_block env (completed_header ctxH first)).2.2) ∧
    (∃ cl, (cl = [] ∨ cl = [FsCall.fclose f]) ∧
      (minotar_parse env ctxH first).calls =
        (minotar_parse_record_block env (completed_header ctxH first)).2.2 ++
        (if 0 < min (first.length - (512 - ctxH.rx_byte_offset))
            (declared_size (completed_header ctxH first).record_header_buf)
         then [FsCall.fwrite f ((first.drop (512 - ctxH.rx_byte_offset)).take
            (min (first.length - (512 - ctxH.rx_byte_offset))
              (declared_size (completed_header ctxH first).record_header_buf)))]
         else []) ++ cl ∧
      written f (minotar_parse env ctxH first).calls =
        (first.drop (512 - ctxH.rx_byte_offset)).take
          (declared_size (completed_header ctxH first).record_header_buf) ∧
      (minotar_parse env ctxH first).ctx.bytes_remaining =
        declared_size (completed_header ctxH first).record_header_buf -
          min (first.length - (512 - ctxH.rx_byte_offset))
            (declared_size (completed_header ctxH first).record_header_buf)) ∧
    (first.length - (512 - ctxH.rx_byte_offset) + chunks.flatten.length
        < declared_size (completed_header ctxH first).record_header_buf →
      declared_size (completed_header ctxH first).record_header_buf
        ≤ first.length - (512 - ctxH.rx_byte_offset) + chunks.flatten.length + last.length →
      (∀ c ∈ chunks, c.length < 2 ^ 63) → last.length < 2 ^ 63 →
      ∃ c1 t1 mid t,
        minotar_decode env (fuel + 1) ctxH first = some (MINOTAR_noerror, c1, t1) ∧
        decode_chunks env (fuel + 1) c1 chunks =
          some (List.replicate chunks.length MINOTAR_noerror, mid, t) ∧
        written f (t1 ++ t ++ (minotar_parse env mid last).calls) =
          (first.drop (512 - ctxH.rx_byte_offset) ++ chunks.flatten ++ last).take
            (declared_size (completed_header ctxH first).record_header_buf) ∧
        (minotar_parse env mid last).ctx.bytes_remaining = 0) ∧
    (∀ (c : minotar_) (bytes : List Nat), c.record_header_complete = true →
      c.bytes_remaining = 0 → ∀ g d, FsCall.fwrite g d ∉ (minotar_parse env c bytes).calls) := by
  have hHl := completed_header_length ctxH first hl hk
  refine ⟨record_block_declared_size env _ hHl hv ht,
    (record_block_success env _ hHl hv).2.2.2.2,
    parse_completing_header env ctxH first f hc hk hl hn hfl hv hf ht,
    fun hm hlast hs hll => ?_,
    fun c bytes h1 h2 => minotar_parse_no_write env c bytes h1 h2⟩
  obtain ⟨c1, t1, hd, h1, h2, h3, h4, h5, h6⟩ := decode_completing_header env fuel ctxH first f
    hc he hk hl hn hfl hv hf ht (by omega)
  have hW := WORD_val
  have hsW : declared_size (completed_header ctxH first).record_header_buf < WORD := by
    rw [← record_block_declared_size env _ hHl hv ht,
      (record_block_success env _ hHl hv).2.2.2.1]
    exact strtoul8_lt _
  obtain ⟨mid, t, g1, -, -, -, g5, g6⟩ := (payload_streaming env fuel c1 f chunks last h1 h2 h3 h4
    (by rw [h5]; omega) hs hll (by rw [h5]; omega) (by rw [h5]; omega)).1
  refine ⟨c1, t1, mid, t, hd, g1, ?_, g6⟩
  have hdl : (first.drop (512 - ctxH.rx_byte_offset)).length
      = first.length - (512 - ctxH.rx_byte_offset) := List.length_drop _ _
  have htk : (first.drop (512 - ctxH.rx_byte_offset)).take
      (declared_size (completed_header ctxH first).record_header_buf)
      = first.drop (512 - ctxH.rx_byte_offset) :=
    List.take_of_length_le (by rw [hdl]; omega)
  have e1 : written f (t1 ++ t ++ (minotar_parse env mid last).calls)
      = first.drop (512 - ctxH.rx_byte_offset) ++ (chunks.flatten ++ last).take
          (declared_size (completed_header ctxH first).record_header_buf
            - (first.length - (512 - ctxH.rx_byte_offset))) := by
    rw [List.append_assoc, written_append, h6, g5, h5]
  have e2 : (first.drop (512 - ctxH.rx_byte_offset) ++ chunks.flatten ++ last).take
        (declared_size (completed_header ctxH first).record_header_buf)
      = first.drop (512 - ctxH.rx_byte_offset) ++ (chunks.flatten ++ last).take
          (declared_size (completed_header ctxH first).record_header_buf
            - (first.length - (512 - ctxH.rx_byte_offset))) := by
    rw [List.append_assoc, List.take_append_eq_append_take, htk, hdl]
  rw [e1, e2]

/-- Witness of `payload_streaming_of_header`: the archive of `hello.txt` fed to
a fresh context in chunks of 513, 1 and 3 bytes. -/
theorem payload_streaming_of_header_witness :
    ∃ c1 t1 mid t,
      minotar_decode posix_env 1 (fresh_ctx none) (hello_archive.take 513)
        = some (MINOTAR_noerror, c1, t1) ∧
      decode_chunks posix_env 1 c1 [[105]] = some (List.replicate 1 MINOTAR_noerror, mid, t) ∧
      written (ascii "hello.txt") (t1 ++ t ++ (minotar_parse posix_env mid [10, 0, 0]).calls) =
        ((hello_archive.take 513).drop (512 - (fresh_ctx none).rx_byte_offset) ++
          [[105]].flatten ++ [10, 0, 0]).take
          (declared_size
            (completed_header (fresh_ctx none) (hello_archive.take 513)).record_header_buf) ∧
      (minotar_parse posix_env mid [10, 0, 0]).ctx.bytes_remaining = 0 :=
  (payload_streaming_of_header posix_env 0 (fresh_ctx none) (hello_archive.take 513)
    (ascii "hello.txt") [[105]] [10, 0, 0] rfl rfl (by decide) (by decide) (by decide)
    (by decide) (by decide) (by decide) (by decide)).2.2.2.1 (by decide) (by decide) (by decide)
    (by decide)

end Minotar
